import Mathlib

/-! # Presentation mode of the document viewer: the job window

A shallow embedding of `libview/ev-view-presentation.c` (the page navigation
part) and a verification of the invariants of the three render jobs
`prev_job`, `curr_job`, `next_job`.

Conventions of the embedding.

* A `guint` is a natural number below `2 ^ 32`, a `gint` an integer in
  `[-2 ^ 31, 2 ^ 31)`; every conversion and every unsigned operation of the C
  source is written out (`to_guint`, `to_gint`, `guint_add`, `guint_sub`).
* A `NULL` pointer is `none`.  A function that dereferences a pointer without
  a test returns `Option`: `none` is the crash.
* The job scheduler, the GLib main loop and the widget redraw queue are
  outside the file; the calls made to them are recorded in the session
  (`sched`, `sources`, `redraws`), the newest call first.
* The document is immutable during a session and is passed as a parameter.
* Not part of the record: the cursor, the goto window, the page cache, the
  monitor size and the scale cache.  `ev_view_presentation_schedule_new_job`
  reads the scale cache only to pass a scale to `ev_job_render_new`;
  `ev_view_presentation_get_scale_for_page` is embedded on a record of the
  fields it reads and writes (`EvViewScale`), with rationals for `gdouble`.
* A key is one of the classes of keys that the key handler and the bindings of
  the class tell apart (`GdkKey`); the link under the pointer is an argument
  of the button handler.
-/

namespace Evince

/-! ## Machine integers -/

/-- The conversion of an integer to `guint`: reduction modulo `2 ^ 32`. -/
def to_guint (x : Int) : Nat := (x % 4294967296).toNat

/-- The conversion of an unsigned value to `gint`: the representative of the
class modulo `2 ^ 32` in `[-2 ^ 31, 2 ^ 31)`. -/
def to_gint (x : Nat) : Int :=
  if x % 4294967296 < 2147483648 then ((x % 4294967296 : Nat) : Int)
  else ((x % 4294967296 : Nat) : Int) - 4294967296

/-- Addition of two `guint`. -/
def guint_add (a b : Nat) : Nat := (a + b) % 4294967296

/-- Subtraction of two `guint`: the difference, reduced modulo `2 ^ 32`. -/
def guint_sub (a b : Nat) : Nat := to_guint ((a : Int) - (b : Int))

/-! ## Data model -/

/-- The four states of `EvPresentationState`. -/
inductive EvPresentationState where
  | EV_PRESENTATION_NORMAL
  | EV_PRESENTATION_BLACK
  | EV_PRESENTATION_WHITE
  | EV_PRESENTATION_END
deriving DecidableEq, Repr

/-- Modelled from the spec: the enumeration `EvJobPriority` of `ev-job-scheduler.h`,
which is not among the sources; the spec names the three tiers `Urgent`, `High`
and `Low` used by the presentation. -/
inductive EvJobPriority where
  | EV_JOB_PRIORITY_URGENT
  | EV_JOB_PRIORITY_HIGH
  | EV_JOB_PRIORITY_LOW
deriving DecidableEq, Repr

/-- A render job (`EvJobRender`): `id` is the identity of the object (the
number of the allocation by `ev_job_render_new`), `page` the page it renders,
`surface` the rendered image, `none` until the render is done. -/
structure EvJob where
  id : Nat
  page : Int
  surface : Option Nat
deriving DecidableEq, Repr

/-- A transition animation (`EvTransitionAnimation`) with the effect it was
created for and the two surfaces set on it. -/
structure EvTransitionAnimation where
  effect : Nat
  origin_surface : Option Nat
  dest_surface : Option Nat
deriving DecidableEq, Repr

/-- A call made to the job scheduler. -/
inductive SchedOp where
  /-- A call `ev_job_scheduler_push_job (job, priority)` for a new job for `page`. -/
  | push (job : Nat) (page : Int) (priority : EvJobPriority)
  /-- A call `ev_job_cancel (job)`. -/
  | cancel (job : Nat)
  /-- A call `ev_job_scheduler_update_job (job, priority)`. -/
  | update (job : Nat) (priority : EvJobPriority)
deriving DecidableEq, Repr

/-- What the presentation asks of the document. -/
structure EvDocument where
  /-- The result of `ev_document_get_n_pages`, a `gint`. -/
  n_pages : Int
  /-- The test `EV_IS_DOCUMENT_TRANSITION`. -/
  is_transition : Bool
  /-- The result of `ev_document_transition_get_effect`, for a `gint` page. -/
  effect : Int → Option Nat
  /-- The result of `ev_document_transition_get_page_duration`, in seconds. -/
  page_duration : Nat → Int

/-- The fields of `struct _EvViewPresentation` that the page navigation uses,
followed by the record of the calls to the scheduler (`sched`, newest first,
and `next_job_id`, the number of jobs allocated), to the main loop (`sources`,
the timeout sources that are armed, and `next_source_id`) and to
`gtk_widget_queue_draw` (`redraws`). -/
structure EvViewPresentation where
  current_page : Nat
  current_surface : Option Nat
  rotation : Nat
  state : EvPresentationState
  trans_timeout_id : Nat
  enable_animations : Bool
  animation : Option EvTransitionAnimation
  prev_job : Option EvJob
  curr_job : Option EvJob
  next_job : Option EvJob
  sched : List SchedOp
  next_job_id : Nat
  sources : List Nat
  next_source_id : Nat
  redraws : Nat
deriving DecidableEq, Repr

/-! ## The scheduler seen through its calls -/

/-- The jobs pushed to the scheduler and not cancelled since. -/
def outstanding : List SchedOp → List Nat
  | [] => []
  | SchedOp.push j _ _ :: rest => j :: outstanding rest
  | SchedOp.cancel j :: rest => (outstanding rest).filter (fun i => i ≠ j)
  | SchedOp.update _ _ :: rest => outstanding rest

/-- The priority most recently given to a job, at its push or by an update. -/
def last_priority (job : Nat) : List SchedOp → Option EvJobPriority
  | [] => none
  | SchedOp.push j _ p :: rest => if j = job then some p else last_priority job rest
  | SchedOp.cancel _ :: rest => last_priority job rest
  | SchedOp.update j p :: rest => if j = job then some p else last_priority job rest

/-- The jobs held in the three slots. -/
def held (pview : EvViewPresentation) : List EvJob :=
  pview.prev_job.toList ++ pview.curr_job.toList ++ pview.next_job.toList

/-- A slot as the spec describes it: empty, or the page of its job with the
priority the scheduler was last given for it. -/
def slot_view (pview : EvViewPresentation) (slot : Option EvJob) :
    Option (Int × Option EvJobPriority) :=
  slot.map (fun j => (j.page, last_priority j.id pview.sched))

/-- The job window `(previous, current, next)`. -/
def window (pview : EvViewPresentation) :
    Option (Int × Option EvJobPriority) × Option (Int × Option EvJobPriority) ×
      Option (Int × Option EvJobPriority) :=
  (slot_view pview pview.prev_job, slot_view pview pview.curr_job, slot_view pview pview.next_job)

/-! ## The functions of `ev-view-presentation.c` -/

/-- A call of `gtk_widget_queue_draw`. -/
def queue_draw (pview : EvViewPresentation) : EvViewPresentation :=
  { pview with redraws := pview.redraws + 1 }

/-- `ev_view_presentation_set_normal` -/
def ev_view_presentation_set_normal (pview : EvViewPresentation) : EvViewPresentation :=
  if pview.state = EvPresentationState.EV_PRESENTATION_NORMAL then pview
  else queue_draw { pview with state := EvPresentationState.EV_PRESENTATION_NORMAL }

/-- `ev_view_presentation_set_black` -/
def ev_view_presentation_set_black (pview : EvViewPresentation) : EvViewPresentation :=
  if pview.state = EvPresentationState.EV_PRESENTATION_BLACK then pview
  else queue_draw { pview with state := EvPresentationState.EV_PRESENTATION_BLACK }

/-- `ev_view_presentation_set_white` -/
def ev_view_presentation_set_white (pview : EvViewPresentation) : EvViewPresentation :=
  if pview.state = EvPresentationState.EV_PRESENTATION_WHITE then pview
  else queue_draw { pview with state := EvPresentationState.EV_PRESENTATION_WHITE }

/-- `ev_view_presentation_set_end` -/
def ev_view_presentation_set_end (pview : EvViewPresentation) : EvViewPresentation :=
  if pview.state = EvPresentationState.EV_PRESENTATION_END then pview
  else queue_draw { pview with state := EvPresentationState.EV_PRESENTATION_END }

/-- `ev_view_presentation_transition_stop`: `g_source_remove` takes the source
out of the main loop. -/
def ev_view_presentation_transition_stop (pview : EvViewPresentation) : EvViewPresentation :=
  let pview :=
    if pview.trans_timeout_id > 0 then
      { pview with sources := pview.sources.filter (fun i => i ≠ pview.trans_timeout_id) }
    else pview
  { pview with trans_timeout_id := 0 }

/-- `ev_view_presentation_transition_start`: `g_timeout_add_seconds` arms a
new source, whose callback is `transition_next_page`. -/
def ev_view_presentation_transition_start (doc : EvDocument) (pview : EvViewPresentation) :
    EvViewPresentation :=
  if !doc.is_transition then pview
  else
    let pview := ev_view_presentation_transition_stop pview
    let duration := doc.page_duration pview.current_page
    if duration ≥ 0 then
      { pview with
        trans_timeout_id := pview.next_source_id
        sources := pview.next_source_id :: pview.sources
        next_source_id := pview.next_source_id + 1 }
    else pview

/-- `ev_view_presentation_animation_cancel` -/
def ev_view_presentation_animation_cancel (pview : EvViewPresentation) : EvViewPresentation :=
  match pview.animation with
  | some _ => { pview with animation := none }
  | none => pview

/-- `ev_view_presentation_transition_animation_finish` -/
def ev_view_presentation_transition_animation_finish (doc : EvDocument)
    (pview : EvViewPresentation) : EvViewPresentation :=
  let pview := ev_view_presentation_animation_cancel pview
  let pview := ev_view_presentation_transition_start doc pview
  queue_draw pview

/-- `ev_view_presentation_animation_start`, with its `gint new_page`.  The
surfaces of `curr_job`, `prev_job` and `next_job` are read without a test of
the pointer. -/
def ev_view_presentation_animation_start (doc : EvDocument) (pview : EvViewPresentation)
    (new_page : Int) : Option EvViewPresentation :=
  if !pview.enable_animations then some pview
  else if pview.current_page = to_guint new_page then some pview
  else
    match doc.effect new_page with
    | none => some pview
    | some effect => do
      let animation : EvTransitionAnimation :=
        { effect := effect, origin_surface := none, dest_surface := none }
      let curr ← pview.curr_job
      let surface := curr.surface
      let animation :=
        { animation with
          origin_surface := if surface ≠ none then surface else pview.current_surface }
      let jump := to_gint (guint_sub (to_guint new_page) pview.current_page)
      let surface ←
        (if jump = -1 then pview.prev_job.map (fun j => j.surface)
         else if jump = 1 then pview.next_job.map (fun j => j.surface)
         else some none)
      let animation :=
        match surface with
        | some dest => { animation with dest_surface := some dest }
        | none => animation
      some { pview with animation := some animation }

/-- `job_finished_cb` -/
def job_finished_cb (doc : EvDocument) (job : EvJob) (pview : EvViewPresentation) :
    EvViewPresentation :=
  if pview.curr_job.map EvJob.id ≠ some job.id then pview
  else
    match pview.animation with
    | some animation =>
      { pview with animation := some { animation with dest_surface := job.surface } }
    | none => queue_draw (ev_view_presentation_transition_start doc pview)

/-- `ev_view_presentation_schedule_new_job`, with its `gint page`: the session
after the call and the job returned. -/
def ev_view_presentation_schedule_new_job (doc : EvDocument) (pview : EvViewPresentation)
    (page : Int) (priority : EvJobPriority) : EvViewPresentation × Option EvJob :=
  if page < 0 ∨ page ≥ doc.n_pages then (pview, none)
  else
    let job : EvJob := { id := pview.next_job_id, page := page, surface := none }
    ({ pview with
        next_job_id := pview.next_job_id + 1
        sched := SchedOp.push job.id page priority :: pview.sched },
      some job)

/-- `ev_view_presentation_delete_job` -/
def ev_view_presentation_delete_job (pview : EvViewPresentation) (job : Option EvJob) :
    EvViewPresentation :=
  match job with
  | none => pview
  | some j => { pview with sched := SchedOp.cancel j.id :: pview.sched }

/-- A call `ev_job_scheduler_update_job (job, priority)`, which uses the job
without a test of the pointer. -/
def ev_job_scheduler_update_job (pview : EvViewPresentation) (job : Option EvJob)
    (priority : EvJobPriority) : Option EvViewPresentation :=
  match job with
  | none => none
  | some j => some { pview with sched := SchedOp.update j.id priority :: pview.sched }

/-- The `switch (jump)` of `ev_view_presentation_update_current_page`, which
shifts the three slots: the session at the `switch`, the `guint page` and the
`gint jump` of the caller. -/
def update_current_page_switch (doc : EvDocument) (pview : EvViewPresentation)
    (page : Nat) (jump : Int) : Option EvViewPresentation :=
  if jump = 0 then
    let pview :=
      match pview.curr_job with
      | none =>
        let r := ev_view_presentation_schedule_new_job doc pview (to_gint page)
          EvJobPriority.EV_JOB_PRIORITY_URGENT
        { r.1 with curr_job := r.2 }
      | some _ => pview
    let pview :=
      match pview.next_job with
      | none =>
        let r := ev_view_presentation_schedule_new_job doc pview (to_gint (guint_add page 1))
          EvJobPriority.EV_JOB_PRIORITY_HIGH
        { r.1 with next_job := r.2 }
      | some _ => pview
    let pview :=
      match pview.prev_job with
      | none =>
        let r := ev_view_presentation_schedule_new_job doc pview (to_gint (guint_sub page 1))
          EvJobPriority.EV_JOB_PRIORITY_LOW
        { r.1 with prev_job := r.2 }
      | some _ => pview
    some pview
  else if jump = -1 then do
    let pview := ev_view_presentation_delete_job pview pview.next_job
    let pview := { pview with next_job := pview.curr_job }
    let pview := { pview with curr_job := pview.prev_job }
    let pview ←
      (match pview.curr_job with
      | none =>
        let r := ev_view_presentation_schedule_new_job doc pview (to_gint page)
          EvJobPriority.EV_JOB_PRIORITY_URGENT
        some { r.1 with curr_job := r.2 }
      | some _ =>
        ev_job_scheduler_update_job pview pview.curr_job EvJobPriority.EV_JOB_PRIORITY_URGENT)
    let r := ev_view_presentation_schedule_new_job doc pview (to_gint (guint_sub page 1))
      EvJobPriority.EV_JOB_PRIORITY_HIGH
    let pview := { r.1 with prev_job := r.2 }
    ev_job_scheduler_update_job pview pview.next_job EvJobPriority.EV_JOB_PRIORITY_LOW
  else if jump = 1 then do
    let pview := ev_view_presentation_delete_job pview pview.prev_job
    let pview := { pview with prev_job := pview.curr_job }
    let pview := { pview with curr_job := pview.next_job }
    let pview ←
      (match pview.curr_job with
      | none =>
        let r := ev_view_presentation_schedule_new_job doc pview (to_gint page)
          EvJobPriority.EV_JOB_PRIORITY_URGENT
        some { r.1 with curr_job := r.2 }
      | some _ =>
        ev_job_scheduler_update_job pview pview.curr_job EvJobPriority.EV_JOB_PRIORITY_URGENT)
    let r := ev_view_presentation_schedule_new_job doc pview (to_gint (guint_add page 1))
      EvJobPriority.EV_JOB_PRIORITY_HIGH
    let pview := { r.1 with next_job := r.2 }
    ev_job_scheduler_update_job pview pview.prev_job EvJobPriority.EV_JOB_PRIORITY_LOW
  else if jump = -2 then do
    let pview := ev_view_presentation_delete_job pview pview.next_job
    let pview := ev_view_presentation_delete_job pview pview.curr_job
    let pview := { pview with next_job := pview.prev_job }
    let r := ev_view_presentation_schedule_new_job doc pview (to_gint page)
      EvJobPriority.EV_JOB_PRIORITY_URGENT
    let pview := { r.1 with curr_job := r.2 }
    let r := ev_view_presentation_schedule_new_job doc pview (to_gint (guint_sub page 1))
      EvJobPriority.EV_JOB_PRIORITY_HIGH
    let pview := { r.1 with prev_job := r.2 }
    (match pview.next_job with
    | none =>
      let r := ev_view_presentation_schedule_new_job doc pview (to_gint (guint_add page 1))
        EvJobPriority.EV_JOB_PRIORITY_LOW
      some { r.1 with next_job := r.2 }
    | some _ =>
      ev_job_scheduler_update_job pview pview.next_job EvJobPriority.EV_JOB_PRIORITY_LOW)
  else if jump = 2 then do
    let pview := ev_view_presentation_delete_job pview pview.prev_job
    let pview := ev_view_presentation_delete_job pview pview.curr_job
    let pview := { pview with prev_job := pview.next_job }
    let r := ev_view_presentation_schedule_new_job doc pview (to_gint page)
      EvJobPriority.EV_JOB_PRIORITY_URGENT
    let pview := { r.1 with curr_job := r.2 }
    let r := ev_view_presentation_schedule_new_job doc pview (to_gint (guint_add page 1))
      EvJobPriority.EV_JOB_PRIORITY_HIGH
    let pview := { r.1 with next_job := r.2 }
    (match pview.prev_job with
    | none =>
      let r := ev_view_presentation_schedule_new_job doc pview (to_gint (guint_sub page 1))
        EvJobPriority.EV_JOB_PRIORITY_LOW
      some { r.1 with prev_job := r.2 }
    | some _ =>
      ev_job_scheduler_update_job pview pview.prev_job EvJobPriority.EV_JOB_PRIORITY_LOW)
  else
    let pview := ev_view_presentation_delete_job pview pview.prev_job
    let pview := ev_view_presentation_delete_job pview pview.curr_job
    let pview := ev_view_presentation_delete_job pview pview.next_job
    let r := ev_view_presentation_schedule_new_job doc pview (to_gint page)
      EvJobPriority.EV_JOB_PRIORITY_URGENT
    let pview := { r.1 with curr_job := r.2 }
    if jump > 0 then
      let r := ev_view_presentation_schedule_new_job doc pview (to_gint (guint_add page 1))
        EvJobPriority.EV_JOB_PRIORITY_HIGH
      let pview := { r.1 with next_job := r.2 }
      let r := ev_view_presentation_schedule_new_job doc pview (to_gint (guint_sub page 1))
        EvJobPriority.EV_JOB_PRIORITY_LOW
      some { r.1 with prev_job := r.2 }
    else
      let r := ev_view_presentation_schedule_new_job doc pview (to_gint (guint_sub page 1))
        EvJobPriority.EV_JOB_PRIORITY_HIGH
      let pview := { r.1 with prev_job := r.2 }
      let r := ev_view_presentation_schedule_new_job doc pview (to_gint (guint_add page 1))
        EvJobPriority.EV_JOB_PRIORITY_LOW
      some { r.1 with next_job := r.2 }

/-- `ev_view_presentation_update_current_page`, with its `guint page`.  The
test `page < 0` of the source is never true of a `guint`; in the test against
the page count the `gint` count is converted to `guint`. -/
def ev_view_presentation_update_current_page (doc : EvDocument) (pview : EvViewPresentation)
    (page : Nat) : Option EvViewPresentation :=
  if page ≥ to_guint doc.n_pages then some pview
  else do
    let pview := ev_view_presentation_animation_cancel pview
    let pview ← ev_view_presentation_animation_start doc pview (to_gint page)
    let jump := to_gint (guint_sub page pview.current_page)
    let pview ← update_current_page_switch doc pview page jump
    let pview := { pview with current_page := page }
    let curr ← pview.curr_job
    if curr.surface ≠ none then some (queue_draw pview) else some pview

/-- `ev_view_presentation_next_page`.  The local `n_pages` is a `guint`, so
the comparison with the `gint new_page` is unsigned. -/
def ev_view_presentation_next_page (doc : EvDocument) (pview : EvViewPresentation) :
    Option EvViewPresentation :=
  match pview.state with
  | EvPresentationState.EV_PRESENTATION_BLACK => some (ev_view_presentation_set_normal pview)
  | EvPresentationState.EV_PRESENTATION_WHITE => some (ev_view_presentation_set_normal pview)
  | EvPresentationState.EV_PRESENTATION_END => some pview
  | EvPresentationState.EV_PRESENTATION_NORMAL =>
    let n_pages := to_guint doc.n_pages
    let new_page := to_gint (guint_add pview.current_page 1)
    if to_guint new_page = n_pages then some (ev_view_presentation_set_end pview)
    else ev_view_presentation_update_current_page doc pview (to_guint new_page)

/-- `ev_view_presentation_previous_page` -/
def ev_view_presentation_previous_page (doc : EvDocument) (pview : EvViewPresentation) :
    Option EvViewPresentation :=
  match pview.state with
  | EvPresentationState.EV_PRESENTATION_BLACK => some (ev_view_presentation_set_normal pview)
  | EvPresentationState.EV_PRESENTATION_WHITE => some (ev_view_presentation_set_normal pview)
  | EvPresentationState.EV_PRESENTATION_END =>
    let pview := { pview with state := EvPresentationState.EV_PRESENTATION_NORMAL }
    let new_page := to_gint pview.current_page
    ev_view_presentation_update_current_page doc pview (to_guint new_page)
  | EvPresentationState.EV_PRESENTATION_NORMAL =>
    let new_page := to_gint (guint_sub pview.current_page 1)
    ev_view_presentation_update_current_page doc pview (to_guint new_page)

/-- `transition_next_page`, the callback of the source `id`: it runs when the
source is armed, and the source is removed as the callback returns `FALSE`. -/
def transition_next_page (doc : EvDocument) (pview : EvViewPresentation) (id : Nat) :
    Option EvViewPresentation :=
  if id ∈ pview.sources then do
    let pview ← ev_view_presentation_next_page doc pview
    some { pview with sources := pview.sources.filter (fun i => i ≠ id) }
  else some pview

/-- The end of a render: the job `job` has its surface and emits `finished`,
which runs `job_finished_cb` when the job is in a slot (the handler of a
deleted job is disconnected). -/
def job_finished (doc : EvDocument) (pview : EvViewPresentation) (job surface : Nat) :
    EvViewPresentation :=
  let done := fun (slot : Option EvJob) =>
    slot.map (fun j => if j.id = job then { j with surface := some surface } else j)
  let pview :=
    { pview with
      prev_job := done pview.prev_job
      curr_job := done pview.curr_job
      next_job := done pview.next_job }
  match (held pview).find? (fun j => j.id = job) with
  | some j => job_finished_cb doc j pview
  | none => pview

/-- The signal `finished` of the animation of the session, if there is one. -/
def animation_finished (doc : EvDocument) (pview : EvViewPresentation) : EvViewPresentation :=
  match pview.animation with
  | some _ => ev_view_presentation_transition_animation_finish doc pview
  | none => pview

/-- `ev_view_presentation_destroy` -/
def ev_view_presentation_destroy (pview : EvViewPresentation) : EvViewPresentation :=
  let pview := ev_view_presentation_animation_cancel pview
  let pview := ev_view_presentation_transition_stop pview
  let pview :=
    match pview.curr_job with
    | some j => { ev_view_presentation_delete_job pview (some j) with curr_job := none }
    | none => pview
  let pview :=
    match pview.prev_job with
    | some j => { ev_view_presentation_delete_job pview (some j) with prev_job := none }
    | none => pview
  let pview :=
    match pview.next_job with
    | some j => { ev_view_presentation_delete_job pview (some j) with next_job := none }
    | none => pview
  match pview.current_surface with
  | some _ => { pview with current_surface := none }
  | none => pview

/-- `init_presentation`, the idle callback that populates the window. -/
def init_presentation (doc : EvDocument) (pview : EvViewPresentation) :
    Option EvViewPresentation :=
  ev_view_presentation_update_current_page doc pview pview.current_page

/-- The object that `g_object_new (EV_TYPE_VIEW_PRESENTATION, ...)` returns:
zero-filled, then `ev_view_presentation_set_property` stores the three
construct properties.  No source of the main loop has the id 0. -/
def g_object_new (doc : EvDocument) (current_page rotation : Nat) : EvViewPresentation :=
  { current_page := current_page
    current_surface := none
    rotation := rotation
    state := EvPresentationState.EV_PRESENTATION_NORMAL
    trans_timeout_id := 0
    enable_animations := doc.is_transition
    animation := none
    prev_job := none
    curr_job := none
    next_job := none
    sched := []
    next_job_id := 0
    sources := []
    next_source_id := 1
    redraws := 0 }

/-- `ev_view_presentation_new`: `none` is the `NULL` of `g_return_val_if_fail`,
for a `document` that is not a document and for a `guint current_page` that is
not below the page count (the `gint` count is converted to `guint`). -/
def ev_view_presentation_new (document : Option EvDocument) (current_page rotation : Nat) :
    Option EvViewPresentation :=
  match document with
  | none => none
  | some doc =>
    if ¬ (current_page < to_guint doc.n_pages) then none
    else some (g_object_new doc current_page rotation)

/-! ## Input events -/

/-- The two values of `GtkScrollType` that the bindings of the class emit with
the signal `change_page`, and any other value. -/
inductive GtkScrollType where
  | GTK_SCROLL_PAGE_FORWARD
  | GTK_SCROLL_PAGE_BACKWARD
  | GTK_SCROLL_NONE
deriving DecidableEq, Repr

/-- `ev_view_presentation_change_page`; `none` is `g_assert_not_reached`. -/
def ev_view_presentation_change_page (doc : EvDocument) (pview : EvViewPresentation)
    (scroll : GtkScrollType) : Option EvViewPresentation :=
  match scroll with
  | GtkScrollType.GTK_SCROLL_PAGE_FORWARD => ev_view_presentation_next_page doc pview
  | GtkScrollType.GTK_SCROLL_PAGE_BACKWARD => ev_view_presentation_previous_page doc pview
  | GtkScrollType.GTK_SCROLL_NONE => none

/-- The direction of a scroll event. -/
inductive GdkScrollDirection where
  | GDK_SCROLL_UP
  | GDK_SCROLL_DOWN
  | GDK_SCROLL_LEFT
  | GDK_SCROLL_RIGHT
deriving DecidableEq, Repr

/-- `ev_view_presentation_scroll_event`; `state` is the modifier state of the
event under the default modifier mask. -/
def ev_view_presentation_scroll_event (doc : EvDocument) (pview : EvViewPresentation)
    (direction : GdkScrollDirection) (state : Nat) : Option EvViewPresentation :=
  if state ≠ 0 then some pview
  else
    match direction with
    | GdkScrollDirection.GDK_SCROLL_DOWN =>
      ev_view_presentation_change_page doc pview GtkScrollType.GTK_SCROLL_PAGE_FORWARD
    | GdkScrollDirection.GDK_SCROLL_RIGHT =>
      ev_view_presentation_change_page doc pview GtkScrollType.GTK_SCROLL_PAGE_FORWARD
    | GdkScrollDirection.GDK_SCROLL_UP =>
      ev_view_presentation_change_page doc pview GtkScrollType.GTK_SCROLL_PAGE_BACKWARD
    | GdkScrollDirection.GDK_SCROLL_LEFT =>
      ev_view_presentation_change_page doc pview GtkScrollType.GTK_SCROLL_PAGE_BACKWARD

/-- The keys that `ev_view_presentation_key_press_event` and the bindings of
`ev_view_presentation_class_init` tell apart. -/
inductive GdkKey where
  | GDK_b
  | GDK_B
  | GDK_period
  | GDK_KP_Decimal
  | GDK_w
  | GDK_W
  | GDK_Home
  | GDK_End
  /-- A key of `KEY_IS_NUMERIC`: `GDK_0` to `GDK_9` and `GDK_KP_0` to `GDK_KP_9`. -/
  | numeric
  /-- A key bound to `change_page` with `GTK_SCROLL_PAGE_FORWARD`: `GDK_Right`,
  `GDK_Down`, their keypad keys, `GDK_space`, `GDK_Page_Down`, `GDK_J`, `GDK_L`. -/
  | forward
  /-- A key bound to `change_page` with `GTK_SCROLL_PAGE_BACKWARD`: `GDK_Left`,
  `GDK_Up`, their keypad keys, `GDK_BackSpace`, `GDK_Page_Up`, `GDK_H`, `GDK_K`. -/
  | backward
  /-- Any other key. -/
  | other
deriving DecidableEq, Repr

/-- `gtk_bindings_activate_event` on the binding set of the class: a bound key
emits `change_page`, whose handler is `ev_view_presentation_change_page`. -/
def gtk_bindings_activate_event (doc : EvDocument) (pview : EvViewPresentation) (key : GdkKey) :
    Option EvViewPresentation :=
  match key with
  | GdkKey.forward =>
    ev_view_presentation_change_page doc pview GtkScrollType.GTK_SCROLL_PAGE_FORWARD
  | GdkKey.backward =>
    ev_view_presentation_change_page doc pview GtkScrollType.GTK_SCROLL_PAGE_BACKWARD
  | _ => some pview

/-- The end of `ev_view_presentation_key_press_event`, after its `switch`: the
window of the page number, which a numeric key opens, changes no field of the
session. -/
def key_press_default (doc : EvDocument) (pview : EvViewPresentation) (key : GdkKey) :
    Option EvViewPresentation :=
  let pview := ev_view_presentation_set_normal pview
  if doc.n_pages > 1 ∧ key = GdkKey.numeric then some pview
  else gtk_bindings_activate_event doc pview key

/-- The `case` of `GDK_b`, `GDK_B`, `GDK_period` and `GDK_KP_Decimal`. -/
def key_press_black (pview : EvViewPresentation) : EvViewPresentation :=
  if pview.state = EvPresentationState.EV_PRESENTATION_BLACK then
    ev_view_presentation_set_normal pview
  else ev_view_presentation_set_black pview

/-- The `case` of `GDK_w` and `GDK_W`. -/
def key_press_white (pview : EvViewPresentation) : EvViewPresentation :=
  if pview.state = EvPresentationState.EV_PRESENTATION_WHITE then
    ev_view_presentation_set_normal pview
  else ev_view_presentation_set_white pview

/-- `ev_view_presentation_key_press_event` -/
def ev_view_presentation_key_press_event (doc : EvDocument) (pview : EvViewPresentation)
    (key : GdkKey) : Option EvViewPresentation :=
  if pview.state = EvPresentationState.EV_PRESENTATION_END then
    gtk_bindings_activate_event doc pview key
  else
    match key with
    | GdkKey.GDK_b => some (key_press_black pview)
    | GdkKey.GDK_B => some (key_press_black pview)
    | GdkKey.GDK_period => some (key_press_black pview)
    | GdkKey.GDK_KP_Decimal => some (key_press_black pview)
    | GdkKey.GDK_w => some (key_press_white pview)
    | GdkKey.GDK_W => some (key_press_white pview)
    | GdkKey.GDK_Home =>
      if pview.state = EvPresentationState.EV_PRESENTATION_NORMAL then
        ev_view_presentation_update_current_page doc pview 0
      else key_press_default doc pview key
    | GdkKey.GDK_End =>
      if pview.state = EvPresentationState.EV_PRESENTATION_NORMAL then
        ev_view_presentation_update_current_page doc pview (to_guint (doc.n_pages - 1))
      else key_press_default doc pview key
    | _ => key_press_default doc pview key

/-- The names that `ev_vew_presentation_goto_link_dest` knows, and any other. -/
inductive EvLinkName where
  | FirstPage
  | PrevPage
  | NextPage
  | LastPage
  | other
deriving DecidableEq, Repr

/-- The action of a link, by its type: for `EV_LINK_ACTION_TYPE_GOTO_DEST` the
destination (`none` is `NULL`) as the page that
`ev_document_links_get_dest_page` returns for it. -/
inductive EvLinkAction where
  | EV_LINK_ACTION_TYPE_GOTO_DEST (dest : Option Int)
  | EV_LINK_ACTION_TYPE_NAMED (name : EvLinkName)
  | other
deriving DecidableEq, Repr

/-- A link, with the action of `ev_link_get_action` (`none` is `NULL`). -/
structure EvLink where
  action : Option EvLinkAction
deriving DecidableEq, Repr

/-- `ev_view_presentation_link_is_supported` -/
def ev_view_presentation_link_is_supported (link : EvLink) : Bool :=
  match link.action with
  | none => false
  | some (EvLinkAction.EV_LINK_ACTION_TYPE_GOTO_DEST dest) => dest.isSome
  | some (EvLinkAction.EV_LINK_ACTION_TYPE_NAMED _) => true
  | some EvLinkAction.other => false

/-- The end of `ev_view_presentation_get_link_at_location`; `link` is what the
link mapping of the page cache has at the pointer (`none` is `NULL`, also when
there is no page cache). -/
def ev_view_presentation_get_link_at_location (link : Option EvLink) : Option EvLink :=
  match link with
  | some l => if ev_view_presentation_link_is_supported l then some l else none
  | none => none

/-- `ev_vew_presentation_goto_link_dest`; the pages are `gint` or `guint`
expressions converted to the `guint` parameter.  The function is called for a
supported link only; `none` for another link. -/
def ev_vew_presentation_goto_link_dest (doc : EvDocument) (pview : EvViewPresentation)
    (link : EvLink) : Option EvViewPresentation :=
  match link.action with
  | some (EvLinkAction.EV_LINK_ACTION_TYPE_NAMED name) =>
    match name with
    | EvLinkName.FirstPage => ev_view_presentation_update_current_page doc pview 0
    | EvLinkName.PrevPage =>
      ev_view_presentation_update_current_page doc pview (guint_sub pview.current_page 1)
    | EvLinkName.NextPage =>
      ev_view_presentation_update_current_page doc pview (guint_add pview.current_page 1)
    | EvLinkName.LastPage =>
      ev_view_presentation_update_current_page doc pview (to_guint (doc.n_pages - 1))
    | EvLinkName.other => some pview
  | some (EvLinkAction.EV_LINK_ACTION_TYPE_GOTO_DEST (some page)) =>
    ev_view_presentation_update_current_page doc pview (to_guint page)
  | _ => none

/-- `ev_view_presentation_button_release_event`; `link` is what the link
mapping has at the pointer.  The signal `finished` that a release of button 1
emits in state `End` has no handler in this file. -/
def ev_view_presentation_button_release_event (doc : EvDocument) (pview : EvViewPresentation)
    (button : Nat) (link : Option EvLink) : Option EvViewPresentation :=
  if button = 1 then
    if pview.state = EvPresentationState.EV_PRESENTATION_END then some pview
    else
      match ev_view_presentation_get_link_at_location link with
      | some link => ev_vew_presentation_goto_link_dest doc pview link
      | none => ev_view_presentation_next_page doc pview
  else if button = 3 then ev_view_presentation_previous_page doc pview
  else some pview

/-! ## The scale of a page -/

/-- What `ev_view_presentation_get_scale_for_page` reads of the document; a
`gdouble` is a rational number here. -/
structure EvDocumentSize where
  /-- `ev_document_is_page_size_uniform` -/
  is_page_size_uniform : Bool
  /-- `ev_document_get_page_size`: the width and the height of a page. -/
  page_size : Nat → ℚ × ℚ

/-- The fields of the session that `ev_view_presentation_get_scale_for_page`
reads and writes; a `gdouble` is a rational number here. -/
structure EvViewScale where
  rotation : Nat
  monitor_width : Int
  monitor_height : Int
  scale : ℚ
deriving DecidableEq

/-- The macro `MIN` of GLib. -/
def MIN (a b : ℚ) : ℚ := if a < b then a else b

/-- `ev_view_presentation_get_scale_for_page`: the session after the call and
the value returned. -/
def ev_view_presentation_get_scale_for_page (document : EvDocumentSize) (pview : EvViewScale)
    (page : Nat) : EvViewScale × ℚ :=
  if ¬ document.is_page_size_uniform ∨ pview.scale = 0 then
    let width := (document.page_size page).1
    let height := (document.page_size page).2
    let rotated := pview.rotation = 90 ∨ pview.rotation = 270
    let tmp := width
    let width := if rotated then height else width
    let height := if rotated then tmp else height
    let pview :=
      { pview with
        scale := MIN ((pview.monitor_width : ℚ) / width) ((pview.monitor_height : ℚ) / height) }
    (pview, pview.scale)
  else (pview, pview.scale)

/-! ## Sessions -/

/-- What happens to a session between its initial population and its end. -/
inductive Event where
  | update_current_page (page : Nat)
  | next_page
  | previous_page
  | transition_timeout (id : Nat)
  | job_finished (job surface : Nat)
  | animation_finished
  | key_press (key : GdkKey)
  | scroll (direction : GdkScrollDirection) (state : Nat)
  | button_release (button : Nat) (link : Option EvLink)
deriving DecidableEq, Repr

/-- The session after an event; `none` when the code crashes. -/
def Event.apply (doc : EvDocument) (pview : EvViewPresentation) : Event → Option EvViewPresentation
  | Event.update_current_page page => ev_view_presentation_update_current_page doc pview page
  | Event.next_page => ev_view_presentation_next_page doc pview
  | Event.previous_page => ev_view_presentation_previous_page doc pview
  | Event.transition_timeout id => transition_next_page doc pview id
  | Event.job_finished job surface => some (Evince.job_finished doc pview job surface)
  | Event.animation_finished => some (Evince.animation_finished doc pview)
  | Event.key_press key => ev_view_presentation_key_press_event doc pview key
  | Event.scroll direction state => ev_view_presentation_scroll_event doc pview direction state
  | Event.button_release button link =>
    ev_view_presentation_button_release_event doc pview button link

/-- The sessions of a document that started at page `p`: the session after the
initial population, and every session an event leads to from there. -/
inductive Reachable (doc : EvDocument) (p : Nat) : EvViewPresentation → Prop where
  | init (rotation : Nat) (s0 s1 : EvViewPresentation) :
      ev_view_presentation_new (some doc) p rotation = some s0 →
      init_presentation doc s0 = some s1 → Reachable doc p s1
  | step (s s' : EvViewPresentation) (e : Event) :
      Reachable doc p s → Event.apply doc s e = some s' → Reachable doc p s'

/-! ## Vocabulary for the results -/

/-- The job that `ev_view_presentation_schedule_new_job` makes for `page` when
`id` jobs were allocated before: none when the page is not in the document. -/
def new_job (doc : EvDocument) (id : Nat) (page : Int) : Option EvJob :=
  if page < 0 ∨ page ≥ doc.n_pages then none else some { id := id, page := page, surface := none }

/-- The push of a job, when there is one. -/
def push_ops (job : Option EvJob) (priority : EvJobPriority) : List SchedOp :=
  match job with
  | none => []
  | some j => [SchedOp.push j.id j.page priority]

/-- The cancellation of a job, when there is one. -/
def cancel_ops (job : Option EvJob) : List SchedOp :=
  match job with
  | none => []
  | some j => [SchedOp.cancel j.id]

/-- The number of jobs allocated after `id` were and `job` was made or not. -/
def bump (id : Nat) (job : Option EvJob) : Nat :=
  match job with
  | none => id
  | some _ => id + 1

/-- The session after the last test of
`ev_view_presentation_update_current_page`: a redraw is queued when the
current job has its surface. -/
def drawn (job : EvJob) (pview : EvViewPresentation) : EvViewPresentation :=
  if job.surface ≠ none then queue_draw pview else pview

/-- The page count of a document is a `gint` that is at least 1. -/
def EvDocument.valid (doc : EvDocument) : Prop :=
  1 ≤ doc.n_pages ∧ doc.n_pages ≤ 2147483647

/-- The invariant of the job window. -/
structure WindowInv (doc : EvDocument) (s : EvViewPresentation) : Prop where
  page_lt : (s.current_page : Int) < doc.n_pages
  curr : s.curr_job.map EvJob.page = some (s.current_page : Int)
  prev : s.prev_job.map EvJob.page =
    if 1 ≤ s.current_page then some ((s.current_page : Int) - 1) else none
  next : s.next_job.map EvJob.page =
    if (s.current_page : Int) + 1 < doc.n_pages then some ((s.current_page : Int) + 1) else none
  ids_lt : ∀ j ∈ held s, j.id < s.next_job_id
  ids_nodup : ((held s).map EvJob.id).Nodup
  outstanding_iff : ∀ i, i ∈ outstanding s.sched ↔ i ∈ (held s).map EvJob.id
  outstanding_nodup : (outstanding s.sched).Nodup
  prio_curr : ∀ j, s.curr_job = some j →
    last_priority j.id s.sched = some EvJobPriority.EV_JOB_PRIORITY_URGENT
  prio_prev : ∀ j, s.prev_job = some j →
    last_priority j.id s.sched = some EvJobPriority.EV_JOB_PRIORITY_HIGH ∨
    last_priority j.id s.sched = some EvJobPriority.EV_JOB_PRIORITY_LOW
  prio_next : ∀ j, s.next_job = some j →
    last_priority j.id s.sched = some EvJobPriority.EV_JOB_PRIORITY_HIGH ∨
    last_priority j.id s.sched = some EvJobPriority.EV_JOB_PRIORITY_LOW

/-- What the invariant of the window reads of a job: its identity and its page. -/
def job_key (slot : Option EvJob) : Option (Nat × Int) :=
  slot.map (fun j => (j.id, j.page))

/-- What the invariant of the window reads of a session. -/
def window_key (pview : EvViewPresentation) :
    Nat × Option (Nat × Int) × Option (Nat × Int) × Option (Nat × Int) × List SchedOp × Nat :=
  (pview.current_page, job_key pview.prev_job, job_key pview.curr_job, job_key pview.next_job,
    pview.sched, pview.next_job_id)

/-- The session after a list of events, the first event first; `none` when
one of them crashes. -/
def run (doc : EvDocument) (pview : EvViewPresentation) : List Event → Option EvViewPresentation
  | [] => some pview
  | e :: es => (Event.apply doc pview e).bind (fun pview => run doc pview es)

/-! ## A document and its sessions, for the examples -/

/-- A document of ten pages with an effect and a duration on every page. -/
def doc10 : EvDocument :=
  { n_pages := 10, is_transition := true, effect := fun _ => some 7, page_duration := fun _ => 3 }

/-- The session of `doc10` after the initial population at page 0. -/
def session10_0 : EvViewPresentation :=
  { g_object_new doc10 0 0 with
    curr_job := some { id := 0, page := 0, surface := none }
    next_job := some { id := 1, page := 1, surface := none }
    sched := [SchedOp.push 1 1 EvJobPriority.EV_JOB_PRIORITY_HIGH,
      SchedOp.push 0 0 EvJobPriority.EV_JOB_PRIORITY_URGENT]
    next_job_id := 2 }

/-- The session of `doc10` after the initial population at page 5. -/
def session10_5 : EvViewPresentation :=
  { g_object_new doc10 5 0 with
    prev_job := some { id := 2, page := 4, surface := none }
    curr_job := some { id := 0, page := 5, surface := none }
    next_job := some { id := 1, page := 6, surface := none }
    sched := [SchedOp.push 2 4 EvJobPriority.EV_JOB_PRIORITY_LOW,
      SchedOp.push 1 6 EvJobPriority.EV_JOB_PRIORITY_HIGH,
      SchedOp.push 0 5 EvJobPriority.EV_JOB_PRIORITY_URGENT]
    next_job_id := 3 }

/-- The session of `doc10` after the initial population at page 9, the last page. -/
def session10_9 : EvViewPresentation :=
  { g_object_new doc10 9 0 with
    prev_job := some { id := 1, page := 8, surface := none }
    curr_job := some { id := 0, page := 9, surface := none }
    sched := [SchedOp.push 1 8 EvJobPriority.EV_JOB_PRIORITY_LOW,
      SchedOp.push 0 9 EvJobPriority.EV_JOB_PRIORITY_URGENT]
    next_job_id := 2 }

/-- The session `session10_9` after `ev_view_presentation_next_page`: the end
of the presentation. -/
def session10_9_end : EvViewPresentation :=
  { session10_9 with state := EvPresentationState.EV_PRESENTATION_END, redraws := 1 }

/-- The session `session10_9_end` after
`ev_view_presentation_update_current_page` for page 3, as
`ev_view_presentation_goto_entry_activate` calls it whatever the state is. -/
def session10_3_end : EvViewPresentation :=
  { g_object_new doc10 3 0 with
    state := EvPresentationState.EV_PRESENTATION_END
    animation := some { effect := 7, origin_surface := none, dest_surface := none }
    prev_job := some { id := 3, page := 2, surface := none }
    curr_job := some { id := 2, page := 3, surface := none }
    next_job := some { id := 4, page := 4, surface := none }
    sched := [SchedOp.push 4 4 EvJobPriority.EV_JOB_PRIORITY_LOW,
      SchedOp.push 3 2 EvJobPriority.EV_JOB_PRIORITY_HIGH,
      SchedOp.push 2 3 EvJobPriority.EV_JOB_PRIORITY_URGENT,
      SchedOp.cancel 0,
      SchedOp.cancel 1,
      SchedOp.push 1 8 EvJobPriority.EV_JOB_PRIORITY_LOW,
      SchedOp.push 0 9 EvJobPriority.EV_JOB_PRIORITY_URGENT]
    next_job_id := 5
    redraws := 1 }

/-- The session `session10_5` after a press of `b`: the black screen. -/
def session10_5_black : EvViewPresentation :=
  { session10_5 with state := EvPresentationState.EV_PRESENTATION_BLACK, redraws := 1 }

/-- The session `session10_5_black` after a release of button 1 on a link to
the first page. -/
def session10_0_black : EvViewPresentation :=
  { g_object_new doc10 0 0 with
    state := EvPresentationState.EV_PRESENTATION_BLACK
    animation := some { effect := 7, origin_surface := none, dest_surface := none }
    curr_job := some { id := 3, page := 0, surface := none }
    next_job := some { id := 4, page := 1, surface := none }
    sched := [SchedOp.push 4 1 EvJobPriority.EV_JOB_PRIORITY_LOW,
      SchedOp.push 3 0 EvJobPriority.EV_JOB_PRIORITY_URGENT,
      SchedOp.cancel 1,
      SchedOp.cancel 0,
      SchedOp.cancel 2,
      SchedOp.push 2 4 EvJobPriority.EV_JOB_PRIORITY_LOW,
      SchedOp.push 1 6 EvJobPriority.EV_JOB_PRIORITY_HIGH,
      SchedOp.push 0 5 EvJobPriority.EV_JOB_PRIORITY_URGENT]
    next_job_id := 5
    redraws := 1 }

/-- A link with the named action `FirstPage`. -/
def link_first_page : EvLink :=
  { action := some (EvLinkAction.EV_LINK_ACTION_TYPE_NAMED EvLinkName.FirstPage) }

/-- A document with pages of 400 by 300. -/
def size400 : EvDocumentSize :=
  { is_page_size_uniform := true, page_size := fun _ => (400, 300) }

/-- What is asked of a call of `ev_view_presentation_update_current_page` for
the page `t` in the session `s`, when it gives the session `s'` and makes the
calls `ops` to the scheduler (the newest first): a job held is cancelled
exactly when its page is not `t - 1`, `t` or `t + 1`; a job held for one of
these pages is in the slot of that page and is not pushed again; and a job is
pushed only for one of these pages, in the document, that no job held is
for. -/
def Reuses (doc : EvDocument) (s s' : EvViewPresentation) (ops : List SchedOp) (t : Int) : Prop :=
  (∀ j ∈ held s, (SchedOp.cancel j.id ∈ ops ↔ (j.page < t - 1 ∨ t + 1 < j.page))) ∧
  (∀ j ∈ held s, t - 1 ≤ j.page → j.page ≤ t + 1 →
    (j.page = t - 1 → s'.prev_job = some j) ∧ (j.page = t → s'.curr_job = some j) ∧
    (j.page = t + 1 → s'.next_job = some j) ∧
    ∀ pg pr, SchedOp.push j.id pg pr ∉ ops) ∧
  (∀ id pg pr, SchedOp.push id pg pr ∈ ops →
    t - 1 ≤ pg ∧ pg ≤ t + 1 ∧ 0 ≤ pg ∧ pg < doc.n_pages ∧ s.next_job_id ≤ id ∧
    ∀ j ∈ held s, j.page ≠ pg)

/-- The session `s'` has the current page, the three jobs and the calls made
to the scheduler of the session `s`. -/
def SameJobs (s s' : EvViewPresentation) : Prop :=
  s'.current_page = s.current_page ∧ s'.prev_job = s.prev_job ∧ s'.curr_job = s.curr_job ∧
  s'.next_job = s.next_job ∧ s'.sched = s.sched ∧ s'.next_job_id = s.next_job_id

/-! ## The reflection of a session -/

/-- The reflection of a page of the document: page `i` goes to `n - 1 - i`. -/
def rho_page (doc : EvDocument) (page : Int) : Int := doc.n_pages - 1 - page

/-- The reflection of a job: the same job, for the reflected page. -/
def rho_job (doc : EvDocument) (job : EvJob) : EvJob :=
  { job with page := rho_page doc job.page }

/-- The reflection of a call to the scheduler. -/
def rho_op (doc : EvDocument) : SchedOp → SchedOp
  | SchedOp.push job page priority => SchedOp.push job (rho_page doc page) priority
  | SchedOp.cancel job => SchedOp.cancel job
  | SchedOp.update job priority => SchedOp.update job priority

/-- The reflection of a session: `prev_job` and `next_job` are swapped, and the
current page and the page of every job are reflected. -/
def rho (doc : EvDocument) (s : EvViewPresentation) : EvViewPresentation :=
  { s with
    current_page := (rho_page doc s.current_page).toNat
    prev_job := s.next_job.map (rho_job doc)
    curr_job := s.curr_job.map (rho_job doc)
    next_job := s.prev_job.map (rho_job doc)
    sched := s.sched.map (rho_op doc) }

/-- The reflection of a slot as `slot_view` gives it. -/
def rho_slot (doc : EvDocument) (slot : Option (Int × Option EvJobPriority)) :
    Option (Int × Option EvJobPriority) :=
  slot.map (fun v => (rho_page doc v.1, v.2))

/-- The reflection of a window as `window` gives it. -/
def rho_window (doc : EvDocument)
    (w : Option (Int × Option EvJobPriority) × Option (Int × Option EvJobPriority) ×
      Option (Int × Option EvJobPriority)) :
    Option (Int × Option EvJobPriority) × Option (Int × Option EvJobPriority) ×
      Option (Int × Option EvJobPriority) :=
  (rho_slot doc w.2.2, rho_slot doc w.2.1, rho_slot doc w.1)

/-- The calls that led from the session `s` to the session `s'`, the newest
first. -/
def new_ops (s s' : EvViewPresentation) : List SchedOp :=
  s'.sched.take (s'.sched.length - s.sched.length)

/-- The page of the job `job` of the session, when it holds it. -/
def page_of (s : EvViewPresentation) (job : Nat) : Option Int :=
  ((held s).find? (fun j => j.id = job)).map EvJob.page

/-- The pages of the jobs of the session `s` that the calls `ops` cancel. -/
def cancelled_pages (s : EvViewPresentation) (ops : List SchedOp) : List Int :=
  ((held s).filter (fun j => SchedOp.cancel j.id ∈ ops)).map EvJob.page

/-- The priority updates among the calls `ops`, the newest first, each with
the page of its job in the session `s`. -/
def priority_updates (s : EvViewPresentation) : List SchedOp → List (Option Int × EvJobPriority)
  | [] => []
  | SchedOp.update job priority :: rest => (page_of s job, priority) :: priority_updates s rest
  | SchedOp.push _ _ _ :: rest => priority_updates s rest
  | SchedOp.cancel _ :: rest => priority_updates s rest

/-- The calls that are not cancellations. -/
def not_cancel : SchedOp → Bool
  | SchedOp.cancel _ => false
  | _ => true

/-- The calls `ops2` are the reflection of the calls `ops1`: they cancel the
same jobs, and but for the cancellations they are the reflected calls in the
same order. -/
def MirrorOps (doc : EvDocument) (ops1 ops2 : List SchedOp) : Prop :=
  (∀ i, SchedOp.cancel i ∈ ops2 ↔ SchedOp.cancel i ∈ ops1) ∧
  ops2.filter not_cancel = (ops1.filter not_cancel).map (rho_op doc)

/-- The reflection of a priority update as `priority_updates` gives it. -/
def rho_update (doc : EvDocument) (u : Option Int × EvJobPriority) :
    Option Int × EvJobPriority :=
  (u.1.map (rho_page doc), u.2)

/-- What the call for the reflected page in the reflected session does, next
to the call for the page `t` in the session `s`: both return, the slots of the
one are the reflected slots of the other, and the calls made are reflected. -/
def Mirrored (doc : EvDocument) (s : EvViewPresentation) (t : Nat) : Prop :=
  ∃ s1 s2 ops1 ops2,
    ev_view_presentation_update_current_page doc s t = some s1 ∧
    ev_view_presentation_update_current_page doc (rho doc s) (rho_page doc t).toNat = some s2 ∧
    s1.sched = ops1 ++ s.sched ∧ s2.sched = ops2 ++ (rho doc s).sched ∧
    MirrorOps doc ops1 ops2 ∧
    s2.prev_job = s1.next_job.map (rho_job doc) ∧
    s2.curr_job = s1.curr_job.map (rho_job doc) ∧
    s2.next_job = s1.prev_job.map (rho_job doc)

/-! ## The timer -/

/-- The session `s'` has the timer of the session `s`: the same
`trans_timeout_id` and the same sources armed in the main loop. -/
def SameTimer (s s' : EvViewPresentation) : Prop :=
  s'.trans_timeout_id = s.trans_timeout_id ∧ s'.sources = s.sources ∧
  s'.next_source_id = s.next_source_id

/-- The session `session10_5` after the render of page 5: the timer of the
page is armed. -/
def session10_5_timer : EvViewPresentation :=
  { session10_5 with
    trans_timeout_id := 1
    curr_job := some { id := 0, page := 5, surface := some 7 }
    sources := [1]
    next_source_id := 2
    redraws := 1 }

/-- The session `session10_5_timer` after the render of page 6, the page of
`next_job`. -/
def session10_5_ready : EvViewPresentation :=
  { session10_5_timer with next_job := some { id := 1, page := 6, surface := some 8 } }

/-! ## Machine integers: the conversions on the values that occur -/

theorem to_guint_natCast (x : Nat) (h : x < 4294967296) : to_guint (x : Int) = x := by
  unfold to_guint; omega

theorem to_gint_small (x : Nat) (h : x < 2147483648) : to_gint x = (x : Int) := by
  unfold to_gint; split_ifs <;> omega

theorem to_guint_to_gint (x : Nat) (h : x < 4294967296) : to_guint (to_gint x) = x := by
  unfold to_guint to_gint; split_ifs <;> omega

theorem to_gint_guint_sub (a b : Nat) (ha : a < 2147483648) (hb : b < 2147483648) :
    to_gint (guint_sub a b) = (a : Int) - (b : Int) := by
  unfold to_gint guint_sub to_guint; split_ifs <;> omega

theorem to_gint_guint_add_one (a : Nat) (ha : a + 1 < 2147483648) :
    to_gint (guint_add a 1) = (a : Int) + 1 := by
  unfold to_gint guint_add; split_ifs <;> omega

theorem guint_add_one (a : Nat) (ha : a + 1 < 4294967296) : guint_add a 1 = a + 1 := by
  unfold guint_add; omega

/-- C5: for every session, every page count `n` with `1 ≤ n ≤ 2^31 - 1` and
every 32-bit signed page argument `p` with `p < 0` or `p ≥ n` (converted to
the `guint` parameter modulo `2^32`),
`ev_view_presentation_update_current_page` returns the session as it was: the
current page, the state, the three slots, the animation, the timer and the
calls made to the scheduler are the same.  So
`ev_view_presentation_previous_page` in state `Normal` at page 0 changes
nothing. -/
theorem update_current_page_out_of_range (doc : EvDocument) (s : EvViewPresentation) (p : Int)
    (hn1 : 1 ≤ doc.n_pages) (hn2 : doc.n_pages ≤ 2147483647)
    (hp1 : -2147483648 ≤ p) (hp2 : p ≤ 2147483647) (hout : p < 0 ∨ p ≥ doc.n_pages) :
    ev_view_presentation_update_current_page doc s (to_guint p) = some s ∧
    (s.state = EvPresentationState.EV_PRESENTATION_NORMAL → s.current_page = 0 →
      ev_view_presentation_previous_page doc s = some s) := by
  constructor
  · unfold ev_view_presentation_update_current_page
    rw [if_pos]
    unfold to_guint; omega
  · intro hst h0
    unfold ev_view_presentation_previous_page
    rw [hst, h0]
    simp only []
    have h1 : to_guint (to_gint (guint_sub 0 1)) = 4294967295 := by decide
    unfold ev_view_presentation_update_current_page
    rw [if_pos]
    rw [h1]; unfold to_guint; omega

theorem animation_cancel_eq (s : EvViewPresentation) :
    ev_view_presentation_animation_cancel s = { s with animation := none } := by
  unfold ev_view_presentation_animation_cancel
  cases h : s.animation <;> simp
  cases s; simp_all

theorem animation_start_eq (doc : EvDocument) (s : EvViewPresentation) (page : Nat)
    (hp : page < 2147483648) (hc : s.current_page < 2147483648)
    (hcurr : s.curr_job ≠ none)
    (hprev : page + 1 = s.current_page → s.prev_job ≠ none)
    (hnext : page = s.current_page + 1 → s.next_job ≠ none) :
    ∃ a, ev_view_presentation_animation_start doc s (to_gint page) = some { s with animation := a } := by
  unfold ev_view_presentation_animation_start
  rw [to_gint_small page hp, to_guint_natCast page (by omega), to_gint_guint_sub page _ hp hc]
  obtain ⟨cp, csurf, rot, st, tid, ea, anim, pj, cj, nj, sched, nid, srcs, nsid, rd⟩ := s
  simp only at hc hcurr hprev hnext ⊢
  by_cases he : ea = true
  swap
  · exact ⟨anim, by simp [he]⟩
  by_cases hpc : cp = page
  · exact ⟨anim, by simp [hpc]⟩
  cases heff : doc.effect page with
  | none => exact ⟨anim, by simp [he, hpc]⟩
  | some eff =>
    obtain ⟨jc, hjc⟩ := Option.ne_none_iff_exists'.mp hcurr
    simp only [he, hpc, hjc]
    by_cases hm : (page : Int) - cp = -1
    · obtain ⟨jp, hjp⟩ := Option.ne_none_iff_exists'.mp (hprev (by omega))
      simp [hm, hjp]
    · by_cases h1 : (page : Int) - cp = 1
      · obtain ⟨jn, hjn⟩ := Option.ne_none_iff_exists'.mp (hnext (by omega))
        simp [h1, hjn]
      · simp [hm, h1]

/-! ## The functions, step by step -/

theorem schedule_new_job_eq (doc : EvDocument) (s : EvViewPresentation) (page : Int)
    (priority : EvJobPriority) :
    ev_view_presentation_schedule_new_job doc s page priority =
      ({ s with
          next_job_id := bump s.next_job_id (new_job doc s.next_job_id page)
          sched := push_ops (new_job doc s.next_job_id page) priority ++ s.sched },
        new_job doc s.next_job_id page) := by
  unfold ev_view_presentation_schedule_new_job new_job
  split_ifs <;> simp [bump, push_ops]

theorem delete_job_eq (s : EvViewPresentation) (job : Option EvJob) :
    ev_view_presentation_delete_job s job = { s with sched := cancel_ops job ++ s.sched } := by
  cases job <;> simp [ev_view_presentation_delete_job, cancel_ops]

/-- The `case 0` on a session with the three slots empty. -/
theorem switch_zero_empty (doc : EvDocument) (s : EvViewPresentation) (page : Nat)
    (hp : s.prev_job = none) (hc : s.curr_job = none) (hn : s.next_job = none) :
    update_current_page_switch doc s page 0 = some
      { s with
        curr_job := new_job doc s.next_job_id (to_gint page)
        next_job := new_job doc (bump s.next_job_id (new_job doc s.next_job_id (to_gint page)))
          (to_gint (guint_add page 1))
        prev_job := new_job doc
          (bump (bump s.next_job_id (new_job doc s.next_job_id (to_gint page)))
            (new_job doc (bump s.next_job_id (new_job doc s.next_job_id (to_gint page)))
              (to_gint (guint_add page 1))))
          (to_gint (guint_sub page 1))
        sched :=
          push_ops (new_job doc
              (bump (bump s.next_job_id (new_job doc s.next_job_id (to_gint page)))
                (new_job doc (bump s.next_job_id (new_job doc s.next_job_id (to_gint page)))
                  (to_gint (guint_add page 1))))
              (to_gint (guint_sub page 1))) EvJobPriority.EV_JOB_PRIORITY_LOW ++
            (push_ops (new_job doc (bump s.next_job_id (new_job doc s.next_job_id (to_gint page)))
                (to_gint (guint_add page 1))) EvJobPriority.EV_JOB_PRIORITY_HIGH ++
              (push_ops (new_job doc s.next_job_id (to_gint page))
                EvJobPriority.EV_JOB_PRIORITY_URGENT ++ s.sched))
        next_job_id :=
          bump (bump (bump s.next_job_id (new_job doc s.next_job_id (to_gint page)))
              (new_job doc (bump s.next_job_id (new_job doc s.next_job_id (to_gint page)))
                (to_gint (guint_add page 1))))
            (new_job doc
              (bump (bump s.next_job_id (new_job doc s.next_job_id (to_gint page)))
                (new_job doc (bump s.next_job_id (new_job doc s.next_job_id (to_gint page)))
                  (to_gint (guint_add page 1))))
              (to_gint (guint_sub page 1))) } := by
  obtain ⟨cp, csurf, rot, st, tid, ea, anim, pj, cj, nj, sched, nid, srcs, nsid, rd⟩ := s
  simp only at hp hc hn
  subst hp hc hn
  simp only [update_current_page_switch, ↓reduceIte, schedule_new_job_eq]

/-- The `case 0` on a session whose slots are filled wherever a page exists. -/
theorem switch_zero_full (doc : EvDocument) (s : EvViewPresentation) (page : Nat) (jc : EvJob)
    (hc : s.curr_job = some jc)
    (hn : s.next_job = none → new_job doc s.next_job_id (to_gint (guint_add page 1)) = none)
    (hp : s.prev_job = none → new_job doc s.next_job_id (to_gint (guint_sub page 1)) = none) :
    update_current_page_switch doc s page 0 = some s := by
  obtain ⟨cp, csurf, rot, st, tid, ea, anim, pj, cj, nj, sched, nid, srcs, nsid, rd⟩ := s
  simp only at hp hc hn
  subst hc
  cases nj <;> cases pj <;>
    simp_all [update_current_page_switch, schedule_new_job_eq, bump, push_ops]

/-- The `case -1`. -/
theorem switch_minus_one (doc : EvDocument) (s : EvViewPresentation) (page : Nat) (jp jc : EvJob)
    (hp : s.prev_job = some jp) (hc : s.curr_job = some jc) :
    update_current_page_switch doc s page (-1) = some
      { s with
        next_job := some jc
        curr_job := some jp
        prev_job := new_job doc s.next_job_id (to_gint (guint_sub page 1))
        sched := SchedOp.update jc.id EvJobPriority.EV_JOB_PRIORITY_LOW ::
          (push_ops (new_job doc s.next_job_id (to_gint (guint_sub page 1)))
              EvJobPriority.EV_JOB_PRIORITY_HIGH ++
            SchedOp.update jp.id EvJobPriority.EV_JOB_PRIORITY_URGENT ::
              (cancel_ops s.next_job ++ s.sched))
        next_job_id := bump s.next_job_id (new_job doc s.next_job_id (to_gint (guint_sub page 1))) } := by
  obtain ⟨cp, csurf, rot, st, tid, ea, anim, pj, cj, nj, sched, nid, srcs, nsid, rd⟩ := s
  simp only at hp hc
  subst hp hc
  simp only [update_current_page_switch, ↓reduceIte, Int.reduceEq, Int.reduceNeg, Option.bind_eq_bind,
    Option.some_bind, Option.pure_def, delete_job_eq, ev_job_scheduler_update_job, schedule_new_job_eq]

/-- The `case 1`. -/
theorem switch_plus_one (doc : EvDocument) (s : EvViewPresentation) (page : Nat) (jc jn : EvJob)
    (hc : s.curr_job = some jc) (hn : s.next_job = some jn) :
    update_current_page_switch doc s page 1 = some
      { s with
        prev_job := some jc
        curr_job := some jn
        next_job := new_job doc s.next_job_id (to_gint (guint_add page 1))
        sched := SchedOp.update jc.id EvJobPriority.EV_JOB_PRIORITY_LOW ::
          (push_ops (new_job doc s.next_job_id (to_gint (guint_add page 1)))
              EvJobPriority.EV_JOB_PRIORITY_HIGH ++
            SchedOp.update jn.id EvJobPriority.EV_JOB_PRIORITY_URGENT ::
              (cancel_ops s.prev_job ++ s.sched))
        next_job_id := bump s.next_job_id (new_job doc s.next_job_id (to_gint (guint_add page 1))) } := by
  obtain ⟨cp, csurf, rot, st, tid, ea, anim, pj, cj, nj, sched, nid, srcs, nsid, rd⟩ := s
  simp only at hc hn
  subst hc hn
  simp only [update_current_page_switch, ↓reduceIte, Int.reduceEq, Int.reduceNeg, Option.bind_eq_bind,
    Option.some_bind, Option.pure_def, delete_job_eq, ev_job_scheduler_update_job, schedule_new_job_eq]

/-- The `case -2`. -/
theorem switch_minus_two (doc : EvDocument) (s : EvViewPresentation) (page : Nat) (jp : EvJob)
    (hp : s.prev_job = some jp) :
    update_current_page_switch doc s page (-2) = some
      { s with
        next_job := some jp
        curr_job := new_job doc s.next_job_id (to_gint page)
        prev_job := new_job doc (bump s.next_job_id (new_job doc s.next_job_id (to_gint page)))
          (to_gint (guint_sub page 1))
        sched := SchedOp.update jp.id EvJobPriority.EV_JOB_PRIORITY_LOW ::
          (push_ops (new_job doc (bump s.next_job_id (new_job doc s.next_job_id (to_gint page)))
              (to_gint (guint_sub page 1))) EvJobPriority.EV_JOB_PRIORITY_HIGH ++
            (push_ops (new_job doc s.next_job_id (to_gint page)) EvJobPriority.EV_JOB_PRIORITY_URGENT ++
              (cancel_ops s.curr_job ++ (cancel_ops s.next_job ++ s.sched))))
        next_job_id :=
          bump (bump s.next_job_id (new_job doc s.next_job_id (to_gint page)))
            (new_job doc (bump s.next_job_id (new_job doc s.next_job_id (to_gint page)))
              (to_gint (guint_sub page 1))) } := by
  obtain ⟨cp, csurf, rot, st, tid, ea, anim, pj, cj, nj, sched, nid, srcs, nsid, rd⟩ := s
  simp only at hp
  subst hp
  simp only [update_current_page_switch, ↓reduceIte, Int.reduceEq, Int.reduceNeg, Option.bind_eq_bind,
    Option.some_bind, Option.pure_def, delete_job_eq, ev_job_scheduler_update_job, schedule_new_job_eq]

/-- The `case 2`. -/
theorem switch_plus_two (doc : EvDocument) (s : EvViewPresentation) (page : Nat) (jn : EvJob)
    (hn : s.next_job = some jn) :
    update_current_page_switch doc s page 2 = some
      { s with
        prev_job := some jn
        curr_job := new_job doc s.next_job_id (to_gint page)
        next_job := new_job doc (bump s.next_job_id (new_job doc s.next_job_id (to_gint page)))
          (to_gint (guint_add page 1))
        sched := SchedOp.update jn.id EvJobPriority.EV_JOB_PRIORITY_LOW ::
          (push_ops (new_job doc (bump s.next_job_id (new_job doc s.next_job_id (to_gint page)))
              (to_gint (guint_add page 1))) EvJobPriority.EV_JOB_PRIORITY_HIGH ++
            (push_ops (new_job doc s.next_job_id (to_gint page)) EvJobPriority.EV_JOB_PRIORITY_URGENT ++
              (cancel_ops s.curr_job ++ (cancel_ops s.prev_job ++ s.sched))))
        next_job_id :=
          bump (bump s.next_job_id (new_job doc s.next_job_id (to_gint page)))
            (new_job doc (bump s.next_job_id (new_job doc s.next_job_id (to_gint page)))
              (to_gint (guint_add page 1))) } := by
  obtain ⟨cp, csurf, rot, st, tid, ea, anim, pj, cj, nj, sched, nid, srcs, nsid, rd⟩ := s
  simp only at hn
  subst hn
  simp only [update_current_page_switch, ↓reduceIte, Int.reduceEq, Int.reduceNeg, Option.bind_eq_bind,
    Option.some_bind, Option.pure_def, delete_job_eq, ev_job_scheduler_update_job, schedule_new_job_eq]

/-- The `default` case of a jump forward. -/
theorem switch_forward (doc : EvDocument) (s : EvViewPresentation) (page : Nat) (jump : Int)
    (hjump : 3 ≤ jump) :
    update_current_page_switch doc s page jump = some
      { s with
        curr_job := new_job doc s.next_job_id (to_gint page)
        next_job := new_job doc (bump s.next_job_id (new_job doc s.next_job_id (to_gint page)))
          (to_gint (guint_add page 1))
        prev_job := new_job doc
          (bump (bump s.next_job_id (new_job doc s.next_job_id (to_gint page)))
            (new_job doc (bump s.next_job_id (new_job doc s.next_job_id (to_gint page)))
              (to_gint (guint_add page 1))))
          (to_gint (guint_sub page 1))
        sched :=
          push_ops (new_job doc
              (bump (bump s.next_job_id (new_job doc s.next_job_id (to_gint page)))
                (new_job doc (bump s.next_job_id (new_job doc s.next_job_id (to_gint page)))
                  (to_gint (guint_add page 1))))
              (to_gint (guint_sub page 1))) EvJobPriority.EV_JOB_PRIORITY_LOW ++
            (push_ops (new_job doc (bump s.next_job_id (new_job doc s.next_job_id (to_gint page)))
                (to_gint (guint_add page 1))) EvJobPriority.EV_JOB_PRIORITY_HIGH ++
              (push_ops (new_job doc s.next_job_id (to_gint page))
                  EvJobPriority.EV_JOB_PRIORITY_URGENT ++
                (cancel_ops s.next_job ++ (cancel_ops s.curr_job ++ (cancel_ops s.prev_job ++ s.sched)))))
        next_job_id :=
          bump (bump (bump s.next_job_id (new_job doc s.next_job_id (to_gint page)))
              (new_job doc (bump s.next_job_id (new_job doc s.next_job_id (to_gint page)))
                (to_gint (guint_add page 1))))
            (new_job doc
              (bump (bump s.next_job_id (new_job doc s.next_job_id (to_gint page)))
                (new_job doc (bump s.next_job_id (new_job doc s.next_job_id (to_gint page)))
                  (to_gint (guint_add page 1))))
              (to_gint (guint_sub page 1))) } := by
  obtain ⟨cp, csurf, rot, st, tid, ea, anim, pj, cj, nj, sched, nid, srcs, nsid, rd⟩ := s
  have e0 : ¬ jump = 0 := by omega
  have e1 : ¬ jump = -1 := by omega
  have e2 : ¬ jump = 1 := by omega
  have e3 : ¬ jump = -2 := by omega
  have e4 : ¬ jump = 2 := by omega
  have e5 : jump > 0 := by omega
  simp only [update_current_page_switch, e0, e1, e2, e3, e4, e5, ↓reduceIte, delete_job_eq,
    schedule_new_job_eq]

/-- The `default` case of a jump backward. -/
theorem switch_backward (doc : EvDocument) (s : EvViewPresentation) (page : Nat) (jump : Int)
    (hjump : jump ≤ -3) :
    update_current_page_switch doc s page jump = some
      { s with
        curr_job := new_job doc s.next_job_id (to_gint page)
        prev_job := new_job doc (bump s.next_job_id (new_job doc s.next_job_id (to_gint page)))
          (to_gint (guint_sub page 1))
        next_job := new_job doc
          (bump (bump s.next_job_id (new_job doc s.next_job_id (to_gint page)))
            (new_job doc (bump s.next_job_id (new_job doc s.next_job_id (to_gint page)))
              (to_gint (guint_sub page 1))))
          (to_gint (guint_add page 1))
        sched :=
          push_ops (new_job doc
              (bump (bump s.next_job_id (new_job doc s.next_job_id (to_gint page)))
                (new_job doc (bump s.next_job_id (new_job doc s.next_job_id (to_gint page)))
                  (to_gint (guint_sub page 1))))
              (to_gint (guint_add page 1))) EvJobPriority.EV_JOB_PRIORITY_LOW ++
            (push_ops (new_job doc (bump s.next_job_id (new_job doc s.next_job_id (to_gint page)))
                (to_gint (guint_sub page 1))) EvJobPriority.EV_JOB_PRIORITY_HIGH ++
              (push_ops (new_job doc s.next_job_id (to_gint page))
                  EvJobPriority.EV_JOB_PRIORITY_URGENT ++
                (cancel_ops s.next_job ++ (cancel_ops s.curr_job ++ (cancel_ops s.prev_job ++ s.sched)))))
        next_job_id :=
          bump (bump (bump s.next_job_id (new_job doc s.next_job_id (to_gint page)))
              (new_job doc (bump s.next_job_id (new_job doc s.next_job_id (to_gint page)))
                (to_gint (guint_sub page 1))))
            (new_job doc
              (bump (bump s.next_job_id (new_job doc s.next_job_id (to_gint page)))
                (new_job doc (bump s.next_job_id (new_job doc s.next_job_id (to_gint page)))
                  (to_gint (guint_sub page 1))))
              (to_gint (guint_add page 1))) } := by
  obtain ⟨cp, csurf, rot, st, tid, ea, anim, pj, cj, nj, sched, nid, srcs, nsid, rd⟩ := s
  have e0 : ¬ jump = 0 := by omega
  have e1 : ¬ jump = -1 := by omega
  have e2 : ¬ jump = 1 := by omega
  have e3 : ¬ jump = -2 := by omega
  have e4 : ¬ jump = 2 := by omega
  have e5 : ¬ jump > 0 := by omega
  simp only [update_current_page_switch, e0, e1, e2, e3, e4, e5, ↓reduceIte, delete_job_eq,
    schedule_new_job_eq]

/-- The function around its `switch`, when no pointer is `NULL` where it is read. -/
theorem update_current_page_eq (doc : EvDocument) (s sa s2 : EvViewPresentation) (page : Nat)
    (j : EvJob) (hg : page < to_guint doc.n_pages)
    (ha : ev_view_presentation_animation_start doc (ev_view_presentation_animation_cancel s)
      (to_gint page) = some sa)
    (hs : update_current_page_switch doc sa page (to_gint (guint_sub page sa.current_page)) = some s2)
    (hj : s2.curr_job = some j) :
    ev_view_presentation_update_current_page doc s page =
      some (drawn j { s2 with current_page := page }) := by
  have hg' : ¬ (page ≥ to_guint doc.n_pages) := by omega
  simp only [ev_view_presentation_update_current_page, hg', ↓reduceIte, ha, Option.bind_eq_bind,
    Option.some_bind, hs, hj, Option.pure_def, drawn]
  split_ifs <;> rfl

/-! ## What the invariant says of the slots -/

theorem WindowInv.curr_some {doc : EvDocument} {s : EvViewPresentation} (inv : WindowInv doc s) :
    ∃ j, s.curr_job = some j ∧ j.page = (s.current_page : Int) := by
  have h := inv.curr
  cases hc : s.curr_job with
  | none => rw [hc] at h; simp at h
  | some j => rw [hc] at h; exact ⟨j, rfl, by simpa using h⟩

theorem WindowInv.prev_some {doc : EvDocument} {s : EvViewPresentation} (inv : WindowInv doc s)
    (h1 : 1 ≤ s.current_page) :
    ∃ j, s.prev_job = some j ∧ j.page = (s.current_page : Int) - 1 := by
  have h := inv.prev
  rw [if_pos h1] at h
  cases hc : s.prev_job with
  | none => rw [hc] at h; simp at h
  | some j => rw [hc] at h; exact ⟨j, rfl, by simpa using h⟩

theorem WindowInv.prev_none {doc : EvDocument} {s : EvViewPresentation} (inv : WindowInv doc s)
    (h0 : s.current_page = 0) : s.prev_job = none := by
  have h := inv.prev
  rw [if_neg (by omega)] at h
  simpa using h

theorem WindowInv.next_some {doc : EvDocument} {s : EvViewPresentation} (inv : WindowInv doc s)
    (h1 : (s.current_page : Int) + 1 < doc.n_pages) :
    ∃ j, s.next_job = some j ∧ j.page = (s.current_page : Int) + 1 := by
  have h := inv.next
  rw [if_pos h1] at h
  cases hc : s.next_job with
  | none => rw [hc] at h; simp at h
  | some j => rw [hc] at h; exact ⟨j, rfl, by simpa using h⟩

theorem WindowInv.next_none {doc : EvDocument} {s : EvViewPresentation} (inv : WindowInv doc s)
    (h1 : ¬ (s.current_page : Int) + 1 < doc.n_pages) : s.next_job = none := by
  have h := inv.next
  rw [if_neg h1] at h
  simpa using h

theorem new_job_inside (doc : EvDocument) (id : Nat) (page : Int) (h0 : 0 ≤ page)
    (h1 : page < doc.n_pages) :
    new_job doc id page = some { id := id, page := page, surface := none } := by
  unfold new_job
  rw [if_neg (by omega)]

theorem new_job_outside (doc : EvDocument) (id : Nat) (page : Int)
    (h : page < 0 ∨ page ≥ doc.n_pages) : new_job doc id page = none := by
  unfold new_job
  rw [if_pos h]

/-- No pointer that `ev_view_presentation_animation_start` reads is `NULL` in a
session with the invariant, for a page of the document. -/
theorem animation_start_inv (doc : EvDocument) (hdoc : doc.valid) (s : EvViewPresentation)
    (inv : WindowInv doc s) (page : Nat) (hpage : (page : Int) < doc.n_pages) :
    ∃ a, ev_view_presentation_animation_start doc (ev_view_presentation_animation_cancel s)
      (to_gint page) = some { s with animation := a } := by
  have hc := inv.page_lt
  have hn := hdoc.2
  obtain ⟨jc, hjc, -⟩ := inv.curr_some
  obtain ⟨a, ha⟩ := animation_start_eq doc (ev_view_presentation_animation_cancel s) page
    (by omega) (by rw [animation_cancel_eq]; simp only; omega)
    (by rw [animation_cancel_eq]; simp [hjc])
    (by
      rw [animation_cancel_eq]; intro h
      obtain ⟨jp, hjp, -⟩ := inv.prev_some (by simp only at h; omega)
      simp [hjp])
    (by
      rw [animation_cancel_eq]; intro h
      obtain ⟨jn, hjn, -⟩ := inv.next_some (by simp only at h; omega)
      simp [hjn])
  rw [animation_cancel_eq] at ha
  exact ⟨a, by rw [animation_cancel_eq]; exact ha⟩

/-- The animation is only cancelled when the page does not change. -/
theorem animation_start_same (doc : EvDocument) (s : EvViewPresentation)
    (hc : s.current_page < 2147483648) :
    ev_view_presentation_animation_start doc (ev_view_presentation_animation_cancel s)
      (to_gint s.current_page) = some { s with animation := none } := by
  rw [animation_cancel_eq]
  unfold ev_view_presentation_animation_start
  rw [to_gint_small _ hc, to_guint_natCast _ (by omega)]
  simp

/-! ## The seven cases of `ev_view_presentation_update_current_page` -/

theorem to_gint_guint_sub_one (a : Nat) (ha : a < 2147483648) :
    to_gint (guint_sub a 1) = (a : Int) - 1 := by
  unfold to_gint guint_sub to_guint; split_ifs <;> omega

theorem page_lt_guint (doc : EvDocument) (hdoc : doc.valid) (page : Nat)
    (hpage : (page : Int) < doc.n_pages) : page < to_guint doc.n_pages := by
  have h1 := hdoc.1
  have h2 := hdoc.2
  unfold to_guint; omega

/-- The page does not change: nothing but the animation does. -/
theorem update_same (doc : EvDocument) (hdoc : doc.valid) (s : EvViewPresentation)
    (inv : WindowInv doc s) :
    ∃ jc, s.curr_job = some jc ∧
      ev_view_presentation_update_current_page doc s s.current_page =
        some (drawn jc { s with animation := none }) := by
  have hc := inv.page_lt
  have hn := hdoc.2
  obtain ⟨jc, hjc, -⟩ := inv.curr_some
  have ha := animation_start_same doc s (by omega)
  have hsw := switch_zero_full doc { s with animation := none } s.current_page jc hjc
    (by
      intro h
      have := inv.next
      simp only at h
      rw [h] at this
      apply new_job_outside
      rw [to_gint_guint_add_one _ (by omega)]
      right
      by_contra hlt
      rw [if_pos (by omega)] at this
      simp at this)
    (by
      intro h
      have := inv.prev
      simp only at h
      rw [h] at this
      apply new_job_outside
      rw [to_gint_guint_sub_one _ (by omega)]
      left
      by_contra hlt
      rw [if_pos (by omega)] at this
      simp at this)
  refine ⟨jc, hjc, ?_⟩
  exact update_current_page_eq doc s { s with animation := none } { s with animation := none }
    s.current_page jc (page_lt_guint doc hdoc _ hc) ha
    (by
      simp only
      rw [to_gint_guint_sub _ _ (by omega) (by omega), sub_self]
      exact hsw)
    hjc

/-- One page forward.  With the animation that
`ev_view_presentation_animation_start` leaves. -/
theorem update_plus_one_anim (doc : EvDocument) (hdoc : doc.valid) (s : EvViewPresentation)
    (inv : WindowInv doc s) (page : Nat) (h : page = s.current_page + 1)
    (hpage : (page : Int) < doc.n_pages) :
    ∃ jc jn a, ev_view_presentation_animation_start doc (ev_view_presentation_animation_cancel s)
        (to_gint page) = some { s with animation := a } ∧
      s.curr_job = some jc ∧ s.next_job = some jn ∧
      ev_view_presentation_update_current_page doc s page =
        some (drawn jn
          { s with
            current_page := page
            animation := a
            prev_job := some jc
            curr_job := some jn
            next_job := new_job doc s.next_job_id ((page : Int) + 1)
            sched := SchedOp.update jc.id EvJobPriority.EV_JOB_PRIORITY_LOW ::
              (push_ops (new_job doc s.next_job_id ((page : Int) + 1))
                  EvJobPriority.EV_JOB_PRIORITY_HIGH ++
                SchedOp.update jn.id EvJobPriority.EV_JOB_PRIORITY_URGENT ::
                  (cancel_ops s.prev_job ++ s.sched))
            next_job_id := bump s.next_job_id (new_job doc s.next_job_id ((page : Int) + 1)) }) := by
  have hc := inv.page_lt
  have hn := hdoc.2
  obtain ⟨jc, hjc, -⟩ := inv.curr_some
  obtain ⟨jn, hjn, -⟩ := inv.next_some (by omega)
  obtain ⟨a, ha⟩ := animation_start_inv doc hdoc s inv page hpage
  have hsw := switch_plus_one doc { s with animation := a } page jc jn hjc hjn
  rw [to_gint_guint_add_one _ (by omega)] at hsw
  refine ⟨jc, jn, a, ha, hjc, hjn, ?_⟩
  exact update_current_page_eq doc s { s with animation := a } _ page jn
    (page_lt_guint doc hdoc _ hpage) ha
    (by
      simp only
      rw [to_gint_guint_sub _ _ (by omega) (by omega), show (page : Int) - s.current_page = 1 by omega]
      exact hsw)
    rfl

/-- One page forward. -/
theorem update_plus_one (doc : EvDocument) (hdoc : doc.valid) (s : EvViewPresentation)
    (inv : WindowInv doc s) (page : Nat) (h : page = s.current_page + 1)
    (hpage : (page : Int) < doc.n_pages) :
    ∃ jc jn a, s.curr_job = some jc ∧ s.next_job = some jn ∧
      ev_view_presentation_update_current_page doc s page =
        some (drawn jn
          { s with
            current_page := page
            animation := a
            prev_job := some jc
            curr_job := some jn
            next_job := new_job doc s.next_job_id ((page : Int) + 1)
            sched := SchedOp.update jc.id EvJobPriority.EV_JOB_PRIORITY_LOW ::
              (push_ops (new_job doc s.next_job_id ((page : Int) + 1))
                  EvJobPriority.EV_JOB_PRIORITY_HIGH ++
                SchedOp.update jn.id EvJobPriority.EV_JOB_PRIORITY_URGENT ::
                  (cancel_ops s.prev_job ++ s.sched))
            next_job_id := bump s.next_job_id (new_job doc s.next_job_id ((page : Int) + 1)) }) := by
  obtain ⟨jc, jn, a, -, hjc, hjn, heq⟩ := update_plus_one_anim doc hdoc s inv page h hpage
  exact ⟨jc, jn, a, hjc, hjn, heq⟩

theorem bump_some (id : Nat) (j : EvJob) : bump id (some j) = id + 1 := rfl

theorem push_ops_some (j : EvJob) (priority : EvJobPriority) :
    push_ops (some j) priority = [SchedOp.push j.id j.page priority] := rfl

theorem drawn_new (id : Nat) (page : Int) (s : EvViewPresentation) :
    drawn { id := id, page := page, surface := none } s = s := by
  simp [drawn]

/-- One page backward.  With the animation that
`ev_view_presentation_animation_start` leaves. -/
theorem update_minus_one_anim (doc : EvDocument) (hdoc : doc.valid) (s : EvViewPresentation)
    (inv : WindowInv doc s) (page : Nat) (h : page + 1 = s.current_page) :
    ∃ jp jc a, ev_view_presentation_animation_start doc (ev_view_presentation_animation_cancel s)
        (to_gint page) = some { s with animation := a } ∧
      s.prev_job = some jp ∧ s.curr_job = some jc ∧
      ev_view_presentation_update_current_page doc s page =
        some (drawn jp
          { s with
            current_page := page
            animation := a
            next_job := some jc
            curr_job := some jp
            prev_job := new_job doc s.next_job_id ((page : Int) - 1)
            sched := SchedOp.update jc.id EvJobPriority.EV_JOB_PRIORITY_LOW ::
              (push_ops (new_job doc s.next_job_id ((page : Int) - 1))
                  EvJobPriority.EV_JOB_PRIORITY_HIGH ++
                SchedOp.update jp.id EvJobPriority.EV_JOB_PRIORITY_URGENT ::
                  (cancel_ops s.next_job ++ s.sched))
            next_job_id := bump s.next_job_id (new_job doc s.next_job_id ((page : Int) - 1)) }) := by
  have hc := inv.page_lt
  have hn := hdoc.2
  have hpage : (page : Int) < doc.n_pages := by omega
  obtain ⟨jc, hjc, -⟩ := inv.curr_some
  obtain ⟨jp, hjp, -⟩ := inv.prev_some (by omega)
  obtain ⟨a, ha⟩ := animation_start_inv doc hdoc s inv page hpage
  have hsw := switch_minus_one doc { s with animation := a } page jp jc hjp hjc
  rw [to_gint_guint_sub_one _ (by omega)] at hsw
  refine ⟨jp, jc, a, ha, hjp, hjc, ?_⟩
  exact update_current_page_eq doc s { s with animation := a } _ page jp
    (page_lt_guint doc hdoc _ hpage) ha
    (by
      simp only
      rw [to_gint_guint_sub _ _ (by omega) (by omega), show (page : Int) - s.current_page = -1 by omega]
      exact hsw)
    rfl

/-- One page backward. -/
theorem update_minus_one (doc : EvDocument) (hdoc : doc.valid) (s : EvViewPresentation)
    (inv : WindowInv doc s) (page : Nat) (h : page + 1 = s.current_page) :
    ∃ jp jc a, s.prev_job = some jp ∧ s.curr_job = some jc ∧
      ev_view_presentation_update_current_page doc s page =
        some (drawn jp
          { s with
            current_page := page
            animation := a
            next_job := some jc
            curr_job := some jp
            prev_job := new_job doc s.next_job_id ((page : Int) - 1)
            sched := SchedOp.update jc.id EvJobPriority.EV_JOB_PRIORITY_LOW ::
              (push_ops (new_job doc s.next_job_id ((page : Int) - 1))
                  EvJobPriority.EV_JOB_PRIORITY_HIGH ++
                SchedOp.update jp.id EvJobPriority.EV_JOB_PRIORITY_URGENT ::
                  (cancel_ops s.next_job ++ s.sched))
            next_job_id := bump s.next_job_id (new_job doc s.next_job_id ((page : Int) - 1)) }) := by
  obtain ⟨jp, jc, a, -, hjp, hjc, heq⟩ := update_minus_one_anim doc hdoc s inv page h
  exact ⟨jp, jc, a, hjp, hjc, heq⟩

/-- Two pages forward.  With the animation that
`ev_view_presentation_animation_start` leaves. -/
theorem update_plus_two_anim (doc : EvDocument) (hdoc : doc.valid) (s : EvViewPresentation)
    (inv : WindowInv doc s) (page : Nat) (h : page = s.current_page + 2)
    (hpage : (page : Int) < doc.n_pages) :
    ∃ jn a, ev_view_presentation_animation_start doc (ev_view_presentation_animation_cancel s)
        (to_gint page) = some { s with animation := a } ∧
      s.next_job = some jn ∧
      ev_view_presentation_update_current_page doc s page =
        some
          { s with
            current_page := page
            animation := a
            prev_job := some jn
            curr_job := some { id := s.next_job_id, page := page, surface := none }
            next_job := new_job doc (s.next_job_id + 1) ((page : Int) + 1)
            sched := SchedOp.update jn.id EvJobPriority.EV_JOB_PRIORITY_LOW ::
              (push_ops (new_job doc (s.next_job_id + 1) ((page : Int) + 1))
                  EvJobPriority.EV_JOB_PRIORITY_HIGH ++
                SchedOp.push s.next_job_id page EvJobPriority.EV_JOB_PRIORITY_URGENT ::
                  (cancel_ops s.curr_job ++ (cancel_ops s.prev_job ++ s.sched)))
            next_job_id :=
              bump (s.next_job_id + 1) (new_job doc (s.next_job_id + 1) ((page : Int) + 1)) } := by
  have hc := inv.page_lt
  have hn := hdoc.2
  obtain ⟨jn, hjn, -⟩ := inv.next_some (by omega)
  obtain ⟨a, ha⟩ := animation_start_inv doc hdoc s inv page hpage
  have hsw := switch_plus_two doc { s with animation := a } page jn hjn
  rw [to_gint_guint_add_one _ (by omega), to_gint_small page (by omega)] at hsw
  simp only [new_job_inside doc s.next_job_id page (by omega) hpage, bump_some, push_ops_some,
    List.singleton_append] at hsw
  refine ⟨jn, a, ha, hjn, ?_⟩
  refine (update_current_page_eq doc s { s with animation := a } _ page
    { id := s.next_job_id, page := page, surface := none }
    (page_lt_guint doc hdoc _ hpage) ha
    (by
      simp only
      rw [to_gint_guint_sub _ _ (by omega) (by omega), show (page : Int) - s.current_page = 2 by omega]
      exact hsw)
    rfl).trans ?_
  rw [drawn_new]

/-- Two pages forward. -/
theorem update_plus_two (doc : EvDocument) (hdoc : doc.valid) (s : EvViewPresentation)
    (inv : WindowInv doc s) (page : Nat) (h : page = s.current_page + 2)
    (hpage : (page : Int) < doc.n_pages) :
    ∃ jn a, s.next_job = some jn ∧
      ev_view_presentation_update_current_page doc s page =
        some
          { s with
            current_page := page
            animation := a
            prev_job := some jn
            curr_job := some { id := s.next_job_id, page := page, surface := none }
            next_job := new_job doc (s.next_job_id + 1) ((page : Int) + 1)
            sched := SchedOp.update jn.id EvJobPriority.EV_JOB_PRIORITY_LOW ::
              (push_ops (new_job doc (s.next_job_id + 1) ((page : Int) + 1))
                  EvJobPriority.EV_JOB_PRIORITY_HIGH ++
                SchedOp.push s.next_job_id page EvJobPriority.EV_JOB_PRIORITY_URGENT ::
                  (cancel_ops s.curr_job ++ (cancel_ops s.prev_job ++ s.sched)))
            next_job_id :=
              bump (s.next_job_id + 1) (new_job doc (s.next_job_id + 1) ((page : Int) + 1)) } := by
  obtain ⟨jn, a, -, hjn, heq⟩ := update_plus_two_anim doc hdoc s inv page h hpage
  exact ⟨jn, a, hjn, heq⟩

/-- Two pages backward.  With the animation that
`ev_view_presentation_animation_start` leaves. -/
theorem update_minus_two_anim (doc : EvDocument) (hdoc : doc.valid) (s : EvViewPresentation)
    (inv : WindowInv doc s) (page : Nat) (h : page + 2 = s.current_page) :
    ∃ jp a, ev_view_presentation_animation_start doc (ev_view_presentation_animation_cancel s)
        (to_gint page) = some { s with animation := a } ∧
      s.prev_job = some jp ∧
      ev_view_presentation_update_current_page doc s page =
        some
          { s with
            current_page := page
            animation := a
            next_job := some jp
            curr_job := some { id := s.next_job_id, page := page, surface := none }
            prev_job := new_job doc (s.next_job_id + 1) ((page : Int) - 1)
            sched := SchedOp.update jp.id EvJobPriority.EV_JOB_PRIORITY_LOW ::
              (push_ops (new_job doc (s.next_job_id + 1) ((page : Int) - 1))
                  EvJobPriority.EV_JOB_PRIORITY_HIGH ++
                SchedOp.push s.next_job_id page EvJobPriority.EV_JOB_PRIORITY_URGENT ::
                  (cancel_ops s.curr_job ++ (cancel_ops s.next_job ++ s.sched)))
            next_job_id :=
              bump (s.next_job_id + 1) (new_job doc (s.next_job_id + 1) ((page : Int) - 1)) } := by
  have hc := inv.page_lt
  have hn := hdoc.2
  have hpage : (page : Int) < doc.n_pages := by omega
  obtain ⟨jp, hjp, -⟩ := inv.prev_some (by omega)
  obtain ⟨a, ha⟩ := animation_start_inv doc hdoc s inv page hpage
  have hsw := switch_minus_two doc { s with animation := a } page jp hjp
  rw [to_gint_guint_sub_one _ (by omega), to_gint_small page (by omega)] at hsw
  simp only [new_job_inside doc s.next_job_id page (by omega) hpage, bump_some, push_ops_some,
    List.singleton_append] at hsw
  refine ⟨jp, a, ha, hjp, ?_⟩
  refine (update_current_page_eq doc s { s with animation := a } _ page
    { id := s.next_job_id, page := page, surface := none }
    (page_lt_guint doc hdoc _ hpage) ha
    (by
      simp only
      rw [to_gint_guint_sub _ _ (by omega) (by omega), show (page : Int) - s.current_page = -2 by omega]
      exact hsw)
    rfl).trans ?_
  rw [drawn_new]

/-- Two pages backward. -/
theorem update_minus_two (doc : EvDocument) (hdoc : doc.valid) (s : EvViewPresentation)
    (inv : WindowInv doc s) (page : Nat) (h : page + 2 = s.current_page) :
    ∃ jp a, s.prev_job = some jp ∧
      ev_view_presentation_update_current_page doc s page =
        some
          { s with
            current_page := page
            animation := a
            next_job := some jp
            curr_job := some { id := s.next_job_id, page := page, surface := none }
            prev_job := new_job doc (s.next_job_id + 1) ((page : Int) - 1)
            sched := SchedOp.update jp.id EvJobPriority.EV_JOB_PRIORITY_LOW ::
              (push_ops (new_job doc (s.next_job_id + 1) ((page : Int) - 1))
                  EvJobPriority.EV_JOB_PRIORITY_HIGH ++
                SchedOp.push s.next_job_id page EvJobPriority.EV_JOB_PRIORITY_URGENT ::
                  (cancel_ops s.curr_job ++ (cancel_ops s.next_job ++ s.sched)))
            next_job_id :=
              bump (s.next_job_id + 1) (new_job doc (s.next_job_id + 1) ((page : Int) - 1)) } := by
  obtain ⟨jp, a, -, hjp, heq⟩ := update_minus_two_anim doc hdoc s inv page h
  exact ⟨jp, a, hjp, heq⟩

/-- A jump of three pages or more forward.  With the animation that
`ev_view_presentation_animation_start` leaves. -/
theorem update_forward_anim (doc : EvDocument) (hdoc : doc.valid) (s : EvViewPresentation)
    (inv : WindowInv doc s) (page : Nat) (h : s.current_page + 3 ≤ page)
    (hpage : (page : Int) < doc.n_pages) :
    ∃ a,
      ev_view_presentation_animation_start doc (ev_view_presentation_animation_cancel s)
        (to_gint page) = some { s with animation := a } ∧
      ev_view_presentation_update_current_page doc s page =
        some
          { s with
            current_page := page
            animation := a
            curr_job := some { id := s.next_job_id, page := page, surface := none }
            next_job := new_job doc (s.next_job_id + 1) ((page : Int) + 1)
            prev_job := some
              { id := bump (s.next_job_id + 1) (new_job doc (s.next_job_id + 1) ((page : Int) + 1)),
                page := (page : Int) - 1, surface := none }
            sched :=
              SchedOp.push (bump (s.next_job_id + 1) (new_job doc (s.next_job_id + 1) ((page : Int) + 1)))
                  ((page : Int) - 1) EvJobPriority.EV_JOB_PRIORITY_LOW ::
                (push_ops (new_job doc (s.next_job_id + 1) ((page : Int) + 1))
                    EvJobPriority.EV_JOB_PRIORITY_HIGH ++
                  SchedOp.push s.next_job_id page EvJobPriority.EV_JOB_PRIORITY_URGENT ::
                    (cancel_ops s.next_job ++ (cancel_ops s.curr_job ++
                      (cancel_ops s.prev_job ++ s.sched))))
            next_job_id :=
              bump (s.next_job_id + 1) (new_job doc (s.next_job_id + 1) ((page : Int) + 1)) + 1 } := by
  have hc := inv.page_lt
  have hn := hdoc.2
  obtain ⟨a, ha⟩ := animation_start_inv doc hdoc s inv page hpage
  have hsw := switch_forward doc { s with animation := a } page
    ((page : Int) - (s.current_page : Int)) (by omega)
  rw [to_gint_guint_add_one _ (by omega), to_gint_guint_sub_one _ (by omega),
    to_gint_small page (by omega)] at hsw
  simp only [new_job_inside doc s.next_job_id page (by omega) hpage, bump_some, push_ops_some,
    List.singleton_append] at hsw
  rw [new_job_inside doc _ ((page : Int) - 1) (by omega) (by omega)] at hsw
  simp only [bump_some, push_ops_some, List.singleton_append] at hsw
  refine ⟨a, ha, ?_⟩
  refine (update_current_page_eq doc s { s with animation := a } _ page
    { id := s.next_job_id, page := page, surface := none }
    (page_lt_guint doc hdoc _ hpage) ha
    (by
      simp only
      rw [to_gint_guint_sub _ _ (by omega) (by omega)]
      exact hsw)
    rfl).trans ?_
  rw [drawn_new]

/-- A jump of three pages or more forward. -/
theorem update_forward (doc : EvDocument) (hdoc : doc.valid) (s : EvViewPresentation)
    (inv : WindowInv doc s) (page : Nat) (h : s.current_page + 3 ≤ page)
    (hpage : (page : Int) < doc.n_pages) :
    ∃ a,
      ev_view_presentation_update_current_page doc s page =
        some
          { s with
            current_page := page
            animation := a
            curr_job := some { id := s.next_job_id, page := page, surface := none }
            next_job := new_job doc (s.next_job_id + 1) ((page : Int) + 1)
            prev_job := some
              { id := bump (s.next_job_id + 1) (new_job doc (s.next_job_id + 1) ((page : Int) + 1)),
                page := (page : Int) - 1, surface := none }
            sched :=
              SchedOp.push (bump (s.next_job_id + 1) (new_job doc (s.next_job_id + 1) ((page : Int) + 1)))
                  ((page : Int) - 1) EvJobPriority.EV_JOB_PRIORITY_LOW ::
                (push_ops (new_job doc (s.next_job_id + 1) ((page : Int) + 1))
                    EvJobPriority.EV_JOB_PRIORITY_HIGH ++
                  SchedOp.push s.next_job_id page EvJobPriority.EV_JOB_PRIORITY_URGENT ::
                    (cancel_ops s.next_job ++ (cancel_ops s.curr_job ++
                      (cancel_ops s.prev_job ++ s.sched))))
            next_job_id :=
              bump (s.next_job_id + 1) (new_job doc (s.next_job_id + 1) ((page : Int) + 1)) + 1 } := by
  obtain ⟨a, -, heq⟩ := update_forward_anim doc hdoc s inv page h hpage
  exact ⟨a, heq⟩

/-- A jump of three pages or more backward.  With the animation that
`ev_view_presentation_animation_start` leaves. -/
theorem update_backward_anim (doc : EvDocument) (hdoc : doc.valid) (s : EvViewPresentation)
    (inv : WindowInv doc s) (page : Nat) (h : page + 3 ≤ s.current_page) :
    ∃ a,
      ev_view_presentation_animation_start doc (ev_view_presentation_animation_cancel s)
        (to_gint page) = some { s with animation := a } ∧
      ev_view_presentation_update_current_page doc s page =
        some
          { s with
            current_page := page
            animation := a
            curr_job := some { id := s.next_job_id, page := page, surface := none }
            prev_job := new_job doc (s.next_job_id + 1) ((page : Int) - 1)
            next_job := some
              { id := bump (s.next_job_id + 1) (new_job doc (s.next_job_id + 1) ((page : Int) - 1)),
                page := (page : Int) + 1, surface := none }
            sched :=
              SchedOp.push (bump (s.next_job_id + 1) (new_job doc (s.next_job_id + 1) ((page : Int) - 1)))
                  ((page : Int) + 1) EvJobPriority.EV_JOB_PRIORITY_LOW ::
                (push_ops (new_job doc (s.next_job_id + 1) ((page : Int) - 1))
                    EvJobPriority.EV_JOB_PRIORITY_HIGH ++
                  SchedOp.push s.next_job_id page EvJobPriority.EV_JOB_PRIORITY_URGENT ::
                    (cancel_ops s.next_job ++ (cancel_ops s.curr_job ++
                      (cancel_ops s.prev_job ++ s.sched))))
            next_job_id :=
              bump (s.next_job_id + 1) (new_job doc (s.next_job_id + 1) ((page : Int) - 1)) + 1 } := by
  have hc := inv.page_lt
  have hn := hdoc.2
  have hpage : (page : Int) < doc.n_pages := by omega
  obtain ⟨a, ha⟩ := animation_start_inv doc hdoc s inv page hpage
  have hsw := switch_backward doc { s with animation := a } page
    ((page : Int) - (s.current_page : Int)) (by omega)
  rw [to_gint_guint_add_one _ (by omega), to_gint_guint_sub_one _ (by omega),
    to_gint_small page (by omega)] at hsw
  simp only [new_job_inside doc s.next_job_id page (by omega) hpage, bump_some, push_ops_some,
    List.singleton_append] at hsw
  rw [new_job_inside doc _ ((page : Int) + 1) (by omega) (by omega)] at hsw
  simp only [bump_some, push_ops_some, List.singleton_append] at hsw
  refine ⟨a, ha, ?_⟩
  refine (update_current_page_eq doc s { s with animation := a } _ page
    { id := s.next_job_id, page := page, surface := none }
    (page_lt_guint doc hdoc _ hpage) ha
    (by
      simp only
      rw [to_gint_guint_sub _ _ (by omega) (by omega)]
      exact hsw)
    rfl).trans ?_
  rw [drawn_new]

/-- A jump of three pages or more backward. -/
theorem update_backward (doc : EvDocument) (hdoc : doc.valid) (s : EvViewPresentation)
    (inv : WindowInv doc s) (page : Nat) (h : page + 3 ≤ s.current_page) :
    ∃ a,
      ev_view_presentation_update_current_page doc s page =
        some
          { s with
            current_page := page
            animation := a
            curr_job := some { id := s.next_job_id, page := page, surface := none }
            prev_job := new_job doc (s.next_job_id + 1) ((page : Int) - 1)
            next_job := some
              { id := bump (s.next_job_id + 1) (new_job doc (s.next_job_id + 1) ((page : Int) - 1)),
                page := (page : Int) + 1, surface := none }
            sched :=
              SchedOp.push (bump (s.next_job_id + 1) (new_job doc (s.next_job_id + 1) ((page : Int) - 1)))
                  ((page : Int) + 1) EvJobPriority.EV_JOB_PRIORITY_LOW ::
                (push_ops (new_job doc (s.next_job_id + 1) ((page : Int) - 1))
                    EvJobPriority.EV_JOB_PRIORITY_HIGH ++
                  SchedOp.push s.next_job_id page EvJobPriority.EV_JOB_PRIORITY_URGENT ::
                    (cancel_ops s.next_job ++ (cancel_ops s.curr_job ++
                      (cancel_ops s.prev_job ++ s.sched))))
            next_job_id :=
              bump (s.next_job_id + 1) (new_job doc (s.next_job_id + 1) ((page : Int) - 1)) + 1 } := by
  obtain ⟨a, -, heq⟩ := update_backward_anim doc hdoc s inv page h
  exact ⟨a, heq⟩

/-! ## The invariant is kept -/

theorem new_job_cases (doc : EvDocument) (id : Nat) (page : Int) :
    (new_job doc id page = none ∧ (page < 0 ∨ page ≥ doc.n_pages)) ∨
    (new_job doc id page = some { id := id, page := page, surface := none } ∧
      0 ≤ page ∧ page < doc.n_pages) := by
  unfold new_job
  split_ifs with h
  · exact Or.inl ⟨rfl, h⟩
  · exact Or.inr ⟨rfl, by omega, by omega⟩

theorem windowInv_drawn (doc : EvDocument) (s : EvViewPresentation) (j : EvJob)
    (inv : WindowInv doc s) : WindowInv doc (drawn j s) := by
  unfold drawn
  split_ifs
  · exact ⟨inv.1, inv.2, inv.3, inv.4, inv.5, inv.6, inv.7, inv.8, inv.9, inv.10, inv.11⟩
  · exact inv

theorem update_same_inv (doc : EvDocument) (hdoc : doc.valid) (s : EvViewPresentation)
    (inv : WindowInv doc s) :
    ∃ s', ev_view_presentation_update_current_page doc s s.current_page = some s' ∧
      WindowInv doc s' ∧ s'.current_page = s.current_page ∧ s'.state = s.state := by
  obtain ⟨jc, hjc, heq⟩ := update_same doc hdoc s inv
  refine ⟨_, heq, ?_, by unfold drawn; split_ifs <;> rfl, by unfold drawn; split_ifs <;> rfl⟩
  apply windowInv_drawn
  exact ⟨inv.1, inv.2, inv.3, inv.4, inv.5, inv.6, inv.7, inv.8, inv.9, inv.10, inv.11⟩

theorem update_plus_one_inv (doc : EvDocument) (hdoc : doc.valid) (s : EvViewPresentation)
    (inv : WindowInv doc s) (page : Nat) (h : page = s.current_page + 1)
    (hpage : (page : Int) < doc.n_pages) :
    ∃ s', ev_view_presentation_update_current_page doc s page = some s' ∧ WindowInv doc s' ∧
      s'.current_page = page ∧ s'.state = s.state := by
  have hc := inv.page_lt
  obtain ⟨jc, jn, a, hjc, hjn, heq⟩ := update_plus_one doc hdoc s inv page h hpage
  refine ⟨_, heq, ?_, by unfold drawn; split_ifs <;> rfl, by unfold drawn; split_ifs <;> rfl⟩
  apply windowInv_drawn
  clear heq
  obtain ⟨jc', hjc', hpc⟩ := inv.curr_some
  obtain ⟨jn', hjn', hpn⟩ := inv.next_some (by omega)
  rw [hjc] at hjc'; rw [hjn] at hjn'
  cases hjc'; cases hjn'
  obtain ⟨h1, h2, h3, h4, h5, h6, h7, h8, h9, h10, h11⟩ := inv
  obtain ⟨cp, csurf, rot, st, tid, ea, anim, pj, cj, nj, sched, nid, srcs, nsid, rd⟩ := s
  simp only at *
  subst hjc hjn
  rcases new_job_cases doc nid ((page : Int) + 1) with ⟨hnew, hr⟩ | ⟨hnew, hr⟩ <;>
  rcases pj with _ | jp <;>
  · rw [hnew]
    simp only [held, Option.toList, List.map, List.append, List.nil_append, List.cons_append,
      List.mem_cons, List.mem_singleton, forall_eq_or_imp, forall_eq, List.nodup_cons,
      List.not_mem_nil, or_false, not_false_eq_true, List.nodup_nil, and_true, List.mem_nil_iff,
      not_or, false_or, Option.map_some', Option.map_none'] at h5 h6 h7
    refine ⟨?_, ?_, ?_, ?_, ?_, ?_, ?_, ?_, ?_, ?_, ?_⟩
    all_goals try simp only [held, outstanding, last_priority, Option.toList, cancel_ops, push_ops, bump,
      List.nil_append, List.cons_append, List.mem_cons, List.mem_filter, List.map, List.append,
      Option.map_some', Option.map_none', List.not_mem_nil, or_false, forall_eq_or_imp, forall_eq,
      List.nodup_cons, List.nodup_nil, List.mem_singleton, not_or, and_true, not_false_eq_true,
      Option.some.injEq, forall_eq', decide_eq_true_eq, ne_eq, h7, imp_false, IsEmpty.forall_iff]
    all_goals first
      | omega
      | (intro i; omega)
      | (intro j hj; cases hj)
      | trivial
      | (intro _; trivial)
      | (split_ifs <;> first
          | rfl | assumption | exact Or.inl rfl | exact Or.inr rfl | (exfalso; omega)
          | (simp only [Option.some.injEq]; omega))
      | (repeat' first
          | exact h8 | exact h8.filter _ | exact (h8.filter _).filter _
          | exact ((h8.filter _).filter _).filter _ | constructor | omega)

theorem update_minus_one_inv (doc : EvDocument) (hdoc : doc.valid) (s : EvViewPresentation)
    (inv : WindowInv doc s) (page : Nat) (h : page + 1 = s.current_page) :
    ∃ s', ev_view_presentation_update_current_page doc s page = some s' ∧ WindowInv doc s' ∧
      s'.current_page = page ∧ s'.state = s.state := by
  have hc := inv.page_lt
  obtain ⟨jp, jc, a, hjp, hjc, heq⟩ := update_minus_one doc hdoc s inv page h
  refine ⟨_, heq, ?_, by unfold drawn; split_ifs <;> rfl, by unfold drawn; split_ifs <;> rfl⟩
  apply windowInv_drawn
  clear heq
  obtain ⟨jc', hjc', hpc⟩ := inv.curr_some
  obtain ⟨jp', hjp', hpp⟩ := inv.prev_some (by omega)
  rw [hjc] at hjc'; rw [hjp] at hjp'
  cases hjc'; cases hjp'
  obtain ⟨h1, h2, h3, h4, h5, h6, h7, h8, h9, h10, h11⟩ := inv
  obtain ⟨cp, csurf, rot, st, tid, ea, anim, pj, cj, nj, sched, nid, srcs, nsid, rd⟩ := s
  simp only at *
  subst hjc hjp
  rcases new_job_cases doc nid ((page : Int) - 1) with ⟨hnew, hr⟩ | ⟨hnew, hr⟩ <;>
  rcases nj with _ | jn <;>
  · rw [hnew]
    simp only [held, Option.toList, List.map, List.append, List.nil_append, List.cons_append,
      List.mem_cons, List.mem_singleton, forall_eq_or_imp, forall_eq, List.nodup_cons,
      List.not_mem_nil, or_false, not_false_eq_true, List.nodup_nil, and_true, List.mem_nil_iff,
      not_or, false_or, Option.map_some', Option.map_none'] at h5 h6 h7
    refine ⟨?_, ?_, ?_, ?_, ?_, ?_, ?_, ?_, ?_, ?_, ?_⟩
    all_goals try simp only [held, outstanding, last_priority, Option.toList, cancel_ops, push_ops, bump,
      List.nil_append, List.cons_append, List.mem_cons, List.mem_filter, List.map, List.append,
      Option.map_some', Option.map_none', List.not_mem_nil, or_false, forall_eq_or_imp, forall_eq,
      List.nodup_cons, List.nodup_nil, List.mem_singleton, not_or, and_true, not_false_eq_true,
      Option.some.injEq, forall_eq', decide_eq_true_eq, ne_eq, h7, imp_false, IsEmpty.forall_iff]
    all_goals first
      | omega
      | (intro i; omega)
      | (intro j hj; cases hj)
      | trivial
      | (intro _; trivial)
      | (split_ifs <;> first
          | rfl | assumption | exact Or.inl rfl | exact Or.inr rfl | (exfalso; omega)
          | (simp only [Option.some.injEq]; omega))
      | (repeat' first
          | exact h8 | exact h8.filter _ | exact (h8.filter _).filter _
          | exact ((h8.filter _).filter _).filter _ | constructor | omega)

theorem update_plus_two_inv (doc : EvDocument) (hdoc : doc.valid) (s : EvViewPresentation)
    (inv : WindowInv doc s) (page : Nat) (h : page = s.current_page + 2)
    (hpage : (page : Int) < doc.n_pages) :
    ∃ s', ev_view_presentation_update_current_page doc s page = some s' ∧ WindowInv doc s' ∧
      s'.current_page = page ∧ s'.state = s.state := by
  have hc := inv.page_lt
  obtain ⟨jn, a, hjn, heq⟩ := update_plus_two doc hdoc s inv page h hpage
  refine ⟨_, heq, ?_, rfl, rfl⟩
  clear heq
  obtain ⟨jc', hjc', hpc⟩ := inv.curr_some
  obtain ⟨jn', hjn', hpn⟩ := inv.next_some (by omega)
  rw [hjn] at hjn'
  cases hjn'
  obtain ⟨h1, h2, h3, h4, h5, h6, h7, h8, h9, h10, h11⟩ := inv
  obtain ⟨cp, csurf, rot, st, tid, ea, anim, pj, cj, nj, sched, nid, srcs, nsid, rd⟩ := s
  simp only at *
  subst hjc' hjn
  rcases new_job_cases doc (nid + 1) ((page : Int) + 1) with ⟨hnew, hr⟩ | ⟨hnew, hr⟩ <;>
  rcases pj with _ | jp <;>
  · rw [hnew]
    simp only [held, Option.toList, List.map, List.append, List.nil_append, List.cons_append,
      List.mem_cons, List.mem_singleton, forall_eq_or_imp, forall_eq, List.nodup_cons,
      List.not_mem_nil, or_false, not_false_eq_true, List.nodup_nil, and_true, List.mem_nil_iff,
      not_or, false_or, Option.map_some', Option.map_none'] at h5 h6 h7
    refine ⟨?_, ?_, ?_, ?_, ?_, ?_, ?_, ?_, ?_, ?_, ?_⟩
    all_goals try simp only [held, outstanding, last_priority, Option.toList, cancel_ops, push_ops, bump,
      List.nil_append, List.cons_append, List.mem_cons, List.mem_filter, List.map, List.append,
      Option.map_some', Option.map_none', List.not_mem_nil, or_false, forall_eq_or_imp, forall_eq,
      List.nodup_cons, List.nodup_nil, List.mem_singleton, not_or, and_true, not_false_eq_true,
      Option.some.injEq, forall_eq', decide_eq_true_eq, ne_eq, h7, imp_false, IsEmpty.forall_iff]
    all_goals first
      | omega
      | (intro i; omega)
      | (intro j hj; cases hj)
      | trivial
      | (intro _; trivial)
      | (split_ifs <;> first
          | rfl | assumption | exact Or.inl rfl | exact Or.inr rfl | (exfalso; omega)
          | (simp only [Option.some.injEq]; omega))
      | (repeat' first
          | exact h8 | exact h8.filter _ | exact (h8.filter _).filter _
          | exact ((h8.filter _).filter _).filter _ | constructor | omega)

theorem update_minus_two_inv (doc : EvDocument) (hdoc : doc.valid) (s : EvViewPresentation)
    (inv : WindowInv doc s) (page : Nat) (h : page + 2 = s.current_page) :
    ∃ s', ev_view_presentation_update_current_page doc s page = some s' ∧ WindowInv doc s' ∧
      s'.current_page = page ∧ s'.state = s.state := by
  have hc := inv.page_lt
  obtain ⟨jp, a, hjp, heq⟩ := update_minus_two doc hdoc s inv page h
  refine ⟨_, heq, ?_, rfl, rfl⟩
  clear heq
  obtain ⟨jc', hjc', hpc⟩ := inv.curr_some
  obtain ⟨jp', hjp', hpp⟩ := inv.prev_some (by omega)
  rw [hjp] at hjp'
  cases hjp'
  obtain ⟨h1, h2, h3, h4, h5, h6, h7, h8, h9, h10, h11⟩ := inv
  obtain ⟨cp, csurf, rot, st, tid, ea, anim, pj, cj, nj, sched, nid, srcs, nsid, rd⟩ := s
  simp only at *
  subst hjc' hjp
  rcases new_job_cases doc (nid + 1) ((page : Int) - 1) with ⟨hnew, hr⟩ | ⟨hnew, hr⟩ <;>
  rcases nj with _ | jn <;>
  · rw [hnew]
    simp only [held, Option.toList, List.map, List.append, List.nil_append, List.cons_append,
      List.mem_cons, List.mem_singleton, forall_eq_or_imp, forall_eq, List.nodup_cons,
      List.not_mem_nil, or_false, not_false_eq_true, List.nodup_nil, and_true, List.mem_nil_iff,
      not_or, false_or, Option.map_some', Option.map_none'] at h5 h6 h7
    refine ⟨?_, ?_, ?_, ?_, ?_, ?_, ?_, ?_, ?_, ?_, ?_⟩
    all_goals try simp only [held, outstanding, last_priority, Option.toList, cancel_ops, push_ops, bump,
      List.nil_append, List.cons_append, List.mem_cons, List.mem_filter, List.map, List.append,
      Option.map_some', Option.map_none', List.not_mem_nil, or_false, forall_eq_or_imp, forall_eq,
      List.nodup_cons, List.nodup_nil, List.mem_singleton, not_or, and_true, not_false_eq_true,
      Option.some.injEq, forall_eq', decide_eq_true_eq, ne_eq, h7, imp_false, IsEmpty.forall_iff]
    all_goals first
      | omega
      | (intro i; omega)
      | (intro j hj; cases hj)
      | trivial
      | (intro _; trivial)
      | (split_ifs <;> first
          | rfl | assumption | exact Or.inl rfl | exact Or.inr rfl | (exfalso; omega)
          | (simp only [Option.some.injEq]; omega))
      | (repeat' first
          | exact h8 | exact h8.filter _ | exact (h8.filter _).filter _
          | exact ((h8.filter _).filter _).filter _ | constructor | omega)

theorem update_forward_inv (doc : EvDocument) (hdoc : doc.valid) (s : EvViewPresentation)
    (inv : WindowInv doc s) (page : Nat) (h : s.current_page + 3 ≤ page)
    (hpage : (page : Int) < doc.n_pages) :
    ∃ s', ev_view_presentation_update_current_page doc s page = some s' ∧ WindowInv doc s' ∧
      s'.current_page = page ∧ s'.state = s.state := by
  have hc := inv.page_lt
  obtain ⟨a, heq⟩ := update_forward doc hdoc s inv page h hpage
  refine ⟨_, heq, ?_, rfl, rfl⟩
  clear heq
  obtain ⟨jc', hjc', hpc⟩ := inv.curr_some
  obtain ⟨h1, h2, h3, h4, h5, h6, h7, h8, h9, h10, h11⟩ := inv
  obtain ⟨cp, csurf, rot, st, tid, ea, anim, pj, cj, nj, sched, nid, srcs, nsid, rd⟩ := s
  simp only at *
  subst hjc'
  rcases new_job_cases doc (nid + 1) ((page : Int) + 1) with ⟨hnew, hr⟩ | ⟨hnew, hr⟩ <;>
  rcases pj with _ | jp <;>
  rcases nj with _ | jn <;>
  · rw [hnew]
    simp only [held, Option.toList, List.map, List.append, List.nil_append, List.cons_append,
      List.mem_cons, List.mem_singleton, forall_eq_or_imp, forall_eq, List.nodup_cons,
      List.not_mem_nil, or_false, not_false_eq_true, List.nodup_nil, and_true, List.mem_nil_iff,
      not_or, false_or, Option.map_some', Option.map_none'] at h5 h6 h7
    refine ⟨?_, ?_, ?_, ?_, ?_, ?_, ?_, ?_, ?_, ?_, ?_⟩
    all_goals try simp only [held, outstanding, last_priority, Option.toList, cancel_ops, push_ops, bump,
      List.nil_append, List.cons_append, List.mem_cons, List.mem_filter, List.map, List.append,
      Option.map_some', Option.map_none', List.not_mem_nil, or_false, forall_eq_or_imp, forall_eq,
      List.nodup_cons, List.nodup_nil, List.mem_singleton, not_or, and_true, not_false_eq_true,
      Option.some.injEq, forall_eq', decide_eq_true_eq, ne_eq, h7, imp_false, IsEmpty.forall_iff]
    all_goals first
      | omega
      | (intro i; omega)
      | (intro j hj; cases hj)
      | trivial
      | (intro _; trivial)
      | (split_ifs <;> first
          | rfl | assumption | exact Or.inl rfl | exact Or.inr rfl | (exfalso; omega)
          | (simp only [Option.some.injEq]; omega))
      | (repeat' first
          | exact h8 | exact h8.filter _ | exact (h8.filter _).filter _
          | exact ((h8.filter _).filter _).filter _ | constructor | omega)

theorem update_backward_inv (doc : EvDocument) (hdoc : doc.valid) (s : EvViewPresentation)
    (inv : WindowInv doc s) (page : Nat) (h : page + 3 ≤ s.current_page) :
    ∃ s', ev_view_presentation_update_current_page doc s page = some s' ∧ WindowInv doc s' ∧
      s'.current_page = page ∧ s'.state = s.state := by
  have hc := inv.page_lt
  obtain ⟨a, heq⟩ := update_backward doc hdoc s inv page h
  refine ⟨_, heq, ?_, rfl, rfl⟩
  clear heq
  obtain ⟨jc', hjc', hpc⟩ := inv.curr_some
  obtain ⟨h1, h2, h3, h4, h5, h6, h7, h8, h9, h10, h11⟩ := inv
  obtain ⟨cp, csurf, rot, st, tid, ea, anim, pj, cj, nj, sched, nid, srcs, nsid, rd⟩ := s
  simp only at *
  subst hjc'
  rcases new_job_cases doc (nid + 1) ((page : Int) - 1) with ⟨hnew, hr⟩ | ⟨hnew, hr⟩ <;>
  rcases pj with _ | jp <;>
  rcases nj with _ | jn <;>
  · rw [hnew]
    simp only [held, Option.toList, List.map, List.append, List.nil_append, List.cons_append,
      List.mem_cons, List.mem_singleton, forall_eq_or_imp, forall_eq, List.nodup_cons,
      List.not_mem_nil, or_false, not_false_eq_true, List.nodup_nil, and_true, List.mem_nil_iff,
      not_or, false_or, Option.map_some', Option.map_none'] at h5 h6 h7
    refine ⟨?_, ?_, ?_, ?_, ?_, ?_, ?_, ?_, ?_, ?_, ?_⟩
    all_goals try simp only [held, outstanding, last_priority, Option.toList, cancel_ops, push_ops, bump,
      List.nil_append, List.cons_append, List.mem_cons, List.mem_filter, List.map, List.append,
      Option.map_some', Option.map_none', List.not_mem_nil, or_false, forall_eq_or_imp, forall_eq,
      List.nodup_cons, List.nodup_nil, List.mem_singleton, not_or, and_true, not_false_eq_true,
      Option.some.injEq, forall_eq', decide_eq_true_eq, ne_eq, h7, imp_false, IsEmpty.forall_iff]
    all_goals first
      | omega
      | (intro i; omega)
      | (intro j hj; cases hj)
      | trivial
      | (intro _; trivial)
      | (split_ifs <;> first
          | rfl | assumption | exact Or.inl rfl | exact Or.inr rfl | (exfalso; omega)
          | (simp only [Option.some.injEq]; omega))
      | (repeat' first
          | exact h8 | exact h8.filter _ | exact (h8.filter _).filter _
          | exact ((h8.filter _).filter _).filter _ | constructor | omega)

/-- A call for a page of the document returns, keeps the invariant and
makes the page the current one. -/
theorem update_inv (doc : EvDocument) (hdoc : doc.valid) (s : EvViewPresentation)
    (inv : WindowInv doc s) (page : Nat) (hpage : (page : Int) < doc.n_pages) :
    ∃ s', ev_view_presentation_update_current_page doc s page = some s' ∧ WindowInv doc s' ∧
      s'.current_page = page ∧ s'.state = s.state := by
  rcases (by omega : page = s.current_page ∨ page + 1 = s.current_page ∨
    page = s.current_page + 1 ∨ page + 2 = s.current_page ∨ page = s.current_page + 2 ∨
    page + 3 ≤ s.current_page ∨ s.current_page + 3 ≤ page) with h | h | h | h | h | h | h
  · rw [h]; exact update_same_inv doc hdoc s inv
  · exact update_minus_one_inv doc hdoc s inv page h
  · exact update_plus_one_inv doc hdoc s inv page h hpage
  · exact update_minus_two_inv doc hdoc s inv page h
  · exact update_plus_two_inv doc hdoc s inv page h hpage
  · exact update_backward_inv doc hdoc s inv page h
  · exact update_forward_inv doc hdoc s inv page h hpage

/-! ## What does not touch the window -/

theorem job_key_page (a b : Option EvJob) (h : job_key a = job_key b) :
    a.map EvJob.page = b.map EvJob.page := by
  cases a <;> cases b <;> simp_all [job_key]

theorem job_key_ids (a b : Option EvJob) (h : job_key a = job_key b) :
    a.toList.map EvJob.id = b.toList.map EvJob.id := by
  cases a <;> cases b <;> simp_all [job_key]

theorem job_key_some (a b : Option EvJob) (h : job_key a = job_key b) (j : EvJob)
    (ha : a = some j) : ∃ j0, b = some j0 ∧ j0.id = j.id := by
  subst ha
  cases b with
  | none => simp [job_key] at h
  | some j0 => exact ⟨j0, rfl, by simp [job_key] at h; exact h.1.symm⟩

theorem held_ids_of_key (s s' : EvViewPresentation) (hk : window_key s' = window_key s) :
    (held s').map EvJob.id = (held s).map EvJob.id := by
  simp only [window_key, Prod.mk.injEq] at hk
  obtain ⟨-, hp, hc, hn, -, -⟩ := hk
  simp only [held, List.map_append, job_key_ids _ _ hp, job_key_ids _ _ hc, job_key_ids _ _ hn]

theorem windowInv_of_key (doc : EvDocument) (s s' : EvViewPresentation)
    (hk : window_key s' = window_key s) (inv : WindowInv doc s) : WindowInv doc s' := by
  have hids := held_ids_of_key s s' hk
  simp only [window_key, Prod.mk.injEq] at hk
  obtain ⟨hcp, hp, hc, hn, hs, hnid⟩ := hk
  refine ⟨?_, ?_, ?_, ?_, ?_, ?_, ?_, ?_, ?_, ?_, ?_⟩
  · rw [hcp]; exact inv.page_lt
  · rw [hcp, job_key_page _ _ hc]; exact inv.curr
  · rw [hcp, job_key_page _ _ hp]; exact inv.prev
  · rw [hcp, job_key_page _ _ hn]; exact inv.next
  · intro j hj
    have h1 : j.id ∈ (held s').map EvJob.id := List.mem_map_of_mem _ hj
    rw [hids] at h1
    obtain ⟨j0, hj0, he⟩ := List.mem_map.mp h1
    rw [hnid, ← he]
    exact inv.ids_lt j0 hj0
  · rw [hids]; exact inv.ids_nodup
  · intro i; rw [hids, hs]; exact inv.outstanding_iff i
  · rw [hs]; exact inv.outstanding_nodup
  · intro j hj
    obtain ⟨j0, hj0, he⟩ := job_key_some _ _ hc j hj
    rw [hs, ← he]; exact inv.prio_curr j0 hj0
  · intro j hj
    obtain ⟨j0, hj0, he⟩ := job_key_some _ _ hp j hj
    rw [hs, ← he]; exact inv.prio_prev j0 hj0
  · intro j hj
    obtain ⟨j0, hj0, he⟩ := job_key_some _ _ hn j hj
    rw [hs, ← he]; exact inv.prio_next j0 hj0

theorem window_key_queue_draw (s : EvViewPresentation) : window_key (queue_draw s) = window_key s :=
  rfl

theorem window_key_set_normal (s : EvViewPresentation) :
    window_key (ev_view_presentation_set_normal s) = window_key s := by
  unfold ev_view_presentation_set_normal; split_ifs <;> rfl

theorem window_key_set_end (s : EvViewPresentation) :
    window_key (ev_view_presentation_set_end s) = window_key s := by
  unfold ev_view_presentation_set_end; split_ifs <;> rfl

theorem window_key_transition_stop (s : EvViewPresentation) :
    window_key (ev_view_presentation_transition_stop s) = window_key s := by
  unfold ev_view_presentation_transition_stop; simp only; split_ifs <;> rfl

theorem window_key_transition_start (doc : EvDocument) (s : EvViewPresentation) :
    window_key (ev_view_presentation_transition_start doc s) = window_key s := by
  unfold ev_view_presentation_transition_start
  split_ifs
  · rfl
  · simp only
    split_ifs
    · exact window_key_transition_stop s
    · exact window_key_transition_stop s

theorem window_key_animation_cancel (s : EvViewPresentation) :
    window_key (ev_view_presentation_animation_cancel s) = window_key s := by
  rw [animation_cancel_eq]; rfl

theorem window_key_animation_finished (doc : EvDocument) (s : EvViewPresentation) :
    window_key (animation_finished doc s) = window_key s := by
  unfold animation_finished
  cases s.animation with
  | none => rfl
  | some a =>
    simp only [ev_view_presentation_transition_animation_finish]
    rw [window_key_queue_draw, window_key_transition_start, window_key_animation_cancel]

theorem window_key_job_finished_cb (doc : EvDocument) (j : EvJob) (s : EvViewPresentation) :
    window_key (job_finished_cb doc j s) = window_key s := by
  unfold job_finished_cb
  split_ifs
  · rfl
  · cases s.animation with
    | none => simp only; rw [window_key_queue_draw, window_key_transition_start]
    | some a => rfl

theorem job_key_done (job surface : Nat) (slot : Option EvJob) :
    job_key (slot.map (fun j => if j.id = job then { j with surface := some surface } else j)) =
      job_key slot := by
  cases slot with
  | none => rfl
  | some j => simp only [job_key, Option.map_some']; split_ifs <;> rfl

theorem window_key_job_finished (doc : EvDocument) (s : EvViewPresentation) (job surface : Nat) :
    window_key (job_finished doc s job surface) = window_key s := by
  unfold job_finished
  simp only
  split
  · rw [window_key_job_finished_cb]
    simp only [window_key, job_key_done]
  · simp only [window_key, job_key_done]

/-! ## The initial population and the sessions that follow -/

theorem new_eq (doc : EvDocument) (hdoc : doc.valid) (p rotation : Nat)
    (hp : (p : Int) < doc.n_pages) :
    ev_view_presentation_new (some doc) p rotation = some (g_object_new doc p rotation) := by
  have := page_lt_guint doc hdoc p hp
  simp only [ev_view_presentation_new, this, not_true_eq_false, ↓reduceIte]

theorem new_some (doc : EvDocument) (p rotation : Nat) (s0 : EvViewPresentation)
    (h : ev_view_presentation_new (some doc) p rotation = some s0) :
    s0 = g_object_new doc p rotation ∧ p < to_guint doc.n_pages := by
  simp only [ev_view_presentation_new] at h
  split_ifs at h with hlt
  simp only [Option.some.injEq] at h
  exact ⟨h.symm, by omega⟩

/-- The initial population: the three jobs that are made. -/
theorem init_eq (doc : EvDocument) (hdoc : doc.valid) (p rotation : Nat)
    (hp : (p : Int) < doc.n_pages) :
    init_presentation doc (g_object_new doc p rotation) = some
      { g_object_new doc p rotation with
        curr_job := some { id := 0, page := p, surface := none }
        next_job := new_job doc 1 ((p : Int) + 1)
        prev_job := new_job doc (bump 1 (new_job doc 1 ((p : Int) + 1))) ((p : Int) - 1)
        sched :=
          push_ops (new_job doc (bump 1 (new_job doc 1 ((p : Int) + 1))) ((p : Int) - 1))
              EvJobPriority.EV_JOB_PRIORITY_LOW ++
            (push_ops (new_job doc 1 ((p : Int) + 1)) EvJobPriority.EV_JOB_PRIORITY_HIGH ++
              [SchedOp.push 0 p EvJobPriority.EV_JOB_PRIORITY_URGENT])
        next_job_id :=
          bump (bump 1 (new_job doc 1 ((p : Int) + 1)))
            (new_job doc (bump 1 (new_job doc 1 ((p : Int) + 1))) ((p : Int) - 1)) } := by
  have hn := hdoc.2
  have ha : ev_view_presentation_animation_start doc
      (ev_view_presentation_animation_cancel (g_object_new doc p rotation)) (to_gint p) =
      some (g_object_new doc p rotation) :=
    animation_start_same doc (g_object_new doc p rotation) (by simp only [g_object_new]; omega)
  have hsw := switch_zero_empty doc (g_object_new doc p rotation) p rfl rfl rfl
  rw [to_gint_guint_add_one _ (by omega), to_gint_guint_sub_one _ (by omega),
    to_gint_small p (by omega)] at hsw
  simp only [g_object_new, new_job_inside doc 0 p (by omega) hp, bump_some, push_ops_some,
    List.append_nil] at hsw
  unfold init_presentation
  refine (update_current_page_eq doc (g_object_new doc p rotation) (g_object_new doc p rotation) _ p
    { id := 0, page := p, surface := none } (page_lt_guint doc hdoc _ hp) ha
    (by
      simp only [g_object_new]
      rw [to_gint_guint_sub _ _ (by omega) (by omega), sub_self]
      exact hsw)
    rfl).trans ?_
  rw [drawn_new]
  rfl

theorem init_inv (doc : EvDocument) (hdoc : doc.valid) (p rotation : Nat)
    (hp : (p : Int) < doc.n_pages) :
    ∃ s1, init_presentation doc (g_object_new doc p rotation) = some s1 ∧ WindowInv doc s1 ∧
      s1.current_page = p ∧ s1.state = EvPresentationState.EV_PRESENTATION_NORMAL := by
  refine ⟨_, init_eq doc hdoc p rotation hp, ?_, rfl, rfl⟩
  have h8 : (outstanding []).Nodup := List.nodup_nil
  rcases new_job_cases doc 1 ((p : Int) + 1) with ⟨hnew, hr⟩ | ⟨hnew, hr⟩ <;>
  · rw [hnew]
    simp only [bump]
    rcases new_job_cases doc 1 ((p : Int) - 1) with ⟨hnew', hr'⟩ | ⟨hnew', hr'⟩ <;>
    rcases new_job_cases doc 2 ((p : Int) - 1) with ⟨hnew2, hr2⟩ | ⟨hnew2, hr2⟩ <;>
    · first | rw [hnew'] | rw [hnew2]
      simp only [g_object_new]
      refine ⟨?_, ?_, ?_, ?_, ?_, ?_, ?_, ?_, ?_, ?_, ?_⟩
      all_goals try simp only [held, outstanding, last_priority, Option.toList, cancel_ops, push_ops,
        bump, List.nil_append, List.cons_append, List.mem_cons, List.mem_filter, List.map,
        List.append, Option.map_some', Option.map_none', List.not_mem_nil, or_false,
        forall_eq_or_imp, forall_eq, List.nodup_cons, List.nodup_nil, List.mem_singleton, not_or,
        and_true, not_false_eq_true, Option.some.injEq, forall_eq', decide_eq_true_eq, ne_eq,
        imp_false, IsEmpty.forall_iff]
      all_goals first
        | omega
        | (intro i; omega)
        | (intro j hj; cases hj)
        | trivial
        | (intro _; trivial)
        | (split_ifs <;> first
            | rfl | assumption | exact Or.inl rfl | exact Or.inr rfl | (exfalso; omega)
            | (simp only [Option.some.injEq]; omega))

theorem next_page_inv (doc : EvDocument) (hdoc : doc.valid) (s : EvViewPresentation)
    (inv : WindowInv doc s) :
    ∃ s', ev_view_presentation_next_page doc s = some s' ∧ WindowInv doc s' := by
  have hc := inv.page_lt
  have h1 := hdoc.1
  have h2 := hdoc.2
  unfold ev_view_presentation_next_page
  cases hst : s.state with
  | EV_PRESENTATION_BLACK =>
    exact ⟨_, rfl, windowInv_of_key doc s _ (window_key_set_normal s) inv⟩
  | EV_PRESENTATION_WHITE =>
    exact ⟨_, rfl, windowInv_of_key doc s _ (window_key_set_normal s) inv⟩
  | EV_PRESENTATION_END => exact ⟨_, rfl, inv⟩
  | EV_PRESENTATION_NORMAL =>
    simp only
    rw [to_gint_guint_add_one _ (by omega)]
    have e1 : to_guint ((s.current_page : Int) + 1) = s.current_page + 1 := by
      unfold to_guint; omega
    have e2 : to_guint doc.n_pages = doc.n_pages.toNat := by unfold to_guint; omega
    rw [e1, e2]
    split_ifs with hlast
    · exact ⟨_, rfl, windowInv_of_key doc s _ (window_key_set_end s) inv⟩
    · obtain ⟨s', hs', hinv, -, -⟩ := update_inv doc hdoc s inv (s.current_page + 1) (by omega)
      exact ⟨s', hs', hinv⟩

theorem previous_page_inv (doc : EvDocument) (hdoc : doc.valid) (s : EvViewPresentation)
    (inv : WindowInv doc s) :
    ∃ s', ev_view_presentation_previous_page doc s = some s' ∧ WindowInv doc s' := by
  have hc := inv.page_lt
  have h1 := hdoc.1
  have h2 := hdoc.2
  unfold ev_view_presentation_previous_page
  cases hst : s.state with
  | EV_PRESENTATION_BLACK =>
    exact ⟨_, rfl, windowInv_of_key doc s _ (window_key_set_normal s) inv⟩
  | EV_PRESENTATION_WHITE =>
    exact ⟨_, rfl, windowInv_of_key doc s _ (window_key_set_normal s) inv⟩
  | EV_PRESENTATION_END =>
    simp only
    rw [to_guint_to_gint _ (by omega)]
    have inv' : WindowInv doc { s with state := EvPresentationState.EV_PRESENTATION_NORMAL } :=
      windowInv_of_key doc s _ rfl inv
    obtain ⟨s', hs', hinv, -, -⟩ := update_inv doc hdoc _ inv' s.current_page hc
    exact ⟨s', hs', hinv⟩
  | EV_PRESENTATION_NORMAL =>
    simp only
    by_cases h0 : s.current_page = 0
    · refine ⟨s, ?_, inv⟩
      rw [h0]
      have e : to_guint (to_gint (guint_sub 0 1)) = 4294967295 := by decide
      unfold ev_view_presentation_update_current_page
      rw [e, if_pos (by unfold to_guint; omega)]
    · have e : to_guint (to_gint (guint_sub s.current_page 1)) = s.current_page - 1 := by
        rw [to_gint_guint_sub_one _ (by omega)]; unfold to_guint; omega
      rw [e]
      obtain ⟨s', hs', hinv, -, -⟩ := update_inv doc hdoc s inv (s.current_page - 1) (by omega)
      exact ⟨s', hs', hinv⟩

theorem update_any_inv (doc : EvDocument) (hdoc : doc.valid) (s : EvViewPresentation)
    (inv : WindowInv doc s) (page : Nat) :
    ∃ s', ev_view_presentation_update_current_page doc s page = some s' ∧ WindowInv doc s' := by
  have h1 := hdoc.1
  have h2 := hdoc.2
  by_cases hp : (page : Int) < doc.n_pages
  · obtain ⟨s', hs', hinv, -, -⟩ := update_inv doc hdoc s inv page hp
    exact ⟨s', hs', hinv⟩
  · refine ⟨s, ?_, inv⟩
    unfold ev_view_presentation_update_current_page
    rw [if_pos (by unfold to_guint; omega)]

theorem change_page_inv (doc : EvDocument) (hdoc : doc.valid) (s : EvViewPresentation)
    (inv : WindowInv doc s) (scroll : GtkScrollType)
    (hs : scroll ≠ GtkScrollType.GTK_SCROLL_NONE) :
    ∃ s', ev_view_presentation_change_page doc s scroll = some s' ∧ WindowInv doc s' := by
  cases scroll with
  | GTK_SCROLL_PAGE_FORWARD => exact next_page_inv doc hdoc s inv
  | GTK_SCROLL_PAGE_BACKWARD => exact previous_page_inv doc hdoc s inv
  | GTK_SCROLL_NONE => exact absurd rfl hs

theorem bindings_inv (doc : EvDocument) (hdoc : doc.valid) (s : EvViewPresentation)
    (inv : WindowInv doc s) (key : GdkKey) :
    ∃ s', gtk_bindings_activate_event doc s key = some s' ∧ WindowInv doc s' := by
  cases key <;>
    first
    | exact ⟨s, rfl, inv⟩
    | exact next_page_inv doc hdoc s inv
    | exact previous_page_inv doc hdoc s inv

theorem window_key_set_black (s : EvViewPresentation) :
    window_key (ev_view_presentation_set_black s) = window_key s := by
  unfold ev_view_presentation_set_black
  split_ifs <;> rfl

theorem window_key_set_white (s : EvViewPresentation) :
    window_key (ev_view_presentation_set_white s) = window_key s := by
  unfold ev_view_presentation_set_white
  split_ifs <;> rfl

theorem window_key_key_press_black (s : EvViewPresentation) :
    window_key (key_press_black s) = window_key s := by
  unfold key_press_black
  split_ifs
  · exact window_key_set_normal s
  · exact window_key_set_black s

theorem window_key_key_press_white (s : EvViewPresentation) :
    window_key (key_press_white s) = window_key s := by
  unfold key_press_white
  split_ifs
  · exact window_key_set_normal s
  · exact window_key_set_white s

theorem key_press_default_inv (doc : EvDocument) (hdoc : doc.valid) (s : EvViewPresentation)
    (inv : WindowInv doc s) (key : GdkKey) :
    ∃ s', key_press_default doc s key = some s' ∧ WindowInv doc s' := by
  have inv' := windowInv_of_key doc s _ (window_key_set_normal s) inv
  unfold key_press_default
  simp only
  split_ifs
  · exact ⟨_, rfl, inv'⟩
  · exact bindings_inv doc hdoc _ inv' key

theorem key_press_inv (doc : EvDocument) (hdoc : doc.valid) (s : EvViewPresentation)
    (inv : WindowInv doc s) (key : GdkKey) :
    ∃ s', ev_view_presentation_key_press_event doc s key = some s' ∧ WindowInv doc s' := by
  unfold ev_view_presentation_key_press_event
  by_cases hend : s.state = EvPresentationState.EV_PRESENTATION_END
  · rw [if_pos hend]
    exact bindings_inv doc hdoc s inv key
  · rw [if_neg hend]
    cases key <;> simp only <;>
      first
      | exact ⟨_, rfl, windowInv_of_key doc s _ (window_key_key_press_black s) inv⟩
      | exact ⟨_, rfl, windowInv_of_key doc s _ (window_key_key_press_white s) inv⟩
      | exact key_press_default_inv doc hdoc s inv _
      | (split_ifs
         · exact update_any_inv doc hdoc s inv _
         · exact key_press_default_inv doc hdoc s inv _)

theorem scroll_inv (doc : EvDocument) (hdoc : doc.valid) (s : EvViewPresentation)
    (inv : WindowInv doc s) (direction : GdkScrollDirection) (state : Nat) :
    ∃ s', ev_view_presentation_scroll_event doc s direction state = some s' ∧
      WindowInv doc s' := by
  unfold ev_view_presentation_scroll_event
  split_ifs
  · exact ⟨s, rfl, inv⟩
  · cases direction <;>
      first
      | exact next_page_inv doc hdoc s inv
      | exact previous_page_inv doc hdoc s inv

theorem goto_link_dest_inv (doc : EvDocument) (hdoc : doc.valid) (s : EvViewPresentation)
    (inv : WindowInv doc s) (link : EvLink)
    (hl : ev_view_presentation_link_is_supported link = true) :
    ∃ s', ev_vew_presentation_goto_link_dest doc s link = some s' ∧ WindowInv doc s' := by
  obtain ⟨action⟩ := link
  unfold ev_view_presentation_link_is_supported at hl
  unfold ev_vew_presentation_goto_link_dest
  cases action with
  | none => simp at hl
  | some a =>
    cases a with
    | other => simp at hl
    | EV_LINK_ACTION_TYPE_GOTO_DEST dest =>
      cases dest with
      | none => simp at hl
      | some page => exact update_any_inv doc hdoc s inv _
    | EV_LINK_ACTION_TYPE_NAMED name =>
      cases name <;>
        first
        | exact ⟨s, rfl, inv⟩
        | exact update_any_inv doc hdoc s inv _

theorem get_link_at_location_some (link : Option EvLink) (l : EvLink)
    (h : ev_view_presentation_get_link_at_location link = some l) :
    link = some l ∧ ev_view_presentation_link_is_supported l = true := by
  unfold ev_view_presentation_get_link_at_location at h
  cases link with
  | none => cases h
  | some l0 =>
    simp only at h
    split_ifs at h with hs
    cases h
    exact ⟨rfl, hs⟩

theorem button_release_inv (doc : EvDocument) (hdoc : doc.valid) (s : EvViewPresentation)
    (inv : WindowInv doc s) (button : Nat) (link : Option EvLink) :
    ∃ s', ev_view_presentation_button_release_event doc s button link = some s' ∧
      WindowInv doc s' := by
  unfold ev_view_presentation_button_release_event
  split_ifs
  · exact ⟨s, rfl, inv⟩
  · cases h : ev_view_presentation_get_link_at_location link with
    | none => exact next_page_inv doc hdoc s inv
    | some l =>
      exact goto_link_dest_inv doc hdoc s inv l (get_link_at_location_some link l h).2
  · exact previous_page_inv doc hdoc s inv
  · exact ⟨s, rfl, inv⟩

/-- Every event returns, and keeps the invariant. -/
theorem apply_inv (doc : EvDocument) (hdoc : doc.valid) (s : EvViewPresentation)
    (inv : WindowInv doc s) (e : Event) :
    ∃ s', Event.apply doc s e = some s' ∧ WindowInv doc s' := by
  cases e with
  | update_current_page page => exact update_any_inv doc hdoc s inv page
  | next_page => exact next_page_inv doc hdoc s inv
  | previous_page => exact previous_page_inv doc hdoc s inv
  | transition_timeout id =>
    simp only [Event.apply, transition_next_page]
    split_ifs
    · obtain ⟨s', hs', hinv⟩ := next_page_inv doc hdoc s inv
      rw [hs']
      exact ⟨_, rfl, windowInv_of_key doc s' _ rfl hinv⟩
    · exact ⟨s, rfl, inv⟩
  | job_finished job surface =>
    exact ⟨_, rfl, windowInv_of_key doc s _ (window_key_job_finished doc s job surface) inv⟩
  | animation_finished =>
    exact ⟨_, rfl, windowInv_of_key doc s _ (window_key_animation_finished doc s) inv⟩
  | key_press key => exact key_press_inv doc hdoc s inv key
  | scroll direction state => exact scroll_inv doc hdoc s inv direction state
  | button_release button link => exact button_release_inv doc hdoc s inv button link

/-- The invariant of the window holds in every session. -/
theorem reachable_inv (doc : EvDocument) (hdoc : doc.valid) (p : Nat) (s : EvViewPresentation)
    (hr : Reachable doc p s) : WindowInv doc s := by
  induction hr with
  | init rotation s0 s1 hnew hinit =>
    obtain ⟨rfl, hp⟩ := new_some doc p rotation s0 hnew
    have h1 := hdoc.1
    have h2 := hdoc.2
    obtain ⟨s1', hs1, hinv, -⟩ := init_inv doc hdoc p rotation (by unfold to_guint at hp; omega)
    rw [hinit] at hs1
    cases hs1
    exact hinv
  | step s s' e _ happ ih =>
    obtain ⟨s'', hs'', hinv⟩ := apply_inv doc hdoc s ih e
    rw [happ] at hs''
    cases hs''
    exact hinv

/-- Every list of events runs to its end from a session, and ends in a session. -/
theorem run_reachable (doc : EvDocument) (hdoc : doc.valid) (p : Nat) (es : List Event) :
    ∀ s, Reachable doc p s → ∃ s', run doc s es = some s' ∧ Reachable doc p s' := by
  induction es with
  | nil => intro s hr; exact ⟨s, rfl, hr⟩
  | cons e es ih =>
    intro s hr
    obtain ⟨s1, hs1, -⟩ := apply_inv doc hdoc s (reachable_inv doc hdoc p s hr) e
    obtain ⟨s', hs', hr'⟩ := ih s1 (Reachable.step s s1 e hr hs1)
    exact ⟨s', by simp only [run, hs1, Option.some_bind, hs'], hr'⟩

/-! ## The claims on the invariants -/

theorem held_pages (doc : EvDocument) (s : EvViewPresentation) (inv : WindowInv doc s) :
    (held s).map EvJob.page =
      (if 1 ≤ s.current_page then [(s.current_page : Int) - 1] else []) ++
        [(s.current_page : Int)] ++
        (if (s.current_page : Int) + 1 < doc.n_pages then [(s.current_page : Int) + 1] else []) := by
  have e : ∀ o : Option EvJob, o.toList.map EvJob.page = (o.map EvJob.page).toList := by
    intro o; cases o <;> rfl
  simp only [held, List.map_append, e, inv.curr, inv.prev, inv.next]
  split_ifs <;> rfl

theorem held_pages_ok (doc : EvDocument) (s : EvViewPresentation) (inv : WindowInv doc s) :
    ((held s).map EvJob.page).Nodup ∧ ∀ j ∈ held s, 0 ≤ j.page ∧ j.page < doc.n_pages := by
  have hc := inv.page_lt
  have hall : ∀ x ∈ (held s).map EvJob.page, 0 ≤ x ∧ x < doc.n_pages := by
    rw [held_pages doc s inv]
    intro x hx
    split_ifs at hx <;> simp at hx <;> omega
  refine ⟨?_, fun j hj => hall _ (List.mem_map_of_mem _ hj)⟩
  rw [held_pages doc s inv]
  split_ifs <;> simp <;> omega

/-- C1: for a document of `n ≥ 1` pages, an initial page `p < n` and any list
of events after the initial population of the new session, whose three slots
are empty (calls of `ev_view_presentation_next_page`, of
`ev_view_presentation_previous_page`, of
`ev_view_presentation_update_current_page` with any argument, the key
presses, scrolls and button releases, and the callbacks of the main loop),
every call returns, no two of `prev_job`,
`curr_job`, `next_job` are bound to the same page, and every job held is bound
to a page in `[0, n)`. -/
theorem window_pages_distinct_and_in_range (doc : EvDocument) (hdoc : doc.valid)
    (p rotation : Nat) (hp : (p : Int) < doc.n_pages) (es : List Event) :
    ∃ s0 s1 s', ev_view_presentation_new (some doc) p rotation = some s0 ∧
      s0.prev_job = none ∧ s0.curr_job = none ∧ s0.next_job = none ∧
      init_presentation doc s0 = some s1 ∧ run doc s1 es = some s' ∧
      ((held s').map EvJob.page).Nodup ∧
      ∀ j ∈ held s', 0 ≤ j.page ∧ j.page < doc.n_pages := by
  obtain ⟨s1, hs1, -, -, -⟩ := init_inv doc hdoc p rotation hp
  have hnew := new_eq doc hdoc p rotation hp
  obtain ⟨s', hs', hr'⟩ := run_reachable doc hdoc p es s1 (Reachable.init rotation _ s1 hnew hs1)
  have inv := reachable_inv doc hdoc p s' hr'
  exact ⟨_, s1, s', hnew, rfl, rfl, rfl, hs1, hs', held_pages_ok doc s' inv⟩

/-- C2: in every session after the initial population, with `c` the current
page and `n` the page count, `curr_job` holds a job for page `c`, `prev_job`
holds a job for page `c - 1` when `c ≥ 1` and is empty when `c = 0`, and
`next_job` holds a job for page `c + 1` when `c + 1 < n` and is empty when
`c = n - 1`. -/
theorem slots_follow_current_page (doc : EvDocument) (hdoc : doc.valid) (p : Nat)
    (s : EvViewPresentation) (hr : Reachable doc p s) :
    (s.current_page : Int) < doc.n_pages ∧
    (∃ j, s.curr_job = some j ∧ j.page = (s.current_page : Int)) ∧
    (1 ≤ s.current_page → ∃ j, s.prev_job = some j ∧ j.page = (s.current_page : Int) - 1) ∧
    (s.current_page = 0 → s.prev_job = none) ∧
    ((s.current_page : Int) + 1 < doc.n_pages →
      ∃ j, s.next_job = some j ∧ j.page = (s.current_page : Int) + 1) ∧
    ((s.current_page : Int) = doc.n_pages - 1 → s.next_job = none) := by
  have inv := reachable_inv doc hdoc p s hr
  exact ⟨inv.page_lt, inv.curr_some, inv.prev_some, inv.prev_none, inv.next_some,
    fun h => inv.next_none (by omega)⟩

theorem held_length (s : EvViewPresentation) : (held s).length ≤ 3 := by
  unfold held
  cases s.prev_job <;> cases s.curr_job <;> cases s.next_job <;> simp

theorem transition_stop_eq (s : EvViewPresentation) :
    ev_view_presentation_transition_stop s =
      { s with
        trans_timeout_id := 0
        sources := if s.trans_timeout_id > 0 then
          s.sources.filter (fun i => i ≠ s.trans_timeout_id) else s.sources } := by
  unfold ev_view_presentation_transition_stop
  simp only
  split_ifs <;> rfl

theorem mem_outstanding_cancel_ops (o : Option EvJob) (l : List SchedOp) (i : Nat) :
    i ∈ outstanding (cancel_ops o ++ l) ↔ i ∈ outstanding l ∧ ∀ j, o = some j → i ≠ j.id := by
  cases o <;> simp [cancel_ops, outstanding]

theorem destroy_sched (s : EvViewPresentation) :
    (ev_view_presentation_destroy s).sched =
      cancel_ops s.next_job ++ (cancel_ops s.prev_job ++ (cancel_ops s.curr_job ++ s.sched)) ∧
    held (ev_view_presentation_destroy s) = [] := by
  obtain ⟨cp, csurf, rot, st, tid, ea, anim, pj, cj, nj, sched, nid, srcs, nsid, rd⟩ := s
  cases pj <;> cases cj <;> cases nj <;> cases csurf <;>
    simp only [ev_view_presentation_destroy, animation_cancel_eq, transition_stop_eq,
      ev_view_presentation_delete_job, cancel_ops, held, Option.toList, List.nil_append,
      List.cons_append, List.append_nil, and_self]

/-- C3: in every session after the initial population (so after every call of
`ev_view_presentation_next_page`, `ev_view_presentation_previous_page` and
`ev_view_presentation_update_current_page` with any argument), the jobs pushed
to the scheduler and not cancelled since are the jobs held in `prev_job`,
`curr_job` and `next_job`, each once; there are at most three of them; and
after `ev_view_presentation_destroy` the slots are empty and no job is
outstanding. -/
theorem outstanding_jobs_are_held (doc : EvDocument) (hdoc : doc.valid) (p : Nat)
    (s : EvViewPresentation) (hr : Reachable doc p s) :
    (∀ i, i ∈ outstanding s.sched ↔ i ∈ (held s).map EvJob.id) ∧
    (outstanding s.sched).Nodup ∧
    (outstanding s.sched).length ≤ 3 ∧
    held (ev_view_presentation_destroy s) = [] ∧
    outstanding (ev_view_presentation_destroy s).sched = [] := by
  have inv := reachable_inv doc hdoc p s hr
  refine ⟨inv.outstanding_iff, inv.outstanding_nodup, ?_, (destroy_sched s).2, ?_⟩
  · have hsub : outstanding s.sched ⊆ (held s).map EvJob.id :=
      fun i hi => (inv.outstanding_iff i).mp hi
    have := (List.subperm_of_subset inv.outstanding_nodup hsub).length_le
    rw [List.length_map] at this
    exact this.trans (held_length s)
  · rw [(destroy_sched s).1]
    apply List.eq_nil_iff_forall_not_mem.mpr
    intro i hi
    rw [mem_outstanding_cancel_ops, mem_outstanding_cancel_ops, mem_outstanding_cancel_ops] at hi
    obtain ⟨⟨⟨hi0, hcur⟩, hprev⟩, hnext⟩ := hi
    have hmem := (inv.outstanding_iff i).mp hi0
    simp only [held, List.map_append, List.mem_append, List.mem_map, Option.mem_toList,
      Option.mem_def] at hmem
    rcases hmem with (⟨j, hj, rfl⟩ | ⟨j, hj, rfl⟩) | ⟨j, hj, rfl⟩
    · exact hprev j hj rfl
    · exact hcur j hj rfl
    · exact hnext j hj rfl

/-- C4: in every session after the initial population the priority most
recently given to the job of `curr_job`, at its push or by
`ev_job_scheduler_update_job`, is `EV_JOB_PRIORITY_URGENT`, and the one most
recently given to the job of `prev_job` and to the job of `next_job`, when
there is one, is `EV_JOB_PRIORITY_HIGH` or `EV_JOB_PRIORITY_LOW`. -/
theorem current_job_is_urgent (doc : EvDocument) (hdoc : doc.valid) (p : Nat)
    (s : EvViewPresentation) (hr : Reachable doc p s) :
    (∃ j, s.curr_job = some j ∧
      last_priority j.id s.sched = some EvJobPriority.EV_JOB_PRIORITY_URGENT) ∧
    (∀ j, s.prev_job = some j →
      last_priority j.id s.sched = some EvJobPriority.EV_JOB_PRIORITY_HIGH ∨
      last_priority j.id s.sched = some EvJobPriority.EV_JOB_PRIORITY_LOW) ∧
    (∀ j, s.next_job = some j →
      last_priority j.id s.sched = some EvJobPriority.EV_JOB_PRIORITY_HIGH ∨
      last_priority j.id s.sched = some EvJobPriority.EV_JOB_PRIORITY_LOW) := by
  have inv := reachable_inv doc hdoc p s hr
  obtain ⟨j, hj, -⟩ := inv.curr_some
  exact ⟨⟨j, hj, inv.prio_curr j hj⟩, inv.prio_prev, inv.prio_next⟩

/-! ## The examples are sessions -/

theorem doc10_valid : doc10.valid := ⟨by decide, by decide⟩

theorem reachable_session10_0 : Reachable doc10 0 session10_0 :=
  Reachable.init 0 (g_object_new doc10 0 0) session10_0 (by decide) (by decide)

theorem reachable_session10_5 : Reachable doc10 5 session10_5 :=
  Reachable.init 0 (g_object_new doc10 5 0) session10_5 (by decide) (by decide)

theorem reachable_session10_9 : Reachable doc10 9 session10_9 :=
  Reachable.init 0 (g_object_new doc10 9 0) session10_9 (by decide) (by decide)

theorem reachable_session10_9_end : Reachable doc10 9 session10_9_end :=
  Reachable.step session10_9 session10_9_end Event.next_page reachable_session10_9 (by decide)

theorem reachable_session10_3_end : Reachable doc10 9 session10_3_end :=
  Reachable.step session10_9_end session10_3_end (Event.update_current_page 3)
    reachable_session10_9_end (by decide)

/-- C1, on ten pages from page 5, for an advance, a jump to page 9 and a
retreat. -/
theorem window_pages_distinct_and_in_range_witness :
    doc10.valid ∧ ((5 : Nat) : Int) < doc10.n_pages ∧
    ∃ s0 s1 s', ev_view_presentation_new (some doc10) 5 0 = some s0 ∧
      s0.prev_job = none ∧ s0.curr_job = none ∧ s0.next_job = none ∧
      init_presentation doc10 s0 = some s1 ∧
      run doc10 s1 [Event.next_page, Event.update_current_page 9, Event.previous_page] =
        some s' ∧
      ((held s').map EvJob.page).Nodup ∧
      ∀ j ∈ held s', 0 ≤ j.page ∧ j.page < doc10.n_pages :=
  ⟨doc10_valid, by decide,
    window_pages_distinct_and_in_range doc10 doc10_valid 5 0 (by decide)
      [Event.next_page, Event.update_current_page 9, Event.previous_page]⟩

/-- C2, on ten pages at page 5: the slots hold the pages 4, 5 and 6. -/
theorem slots_follow_current_page_witness :
    doc10.valid ∧ Reachable doc10 5 session10_5 ∧
    (session10_5.current_page : Int) < doc10.n_pages ∧
    (∃ j, session10_5.curr_job = some j ∧ j.page = (session10_5.current_page : Int)) ∧
    (1 ≤ session10_5.current_page →
      ∃ j, session10_5.prev_job = some j ∧ j.page = (session10_5.current_page : Int) - 1) ∧
    (session10_5.current_page = 0 → session10_5.prev_job = none) ∧
    ((session10_5.current_page : Int) + 1 < doc10.n_pages →
      ∃ j, session10_5.next_job = some j ∧ j.page = (session10_5.current_page : Int) + 1) ∧
    ((session10_5.current_page : Int) = doc10.n_pages - 1 → session10_5.next_job = none) :=
  ⟨doc10_valid, reachable_session10_5,
    slots_follow_current_page doc10 doc10_valid 5 session10_5 reachable_session10_5⟩

/-- C3, on ten pages at page 3 after a jump from page 9: the jobs 2, 3 and 4
are outstanding and held, and none is after
`ev_view_presentation_destroy`. -/
theorem outstanding_jobs_are_held_witness :
    doc10.valid ∧ Reachable doc10 9 session10_3_end ∧
    (∀ i, i ∈ outstanding session10_3_end.sched ↔ i ∈ (held session10_3_end).map EvJob.id) ∧
    (outstanding session10_3_end.sched).Nodup ∧
    (outstanding session10_3_end.sched).length ≤ 3 ∧
    held (ev_view_presentation_destroy session10_3_end) = [] ∧
    outstanding (ev_view_presentation_destroy session10_3_end).sched = [] :=
  ⟨doc10_valid, reachable_session10_3_end,
    outstanding_jobs_are_held doc10 doc10_valid 9 session10_3_end reachable_session10_3_end⟩

/-- C4, on ten pages at page 0: the job of page 0 is at `URGENT` and the job
of page 1 at `HIGH`. -/
theorem current_job_is_urgent_witness :
    doc10.valid ∧ Reachable doc10 0 session10_0 ∧
    (∃ j, session10_0.curr_job = some j ∧
      last_priority j.id session10_0.sched = some EvJobPriority.EV_JOB_PRIORITY_URGENT) ∧
    (∀ j, session10_0.prev_job = some j →
      last_priority j.id session10_0.sched = some EvJobPriority.EV_JOB_PRIORITY_HIGH ∨
      last_priority j.id session10_0.sched = some EvJobPriority.EV_JOB_PRIORITY_LOW) ∧
    (∀ j, session10_0.next_job = some j →
      last_priority j.id session10_0.sched = some EvJobPriority.EV_JOB_PRIORITY_HIGH ∨
      last_priority j.id session10_0.sched = some EvJobPriority.EV_JOB_PRIORITY_LOW) :=
  ⟨doc10_valid, reachable_session10_0,
    current_job_is_urgent doc10 doc10_valid 0 session10_0 reachable_session10_0⟩

/-- C5, on ten pages at page 0: the page argument `-1` changes nothing, and
neither does `ev_view_presentation_previous_page`. -/
theorem update_current_page_out_of_range_witness :
    ((-1 : Int) < 0 ∨ (-1 : Int) ≥ doc10.n_pages) ∧
    ev_view_presentation_update_current_page doc10 session10_0 (to_guint (-1)) =
      some session10_0 ∧
    ev_view_presentation_previous_page doc10 session10_0 = some session10_0 := by
  have h := update_current_page_out_of_range doc10 session10_0 (-1) (by decide) (by decide)
    (by decide) (by decide) (by decide)
  exact ⟨by decide, h.1, h.2 rfl rfl⟩

/-! ## The claims on the calls -/

/-- C6: for a document of `n ≥ 1` pages and an initial page `p < n`,
`ev_view_presentation_new` returns a session at page `p` with the three slots
empty, and the initial population (`init_presentation`, which calls
`ev_view_presentation_update_current_page` for `p`) returns and leaves in
`curr_job` a job for page `p` at `URGENT`, in `next_job` a job for page `p + 1`
at `HIGH` when `p + 1 < n` and nothing otherwise, in `prev_job` a job for page
`p - 1` at `LOW` when `p ≥ 1` and nothing otherwise; the jobs are new: the calls
made to the scheduler are the pushes of these jobs. -/
theorem initial_population (doc : EvDocument) (hdoc : doc.valid) (p rotation : Nat)
    (hp : (p : Int) < doc.n_pages) :
    ∃ s0 s1, ev_view_presentation_new (some doc) p rotation = some s0 ∧
      s0.current_page = p ∧ s0.prev_job = none ∧ s0.curr_job = none ∧ s0.next_job = none ∧
      init_presentation doc s0 = some s1 ∧
      s1.current_page = p ∧
      window s1 =
        (if 1 ≤ p then some ((p : Int) - 1, some EvJobPriority.EV_JOB_PRIORITY_LOW) else none,
          some ((p : Int), some EvJobPriority.EV_JOB_PRIORITY_URGENT),
          if (p : Int) + 1 < doc.n_pages then
            some ((p : Int) + 1, some EvJobPriority.EV_JOB_PRIORITY_HIGH) else none) ∧
      s1.sched =
        push_ops s1.prev_job EvJobPriority.EV_JOB_PRIORITY_LOW ++
          (push_ops s1.next_job EvJobPriority.EV_JOB_PRIORITY_HIGH ++
            push_ops s1.curr_job EvJobPriority.EV_JOB_PRIORITY_URGENT) := by
  refine ⟨_, _, new_eq doc hdoc p rotation hp, rfl, rfl, rfl, rfl, init_eq doc hdoc p rotation hp,
    rfl, ?_, ?_⟩
  · rcases new_job_cases doc 1 ((p : Int) + 1) with ⟨hnew, hr⟩ | ⟨hnew, hr⟩ <;>
    · rw [hnew]
      simp only [bump]
      rcases new_job_cases doc 1 ((p : Int) - 1) with ⟨hnew1, hr1⟩ | ⟨hnew1, hr1⟩ <;>
      rcases new_job_cases doc 2 ((p : Int) - 1) with ⟨hnew2, hr2⟩ | ⟨hnew2, hr2⟩ <;>
      · first | rw [hnew1] | rw [hnew2]
        simp only [g_object_new, window, slot_view, push_ops, last_priority, Option.map_some',
          Option.map_none', List.nil_append, List.cons_append, List.singleton_append]
        split_ifs <;> first | rfl | (exfalso; omega) | (simp at * <;> omega)
  · simp only [push_ops_some]

/-- C6, on ten pages from page 0: the window is {previous: empty, current:
page 0 at `URGENT`, next: page 1 at `HIGH`}. -/
theorem initial_population_witness :
    ∃ s0 s1, ev_view_presentation_new (some doc10) 0 0 = some s0 ∧
      s0.current_page = 0 ∧ s0.prev_job = none ∧ s0.curr_job = none ∧ s0.next_job = none ∧
      init_presentation doc10 s0 = some s1 ∧
      s1.current_page = 0 ∧
      window s1 =
        (none, some (0, some EvJobPriority.EV_JOB_PRIORITY_URGENT),
          some (1, some EvJobPriority.EV_JOB_PRIORITY_HIGH)) ∧
      s1.sched =
        push_ops s1.prev_job EvJobPriority.EV_JOB_PRIORITY_LOW ++
          (push_ops s1.next_job EvJobPriority.EV_JOB_PRIORITY_HIGH ++
            push_ops s1.curr_job EvJobPriority.EV_JOB_PRIORITY_URGENT) :=
  initial_population doc10 doc10_valid 0 0 (by decide)

/-- C9: for a document of `n ≥ 1` pages, in state `Normal` at the last page,
`ev_view_presentation_next_page` returns, sets the state to `End`, and changes
nothing else but the redraw it queues: the current page and the three slots
are the same and no job is pushed, cancelled or given a new priority. -/
theorem next_page_at_last_page (doc : EvDocument) (hdoc : doc.valid) (s : EvViewPresentation)
    (hst : s.state = EvPresentationState.EV_PRESENTATION_NORMAL)
    (hlast : (s.current_page : Int) = doc.n_pages - 1) :
    ev_view_presentation_next_page doc s =
      some { s with state := EvPresentationState.EV_PRESENTATION_END, redraws := s.redraws + 1 } ∧
    ∃ s', ev_view_presentation_next_page doc s = some s' ∧
      s'.state = EvPresentationState.EV_PRESENTATION_END ∧
      s'.current_page = s.current_page ∧ s'.prev_job = s.prev_job ∧ s'.curr_job = s.curr_job ∧
      s'.next_job = s.next_job ∧ s'.sched = s.sched ∧ s'.next_job_id = s.next_job_id := by
  have h1 := hdoc.1
  have h2 := hdoc.2
  have e : ev_view_presentation_next_page doc s =
      some { s with state := EvPresentationState.EV_PRESENTATION_END,
                    redraws := s.redraws + 1 } := by
    unfold ev_view_presentation_next_page
    rw [hst]
    simp only
    rw [to_gint_guint_add_one _ (by omega)]
    have e1 : to_guint ((s.current_page : Int) + 1) = s.current_page + 1 := by
      unfold to_guint; omega
    have e2 : to_guint doc.n_pages = doc.n_pages.toNat := by unfold to_guint; omega
    rw [e1, e2, if_pos (by omega)]
    unfold ev_view_presentation_set_end
    rw [hst]
    rfl
  exact ⟨e, _, e, rfl, rfl, rfl, rfl, rfl, rfl, rfl⟩

/-- C9, on ten pages at page 9. -/
theorem next_page_at_last_page_witness :
    ev_view_presentation_next_page doc10 session10_9 =
      some { session10_9 with
        state := EvPresentationState.EV_PRESENTATION_END, redraws := session10_9.redraws + 1 } ∧
    ∃ s', ev_view_presentation_next_page doc10 session10_9 = some s' ∧
      s'.state = EvPresentationState.EV_PRESENTATION_END ∧
      s'.current_page = session10_9.current_page ∧ s'.prev_job = session10_9.prev_job ∧
      s'.curr_job = session10_9.curr_job ∧ s'.next_job = session10_9.next_job ∧
      s'.sched = session10_9.sched ∧ s'.next_job_id = session10_9.next_job_id :=
  next_page_at_last_page doc10 doc10_valid session10_9 rfl (by decide)

theorem window_drawn (j : EvJob) (s : EvViewPresentation) : window (drawn j s) = window s := by
  unfold drawn; split_ifs <;> rfl

/-- C7, the claim as written fails: on ten pages, from the populated window at
page 5 in state `Normal`, `ev_view_presentation_next_page` does not give the
window {previous: page 5 at `HIGH`, current: page 6 at `URGENT`, next: page 7 at
`LOW`}; it gives page 5 at `LOW` and page 7 at `HIGH`. -/
theorem next_page_window_counterexample :
    Reachable doc10 5 session10_5 ∧
    session10_5.state = EvPresentationState.EV_PRESENTATION_NORMAL ∧
    session10_5.current_page = 5 ∧
    (ev_view_presentation_next_page doc10 session10_5).map window ≠
      some (some (5, some EvJobPriority.EV_JOB_PRIORITY_HIGH),
        some (6, some EvJobPriority.EV_JOB_PRIORITY_URGENT),
        some (7, some EvJobPriority.EV_JOB_PRIORITY_LOW)) ∧
    (ev_view_presentation_next_page doc10 session10_5).map window =
      some (some (5, some EvJobPriority.EV_JOB_PRIORITY_LOW),
        some (6, some EvJobPriority.EV_JOB_PRIORITY_URGENT),
        some (7, some EvJobPriority.EV_JOB_PRIORITY_HIGH)) :=
  ⟨reachable_session10_5, rfl, rfl, by decide, by decide⟩

/-- C7, amended: for a document of `n` pages and a session after the initial
population, in state `Normal` at a page `c` with `c + 2 < n`,
`ev_view_presentation_next_page` returns and gives the window {previous: page
`c` at `LOW`, current: page `c + 1` at `URGENT`, next: page `c + 2` at `HIGH`};
the job of page `c` and the job of page `c + 1` are the ones held before. -/
theorem next_page_window (doc : EvDocument) (hdoc : doc.valid) (p : Nat) (s : EvViewPresentation)
    (hr : Reachable doc p s) (hst : s.state = EvPresentationState.EV_PRESENTATION_NORMAL)
    (h : (s.current_page : Int) + 2 < doc.n_pages) :
    ∃ s', ev_view_presentation_next_page doc s = some s' ∧
      s'.state = EvPresentationState.EV_PRESENTATION_NORMAL ∧
      s'.current_page = s.current_page + 1 ∧
      window s' =
        (some ((s.current_page : Int), some EvJobPriority.EV_JOB_PRIORITY_LOW),
          some ((s.current_page : Int) + 1, some EvJobPriority.EV_JOB_PRIORITY_URGENT),
          some ((s.current_page : Int) + 2, some EvJobPriority.EV_JOB_PRIORITY_HIGH)) ∧
      s'.prev_job = s.curr_job ∧ s'.curr_job = s.next_job := by
  have inv := reachable_inv doc hdoc p s hr
  have h1 := hdoc.1
  have h2 := hdoc.2
  obtain ⟨jc, jn, a, hjc, hjn, heq⟩ :=
    update_plus_one doc hdoc s inv (s.current_page + 1) rfl (by push_cast; omega)
  obtain ⟨jc', hjc', hpc⟩ := inv.curr_some
  obtain ⟨jn', hjn', hpn⟩ := inv.next_some (by omega)
  rw [hjc] at hjc'; rw [hjn] at hjn'
  cases hjc'; cases hjn'
  have hlt := inv.ids_lt
  have hnd := inv.ids_nodup
  have enext : ev_view_presentation_next_page doc s =
      ev_view_presentation_update_current_page doc s (s.current_page + 1) := by
    unfold ev_view_presentation_next_page
    rw [hst]
    simp only
    rw [to_gint_guint_add_one _ (by omega)]
    have e1 : to_guint ((s.current_page : Int) + 1) = s.current_page + 1 := by
      unfold to_guint; omega
    have e2 : to_guint doc.n_pages = doc.n_pages.toNat := by unfold to_guint; omega
    rw [e1, e2, if_neg (by omega)]
  rw [enext, heq]
  refine ⟨_, rfl, by unfold drawn; split_ifs <;> exact hst, by unfold drawn; split_ifs <;> rfl,
    ?_, by unfold drawn; split_ifs <;> exact hjc.symm, by unfold drawn; split_ifs <;> exact hjn.symm⟩
  rw [window_drawn, new_job_inside doc _ _ (by push_cast; omega) (by push_cast; omega)]
  have c1 : jc.id < s.next_job_id := hlt jc (by simp [held, hjc])
  have c2 : jn.id < s.next_job_id := hlt jn (by simp [held, hjn])
  have c3 : jc.id ≠ jn.id := by
    cases hp : s.prev_job <;> simp [held, hjc, hjn, hp] at hnd <;> omega
  simp only [window, slot_view, push_ops, last_priority, Option.map_some', List.cons_append,
    List.nil_append, ↓reduceIte, hpc, hpn]
  rw [if_neg (by omega), if_neg (by omega), if_neg (by omega)]
  simp only [↓reduceIte, Nat.cast_add, Nat.cast_one]
  have e3 : (s.current_page : Int) + 1 + 1 = (s.current_page : Int) + 2 := by omega
  rw [e3]

/-- C7, amended, on ten pages from page 5: {previous: page 5 at `LOW`, current:
page 6 at `URGENT`, next: page 7 at `HIGH`}. -/
theorem next_page_window_witness :
    ∃ s', ev_view_presentation_next_page doc10 session10_5 = some s' ∧
      s'.state = EvPresentationState.EV_PRESENTATION_NORMAL ∧
      s'.current_page = 6 ∧
      window s' =
        (some (5, some EvJobPriority.EV_JOB_PRIORITY_LOW),
          some (6, some EvJobPriority.EV_JOB_PRIORITY_URGENT),
          some (7, some EvJobPriority.EV_JOB_PRIORITY_HIGH)) ∧
      s'.prev_job = session10_5.curr_job ∧ s'.curr_job = session10_5.next_job :=
  next_page_window doc10 doc10_valid 5 session10_5 reachable_session10_5 rfl (by decide)

/-- C8, the claim as written fails: on ten pages, from the populated window at
page 0, `ev_view_presentation_update_current_page` for page 9 does not give the
window {current: page 9 at `URGENT`, next: empty, previous: page 8 at `HIGH`};
it gives page 8 at `LOW`. -/
theorem jump_to_last_page_counterexample :
    Reachable doc10 0 session10_0 ∧ session10_0.current_page = 0 ∧
    (ev_view_presentation_update_current_page doc10 session10_0 9).map window ≠
      some (some (8, some EvJobPriority.EV_JOB_PRIORITY_HIGH),
        some (9, some EvJobPriority.EV_JOB_PRIORITY_URGENT), none) ∧
    (ev_view_presentation_update_current_page doc10 session10_0 9).map window =
      some (some (8, some EvJobPriority.EV_JOB_PRIORITY_LOW),
        some (9, some EvJobPriority.EV_JOB_PRIORITY_URGENT), none) :=
  ⟨reachable_session10_0, rfl, by decide, by decide⟩

/-- C8, amended: for a document of `n ≥ 4` pages and a session after the
initial population that is at page 0, `ev_view_presentation_update_current_page`
for the last page `n - 1` returns and gives the window {current: page `n - 1`
at `URGENT`, next: empty, previous: page `n - 2` at `LOW`}. -/
theorem jump_to_last_page (doc : EvDocument) (hdoc : doc.valid) (p : Nat)
    (s : EvViewPresentation) (hr : Reachable doc p s) (h0 : s.current_page = 0)
    (h4 : 4 ≤ doc.n_pages) (page : Nat) (hpage : (page : Int) = doc.n_pages - 1) :
    ∃ s', ev_view_presentation_update_current_page doc s page = some s' ∧
      s'.current_page = page ∧
      window s' =
        (some (doc.n_pages - 2, some EvJobPriority.EV_JOB_PRIORITY_LOW),
          some (doc.n_pages - 1, some EvJobPriority.EV_JOB_PRIORITY_URGENT),
          none) := by
  have inv := reachable_inv doc hdoc p s hr
  have h2 := hdoc.2
  obtain ⟨a, heq⟩ := update_forward doc hdoc s inv page (by omega) (by omega)
  rw [heq]
  refine ⟨_, rfl, rfl, ?_⟩
  rw [new_job_outside doc _ _ (Or.inr (by omega))]
  simp only [window, slot_view, bump, push_ops, last_priority, Option.map_some', Option.map_none',
    List.nil_append, ↓reduceIte]
  rw [if_neg (by omega)]
  have e1 : (page : Int) - 1 = doc.n_pages - 2 := by omega
  rw [e1, hpage]

/-- C8, amended, on ten pages: page 9 at `URGENT`, no next, page 8 at `LOW`. -/
theorem jump_to_last_page_witness :
    ∃ s', ev_view_presentation_update_current_page doc10 session10_0 9 = some s' ∧
      s'.current_page = 9 ∧
      window s' =
        (some (8, some EvJobPriority.EV_JOB_PRIORITY_LOW),
          some (9, some EvJobPriority.EV_JOB_PRIORITY_URGENT),
          none) :=
  jump_to_last_page doc10 doc10_valid 0 session10_0 reachable_session10_0 rfl (by decide) 9
    (by decide)

/-- C10, at the failing input: on ten pages, after the initial population at
page 9, `ev_view_presentation_next_page` gives the state `End` at the last
page; `ev_view_presentation_update_current_page` for page 3, as
`ev_view_presentation_goto_entry_activate` calls it with no test of the state,
then gives a session in the state `End` at page 3, and
`ev_view_presentation_previous_page` gives the state `Normal` at page 3, where
the claim has the last page 9.  In the state `End` the `Home` key and the
release of button 1 on a link to the first page leave the session as it
is. -/
theorem previous_page_from_end_off_last_page :
    Reachable doc10 9 session10_9_end ∧
    (session10_9_end.current_page : Int) = doc10.n_pages - 1 ∧
    ev_view_presentation_key_press_event doc10 session10_9_end GdkKey.GDK_Home =
      some session10_9_end ∧
    ev_view_presentation_button_release_event doc10 session10_9_end 1 (some link_first_page) =
      some session10_9_end ∧
    run doc10 session10_9 [Event.next_page, Event.update_current_page 3] = some session10_3_end ∧
    ev_view_presentation_update_current_page doc10 session10_9_end 3 = some session10_3_end ∧
    session10_3_end.state = EvPresentationState.EV_PRESENTATION_END ∧
    (session10_3_end.current_page : Int) ≠ doc10.n_pages - 1 ∧
    (ev_view_presentation_previous_page doc10 session10_3_end).map
        (fun s => (s.state, s.current_page)) =
      some (EvPresentationState.EV_PRESENTATION_NORMAL, 3) :=
  ⟨reachable_session10_9_end, by decide, by decide, by decide, by decide, by decide, rfl,
    by decide, by decide⟩

/-- What `ev_view_presentation_previous_page` does in the state `End`: for a
session after the initial population that is in state `End`, `ev_view_presentation_previous_page` returns, sets the state to `Normal`
and leaves the current page as it is; the call of
`ev_view_presentation_update_current_page` it makes takes the `case 0` of the
`switch`, which leaves the three slots as they are and pushes, cancels and
gives a new priority to no job.  The current page is the last page `n - 1` in
a session that `ev_view_presentation_next_page` has just put in the state
`End`. -/
theorem previous_page_from_end (doc : EvDocument) (hdoc : doc.valid) (p : Nat)
    (s : EvViewPresentation) (hr : Reachable doc p s)
    (hst : s.state = EvPresentationState.EV_PRESENTATION_END) :
    (∃ s', ev_view_presentation_previous_page doc s = some s' ∧
      s'.state = EvPresentationState.EV_PRESENTATION_NORMAL ∧
      s'.current_page = s.current_page ∧ s'.prev_job = s.prev_job ∧ s'.curr_job = s.curr_job ∧
      s'.next_job = s.next_job ∧ s'.sched = s.sched ∧ s'.next_job_id = s.next_job_id) ∧
    update_current_page_switch doc
        { s with state := EvPresentationState.EV_PRESENTATION_NORMAL, animation := none }
        s.current_page 0 =
      some { s with state := EvPresentationState.EV_PRESENTATION_NORMAL, animation := none } ∧
    ∀ s0, Reachable doc p s0 → s0.state = EvPresentationState.EV_PRESENTATION_NORMAL →
      ev_view_presentation_next_page doc s0 = some s →
      (s.current_page : Int) = doc.n_pages - 1 := by
  have inv := reachable_inv doc hdoc p s hr
  have hc := inv.page_lt
  have h1 := hdoc.1
  have h2 := hdoc.2
  have inv' : WindowInv doc { s with state := EvPresentationState.EV_PRESENTATION_NORMAL } :=
    windowInv_of_key doc s _ rfl inv
  obtain ⟨jc, hjc, heq⟩ := update_same doc hdoc _ inv'
  refine ⟨⟨drawn jc { s with
      state := EvPresentationState.EV_PRESENTATION_NORMAL, animation := none }, ?_, ?_⟩, ?_, ?_⟩
  · unfold ev_view_presentation_previous_page
    rw [hst]
    simp only
    rw [to_guint_to_gint _ (by omega)]
    exact heq
  · unfold drawn
    split_ifs <;> exact ⟨rfl, rfl, rfl, rfl, rfl, rfl, rfl⟩
  · obtain ⟨jc', hjc', -⟩ := inv.curr_some
    refine switch_zero_full doc _ s.current_page jc' hjc' ?_ ?_
    · intro hnone
      apply new_job_outside
      rw [to_gint_guint_add_one _ (by omega)]
      right
      by_contra hlt
      obtain ⟨j, hj, -⟩ := inv.next_some (by omega)
      simp only at hnone
      rw [hj] at hnone
      cases hnone
    · intro hnone
      apply new_job_outside
      rw [to_gint_guint_sub_one _ (by omega)]
      left
      by_contra hlt
      obtain ⟨j, hj, -⟩ := inv.prev_some (by omega)
      simp only at hnone
      rw [hj] at hnone
      cases hnone
  · intro s0 hr0 hst0 hnext
    have inv0 := reachable_inv doc hdoc p s0 hr0
    have hc0 := inv0.page_lt
    unfold ev_view_presentation_next_page at hnext
    rw [hst0] at hnext
    simp only at hnext
    rw [to_gint_guint_add_one _ (by omega)] at hnext
    have e1 : to_guint ((s0.current_page : Int) + 1) = s0.current_page + 1 := by
      unfold to_guint; omega
    have e2 : to_guint doc.n_pages = doc.n_pages.toNat := by unfold to_guint; omega
    rw [e1, e2] at hnext
    split_ifs at hnext with hlast
    · unfold ev_view_presentation_set_end at hnext
      rw [hst0] at hnext
      simp only [reduceCtorEq, ↓reduceIte, Option.some.injEq] at hnext
      rw [← hnext]
      simp only [queue_draw]
      omega
    · exfalso
      obtain ⟨s', hs', -, -, hstate⟩ := update_inv doc hdoc s0 inv0 (s0.current_page + 1) (by omega)
      rw [hnext] at hs'
      cases hs'
      rw [hst, hst0] at hstate
      cases hstate

/-- On ten pages: from the state `End` at page 9 the session is back in
the state `Normal` at page 9. -/
theorem previous_page_from_end_witness :
    (∃ s', ev_view_presentation_previous_page doc10 session10_9_end = some s' ∧
      s'.state = EvPresentationState.EV_PRESENTATION_NORMAL ∧
      s'.current_page = 9 ∧ s'.prev_job = session10_9_end.prev_job ∧
      s'.curr_job = session10_9_end.curr_job ∧
      s'.next_job = session10_9_end.next_job ∧ s'.sched = session10_9_end.sched ∧
      s'.next_job_id = session10_9_end.next_job_id) ∧
    update_current_page_switch doc10
        { session10_9_end with
          state := EvPresentationState.EV_PRESENTATION_NORMAL, animation := none }
        9 0 =
      some { session10_9_end with
        state := EvPresentationState.EV_PRESENTATION_NORMAL, animation := none } ∧
    ∀ s0, Reachable doc10 9 s0 → s0.state = EvPresentationState.EV_PRESENTATION_NORMAL →
      ev_view_presentation_next_page doc10 s0 = some session10_9_end →
      (session10_9_end.current_page : Int) = doc10.n_pages - 1 :=
  previous_page_from_end doc10 doc10_valid 9 session10_9_end reachable_session10_9_end rfl

theorem reachable_session10_5_black : Reachable doc10 5 session10_5_black :=
  Reachable.step session10_5 session10_5_black (Event.key_press GdkKey.GDK_b)
    reachable_session10_5 (by decide)

theorem reachable_session10_0_black : Reachable doc10 5 session10_0_black :=
  Reachable.step session10_5_black session10_0_black
    (Event.button_release 1 (some link_first_page)) reachable_session10_5_black (by decide)

/-! ## More on the sessions with the invariant -/

theorem drawn_eq (j : EvJob) (s : EvViewPresentation) :
    ∃ r, drawn j s = { s with redraws := r } := by
  unfold drawn
  split_ifs
  · exact ⟨s.redraws + 1, rfl⟩
  · exact ⟨s.redraws, rfl⟩

theorem drawn_sched (j : EvJob) (s : EvViewPresentation) : (drawn j s).sched = s.sched := by
  unfold drawn
  split_ifs <;> rfl

theorem held_id_lt (doc : EvDocument) (s : EvViewPresentation) (inv : WindowInv doc s) :
    (∀ j, s.prev_job = some j → j.id < s.next_job_id) ∧
    (∀ j, s.curr_job = some j → j.id < s.next_job_id) ∧
    (∀ j, s.next_job = some j → j.id < s.next_job_id) := by
  have hlt := inv.ids_lt
  refine ⟨fun j hj => hlt j ?_, fun j hj => hlt j ?_, fun j hj => hlt j ?_⟩ <;>
    simp [held, hj]

theorem held_id_ne (doc : EvDocument) (s : EvViewPresentation) (inv : WindowInv doc s) :
    (∀ a b, s.prev_job = some a → s.curr_job = some b → a.id ≠ b.id) ∧
    (∀ a b, s.prev_job = some a → s.next_job = some b → a.id ≠ b.id) ∧
    (∀ a b, s.curr_job = some a → s.next_job = some b → a.id ≠ b.id) := by
  have hnd := inv.ids_nodup
  refine ⟨fun a b ha hb => ?_, fun a b ha hb => ?_, fun a b ha hb => ?_⟩
  · cases hn : s.next_job <;> simp [held, ha, hb, hn] at hnd <;> omega
  · cases hc : s.curr_job <;> simp [held, ha, hb, hc] at hnd <;> omega
  · cases hp : s.prev_job <;> simp [held, ha, hb, hp] at hnd <;> omega

theorem mem_held_iff (s : EvViewPresentation) (j : EvJob) :
    j ∈ held s ↔ s.prev_job = some j ∨ s.curr_job = some j ∨ s.next_job = some j := by
  unfold held
  simp only [List.mem_append, Option.mem_toList, Option.mem_def, or_assoc]

theorem cancel_mem_cancel_ops (o : Option EvJob) (j : EvJob) (h : o = some j) :
    SchedOp.cancel j.id ∈ cancel_ops o := by
  subst h
  simp [cancel_ops]

theorem held_page_of_inv (doc : EvDocument) (s : EvViewPresentation) (inv : WindowInv doc s) :
    (∀ j, s.prev_job = some j → j.page = (s.current_page : Int) - 1 ∧ 1 ≤ s.current_page) ∧
    (∀ j, s.curr_job = some j → j.page = (s.current_page : Int)) ∧
    (∀ j, s.next_job = some j →
      j.page = (s.current_page : Int) + 1 ∧ (s.current_page : Int) + 1 < doc.n_pages) := by
  refine ⟨fun j hj => ?_, fun j hj => ?_, fun j hj => ?_⟩
  · have h := inv.prev
    rw [hj] at h
    split_ifs at h with h1
    · simp only [Option.map_some', Option.some.injEq] at h
      exact ⟨h, h1⟩
    · simp at h
  · have h := inv.curr
    rw [hj] at h
    simpa using h
  · have h := inv.next
    rw [hj] at h
    split_ifs at h with h1
    · simp only [Option.map_some', Option.some.injEq] at h
      exact ⟨h, h1⟩
    · simp at h

theorem cancel_not_mem_push_ops (i : Nat) (o : Option EvJob) (p : EvJobPriority) :
    SchedOp.cancel i ∉ push_ops o p := by
  cases o <;> simp [push_ops]

theorem cancel_mem_cancel_ops_iff (i : Nat) (o : Option EvJob) :
    SchedOp.cancel i ∈ cancel_ops o ↔ ∃ j, o = some j ∧ i = j.id := by
  cases o <;> simp [cancel_ops]

theorem push_not_mem_cancel_ops (i : Nat) (pg : Int) (p : EvJobPriority) (o : Option EvJob) :
    SchedOp.push i pg p ∉ cancel_ops o := by
  cases o <;> simp [cancel_ops]

theorem push_mem_push_new_job (doc : EvDocument) (i id : Nat) (pg page : Int)
    (pr p : EvJobPriority) :
    SchedOp.push i pg pr ∈ push_ops (new_job doc id page) p ↔
      0 ≤ page ∧ page < doc.n_pages ∧ i = id ∧ pg = page ∧ pr = p := by
  unfold new_job
  split_ifs with h
  · simp only [push_ops, List.not_mem_nil, false_iff]
    omega
  · simp only [push_ops, List.mem_singleton, SchedOp.push.injEq]
    constructor
    · rintro ⟨a, b, c⟩
      exact ⟨by omega, by omega, a, b, c⟩
    · rintro ⟨-, -, a, b, c⟩
      exact ⟨a, b, c⟩

theorem new_job_eq_some (doc : EvDocument) (id : Nat) (page : Int) (j : EvJob)
    (h : new_job doc id page = some j) :
    j.id = id ∧ j.page = page ∧ 0 ≤ page ∧ page < doc.n_pages := by
  unfold new_job at h
  split_ifs at h with hc
  cases h
  exact ⟨rfl, rfl, by omega, by omega⟩

theorem held_page_mem (doc : EvDocument) (s : EvViewPresentation) (inv : WindowInv doc s)
    (j : EvJob) (hj : j ∈ held s) :
    (j.page = (s.current_page : Int) - 1 ∧ 1 ≤ s.current_page) ∨
    j.page = (s.current_page : Int) ∨
    (j.page = (s.current_page : Int) + 1 ∧ (s.current_page : Int) + 1 < doc.n_pages) := by
  obtain ⟨hpp, hpc, hpn⟩ := held_page_of_inv doc s inv
  rw [mem_held_iff] at hj
  rcases hj with e | e | e
  · exact Or.inl (hpp j e)
  · exact Or.inr (Or.inl (hpc j e))
  · exact Or.inr (Or.inr (hpn j e))

theorem held_id_inj (doc : EvDocument) (s : EvViewPresentation) (inv : WindowInv doc s)
    (j j' : EvJob) (hj : j ∈ held s) (hj' : j' ∈ held s) (e : j.id = j'.id) : j = j' :=
  List.inj_on_of_nodup_map inv.ids_nodup hj hj' e

theorem slot_of_page (doc : EvDocument) (s : EvViewPresentation) (inv : WindowInv doc s)
    (j : EvJob) (hj : j ∈ held s) :
    (j.page = (s.current_page : Int) - 1 → s.prev_job = some j) ∧
    (j.page = (s.current_page : Int) → s.curr_job = some j) ∧
    (j.page = (s.current_page : Int) + 1 → s.next_job = some j) := by
  obtain ⟨hpp, hpc, hpn⟩ := held_page_of_inv doc s inv
  rw [mem_held_iff] at hj
  refine ⟨fun e => ?_, fun e => ?_, fun e => ?_⟩ <;> rcases hj with h | h | h <;>
    first
    | exact h
    | (exfalso; have := hpp j h; omega)
    | (exfalso; have := hpc j h; omega)
    | (exfalso; have := hpn j h; omega)

theorem cancel_prev_iff (doc : EvDocument) (s : EvViewPresentation) (inv : WindowInv doc s)
    (j : EvJob) (hj : j ∈ held s) :
    SchedOp.cancel j.id ∈ cancel_ops s.prev_job ↔ j.page = (s.current_page : Int) - 1 := by
  rw [cancel_mem_cancel_ops_iff]
  constructor
  · rintro ⟨j', hj', e⟩
    have := held_id_inj doc s inv j j' hj ((mem_held_iff s j').mpr (Or.inl hj')) e
    subst this
    exact ((held_page_of_inv doc s inv).1 j hj').1
  · intro e
    exact ⟨j, (slot_of_page doc s inv j hj).1 e, rfl⟩

theorem cancel_curr_iff (doc : EvDocument) (s : EvViewPresentation) (inv : WindowInv doc s)
    (j : EvJob) (hj : j ∈ held s) :
    SchedOp.cancel j.id ∈ cancel_ops s.curr_job ↔ j.page = (s.current_page : Int) := by
  rw [cancel_mem_cancel_ops_iff]
  constructor
  · rintro ⟨j', hj', e⟩
    have := held_id_inj doc s inv j j' hj ((mem_held_iff s j').mpr (Or.inr (Or.inl hj'))) e
    subst this
    exact (held_page_of_inv doc s inv).2.1 j hj'
  · intro e
    exact ⟨j, (slot_of_page doc s inv j hj).2.1 e, rfl⟩

theorem cancel_next_iff (doc : EvDocument) (s : EvViewPresentation) (inv : WindowInv doc s)
    (j : EvJob) (hj : j ∈ held s) :
    SchedOp.cancel j.id ∈ cancel_ops s.next_job ↔ j.page = (s.current_page : Int) + 1 := by
  rw [cancel_mem_cancel_ops_iff]
  constructor
  · rintro ⟨j', hj', e⟩
    have := held_id_inj doc s inv j j' hj ((mem_held_iff s j').mpr (Or.inr (Or.inr hj'))) e
    subst this
    exact ((held_page_of_inv doc s inv).2.2 j hj').1
  · intro e
    exact ⟨j, (slot_of_page doc s inv j hj).2.2 e, rfl⟩

theorem bump_bounds (id : Nat) (o : Option EvJob) : id ≤ bump id o ∧ bump id o ≤ id + 1 := by
  cases o <;> simp [bump]

/-- C11: for every session and every job that is not the job of `curr_job`
(so for every job that is in no slot), `job_finished_cb` returns the session
as it was: the current page, the three slots, the displayed surface, the
animation, the timer and the redraws asked for are the same.  The callback
compares the job with `curr_job` and never reads the page of the job; and
the end of the render of such a job changes nothing either but the surface
of that job. -/
theorem stale_completion_changes_nothing (doc : EvDocument) (s : EvViewPresentation)
    (job : EvJob) (h : s.curr_job.map EvJob.id ≠ some job.id) :
    job_finished_cb doc job s = s ∧
    (∀ page : Int, job_finished_cb doc { job with page := page } s = s) ∧
    (∀ surface : Nat,
      (job_finished doc s job.id surface).current_page = s.current_page ∧
      window_key (job_finished doc s job.id surface) = window_key s ∧
      (job_finished doc s job.id surface).curr_job = s.curr_job ∧
      (job_finished doc s job.id surface).current_surface = s.current_surface ∧
      (job_finished doc s job.id surface).animation = s.animation ∧
      (job_finished doc s job.id surface).trans_timeout_id = s.trans_timeout_id ∧
      (job_finished doc s job.id surface).sources = s.sources ∧
      (job_finished doc s job.id surface).redraws = s.redraws) := by
  have hcb : ∀ j : EvJob, j.id = job.id → job_finished_cb doc j s = s := by
    intro j hj
    unfold job_finished_cb
    rw [hj, if_pos h]
  refine ⟨hcb job rfl, fun page => hcb _ rfl, fun surface => ?_⟩
  have hkey := window_key_job_finished doc s job.id surface
  obtain ⟨cp, csurf, rot, st, tid, ea, anim, pj, cj, nj, sched, nid, srcs, nsid, rd⟩ := s
  refine ⟨?_, hkey, ?_⟩
  · have := congrArg Prod.fst hkey
    exact this
  · simp only at h
    unfold job_finished
    cases cj with
    | none =>
      simp only [Option.map_none']
      split <;> exact ⟨rfl, rfl, rfl, rfl, rfl, rfl⟩
    | some jc =>
      have hne : jc.id ≠ job.id := by
        intro e
        apply h
        simp only [Option.map_some', e]
      simp only [Option.map_some', if_neg hne]
      split <;> first | exact ⟨rfl, rfl, rfl, rfl, rfl, rfl⟩ | skip
      rename_i j hfind
      have hj : j.id = job.id := by
        have := List.find?_some hfind
        simpa using this
      unfold job_finished_cb
      simp only [Option.map_some', hj, ne_eq, Option.some.injEq, hne, not_false_eq_true, ↓reduceIte,
        and_self]

/-- C11, on ten pages at page 5: the end of a job for page 5 that is not the
job of `curr_job` changes nothing. -/
theorem stale_completion_changes_nothing_witness :
    session10_5.curr_job.map EvJob.id ≠ some 7 ∧
    job_finished_cb doc10 { id := 7, page := 5, surface := some 3 } session10_5 = session10_5 :=
  ⟨by decide,
    (stale_completion_changes_nothing doc10 session10_5 { id := 7, page := 5, surface := some 3 }
      (by decide)).1⟩

theorem set_normal_eq (s : EvViewPresentation)
    (h : s.state ≠ EvPresentationState.EV_PRESENTATION_NORMAL) :
    ev_view_presentation_set_normal s =
      { s with state := EvPresentationState.EV_PRESENTATION_NORMAL, redraws := s.redraws + 1 } := by
  unfold ev_view_presentation_set_normal
  rw [if_neg h]
  rfl

/-- C12: for every session in state `Black` or `White`,
`ev_view_presentation_next_page` and `ev_view_presentation_previous_page`
return the session with the state `Normal` and one more redraw asked for, and
so does `ev_view_presentation_key_press_event` for the key of the state
(`b`, `B`, `.` or the decimal key of the keypad in `Black`; `w` or `W` in
`White`): the current page, the three slots and the calls made to the
scheduler are the same. -/
theorem black_white_return_to_normal (doc : EvDocument) (s : EvViewPresentation)
    (h : s.state = EvPresentationState.EV_PRESENTATION_BLACK ∨
      s.state = EvPresentationState.EV_PRESENTATION_WHITE) :
    ∃ s', s' = { s with
        state := EvPresentationState.EV_PRESENTATION_NORMAL, redraws := s.redraws + 1 } ∧
      s'.state = EvPresentationState.EV_PRESENTATION_NORMAL ∧
      s'.current_page = s.current_page ∧ s'.prev_job = s.prev_job ∧
      s'.curr_job = s.curr_job ∧ s'.next_job = s.next_job ∧ s'.sched = s.sched ∧
      s'.next_job_id = s.next_job_id ∧
      ev_view_presentation_next_page doc s = some s' ∧
      ev_view_presentation_previous_page doc s = some s' ∧
      (s.state = EvPresentationState.EV_PRESENTATION_BLACK →
        ev_view_presentation_key_press_event doc s GdkKey.GDK_b = some s' ∧
        ev_view_presentation_key_press_event doc s GdkKey.GDK_B = some s' ∧
        ev_view_presentation_key_press_event doc s GdkKey.GDK_period = some s' ∧
        ev_view_presentation_key_press_event doc s GdkKey.GDK_KP_Decimal = some s') ∧
      (s.state = EvPresentationState.EV_PRESENTATION_WHITE →
        ev_view_presentation_key_press_event doc s GdkKey.GDK_w = some s' ∧
        ev_view_presentation_key_press_event doc s GdkKey.GDK_W = some s') := by
  have hn : s.state ≠ EvPresentationState.EV_PRESENTATION_NORMAL := by
    rcases h with h | h <;> rw [h] <;> decide
  have he : s.state ≠ EvPresentationState.EV_PRESENTATION_END := by
    rcases h with h | h <;> rw [h] <;> decide
  have e := set_normal_eq s hn
  refine ⟨_, rfl, rfl, rfl, rfl, rfl, rfl, rfl, rfl, ?_, ?_, ?_, ?_⟩
  · unfold ev_view_presentation_next_page
    rcases h with h | h <;> rw [h] <;> simp only <;> rw [e]
  · unfold ev_view_presentation_previous_page
    rcases h with h | h <;> rw [h] <;> simp only <;> rw [e]
  · intro hb
    simp only [ev_view_presentation_key_press_event, if_neg he, key_press_black, if_pos hb, e,
      and_self]
  · intro hw
    simp only [ev_view_presentation_key_press_event, if_neg he, key_press_white, if_pos hw, e,
      and_self]

/-- C12, on ten pages in state `Black` at page 5: `b`, an advance and a
retreat give the state `Normal` at page 5. -/
theorem black_white_return_to_normal_witness :
    ∃ s', s' = { session10_5_black with
        state := EvPresentationState.EV_PRESENTATION_NORMAL
        redraws := session10_5_black.redraws + 1 } ∧
      s'.state = EvPresentationState.EV_PRESENTATION_NORMAL ∧
      s'.current_page = 5 ∧ s'.prev_job = session10_5_black.prev_job ∧
      s'.curr_job = session10_5_black.curr_job ∧ s'.next_job = session10_5_black.next_job ∧
      s'.sched = session10_5_black.sched ∧
      s'.next_job_id = session10_5_black.next_job_id ∧
      ev_view_presentation_next_page doc10 session10_5_black = some s' ∧
      ev_view_presentation_previous_page doc10 session10_5_black = some s' ∧
      (session10_5_black.state = EvPresentationState.EV_PRESENTATION_BLACK →
        ev_view_presentation_key_press_event doc10 session10_5_black GdkKey.GDK_b = some s' ∧
        ev_view_presentation_key_press_event doc10 session10_5_black GdkKey.GDK_B = some s' ∧
        ev_view_presentation_key_press_event doc10 session10_5_black GdkKey.GDK_period =
          some s' ∧
        ev_view_presentation_key_press_event doc10 session10_5_black GdkKey.GDK_KP_Decimal =
          some s') ∧
      (session10_5_black.state = EvPresentationState.EV_PRESENTATION_WHITE →
        ev_view_presentation_key_press_event doc10 session10_5_black GdkKey.GDK_w = some s' ∧
        ev_view_presentation_key_press_event doc10 session10_5_black GdkKey.GDK_W = some s') :=
  black_white_return_to_normal doc10 session10_5_black (Or.inl rfl)

/-- C14: `ev_view_presentation_new` returns `NULL` for a `document` that is
not a document, and for a document of `n` pages (`0 ≤ n ≤ 2^31 - 1`) and a
`current_page ≥ n`; for `current_page < n` it returns a session whose current
page is `current_page`.  So the current page of every session it returns is
below the page count. -/
theorem new_rejects_invalid_arguments (doc : EvDocument) (h0 : 0 ≤ doc.n_pages)
    (h1 : doc.n_pages ≤ 2147483647) (current_page rotation : Nat) :
    ev_view_presentation_new none current_page rotation = none ∧
    ((current_page : Int) ≥ doc.n_pages →
      ev_view_presentation_new (some doc) current_page rotation = none) ∧
    ((current_page : Int) < doc.n_pages →
      ∃ s, ev_view_presentation_new (some doc) current_page rotation = some s ∧
        s.current_page = current_page ∧ s.rotation = rotation ∧
        s.prev_job = none ∧ s.curr_job = none ∧ s.next_job = none ∧ s.sched = []) ∧
    (∀ s, ev_view_presentation_new (some doc) current_page rotation = some s →
      (s.current_page : Int) < doc.n_pages) := by
  have e : (to_guint doc.n_pages : Int) = doc.n_pages := by unfold to_guint; omega
  refine ⟨rfl, ?_, ?_, ?_⟩
  · intro h
    unfold ev_view_presentation_new
    simp only
    rw [if_pos (by omega)]
  · intro h
    unfold ev_view_presentation_new
    simp only
    rw [if_neg (by omega)]
    exact ⟨_, rfl, rfl, rfl, rfl, rfl, rfl, rfl⟩
  · intro s hs
    unfold ev_view_presentation_new at hs
    simp only at hs
    split_ifs at hs with hlt
    cases hs
    simp only [g_object_new]
    omega

/-- C14, on ten pages: page 10 is refused, page 9 gives a session at page 9. -/
theorem new_rejects_invalid_arguments_witness :
    ev_view_presentation_new none 9 0 = none ∧
    ev_view_presentation_new (some doc10) 10 0 = none ∧
    ∃ s, ev_view_presentation_new (some doc10) 9 0 = some s ∧
      s.current_page = 9 ∧ s.rotation = 0 ∧
      s.prev_job = none ∧ s.curr_job = none ∧ s.next_job = none ∧ s.sched = [] := by
  have h := new_rejects_invalid_arguments doc10 (by decide) (by decide)
  exact ⟨(h 9 0).1, (h 10 0).2.1 (by decide), (h 9 0).2.2.1 (by decide)⟩

theorem sameJobs_refl (s : EvViewPresentation) : SameJobs s s :=
  ⟨rfl, rfl, rfl, rfl, rfl, rfl⟩

theorem sameJobs_trans (s s1 s2 : EvViewPresentation) (h1 : SameJobs s s1)
    (h2 : SameJobs s1 s2) : SameJobs s s2 := by
  unfold SameJobs at h1 h2 ⊢
  refine ⟨?_, ?_, ?_, ?_, ?_, ?_⟩
  · rw [h2.1, h1.1]
  · rw [h2.2.1, h1.2.1]
  · rw [h2.2.2.1, h1.2.2.1]
  · rw [h2.2.2.2.1, h1.2.2.2.1]
  · rw [h2.2.2.2.2.1, h1.2.2.2.2.1]
  · rw [h2.2.2.2.2.2, h1.2.2.2.2.2]

theorem sameJobs_set_normal (s : EvViewPresentation) :
    SameJobs s (ev_view_presentation_set_normal s) := by
  unfold ev_view_presentation_set_normal
  split_ifs <;> exact ⟨rfl, rfl, rfl, rfl, rfl, rfl⟩

theorem sameJobs_set_black (s : EvViewPresentation) :
    SameJobs s (ev_view_presentation_set_black s) := by
  unfold ev_view_presentation_set_black
  split_ifs <;> exact ⟨rfl, rfl, rfl, rfl, rfl, rfl⟩

theorem sameJobs_set_white (s : EvViewPresentation) :
    SameJobs s (ev_view_presentation_set_white s) := by
  unfold ev_view_presentation_set_white
  split_ifs <;> exact ⟨rfl, rfl, rfl, rfl, rfl, rfl⟩

theorem sameJobs_set_end (s : EvViewPresentation) :
    SameJobs s (ev_view_presentation_set_end s) := by
  unfold ev_view_presentation_set_end
  split_ifs <;> exact ⟨rfl, rfl, rfl, rfl, rfl, rfl⟩

theorem set_normal_state (s : EvViewPresentation) :
    (ev_view_presentation_set_normal s).state = EvPresentationState.EV_PRESENTATION_NORMAL := by
  unfold ev_view_presentation_set_normal
  split_ifs with h
  · exact h
  · rfl

theorem sameJobs_drawn (j : EvJob) (s : EvViewPresentation) : SameJobs s (drawn j s) := by
  unfold drawn
  split_ifs <;> exact ⟨rfl, rfl, rfl, rfl, rfl, rfl⟩

/-- `ev_view_presentation_next_page` outside the state `Normal`. -/
theorem next_page_not_normal (doc : EvDocument) (s : EvViewPresentation)
    (hst : s.state ≠ EvPresentationState.EV_PRESENTATION_NORMAL) :
    ∃ s', ev_view_presentation_next_page doc s = some s' ∧ SameJobs s s' := by
  unfold ev_view_presentation_next_page
  cases h : s.state with
  | EV_PRESENTATION_NORMAL => exact absurd h hst
  | EV_PRESENTATION_BLACK => exact ⟨_, rfl, sameJobs_set_normal s⟩
  | EV_PRESENTATION_WHITE => exact ⟨_, rfl, sameJobs_set_normal s⟩
  | EV_PRESENTATION_END => exact ⟨_, rfl, sameJobs_refl s⟩

/-- `ev_view_presentation_previous_page` outside the state `Normal`. -/
theorem previous_page_not_normal (doc : EvDocument) (hdoc : doc.valid)
    (s : EvViewPresentation) (inv : WindowInv doc s)
    (hst : s.state ≠ EvPresentationState.EV_PRESENTATION_NORMAL) :
    ∃ s', ev_view_presentation_previous_page doc s = some s' ∧ SameJobs s s' := by
  have hc := inv.page_lt
  have h2 := hdoc.2
  unfold ev_view_presentation_previous_page
  cases h : s.state with
  | EV_PRESENTATION_NORMAL => exact absurd h hst
  | EV_PRESENTATION_BLACK => exact ⟨_, rfl, sameJobs_set_normal s⟩
  | EV_PRESENTATION_WHITE => exact ⟨_, rfl, sameJobs_set_normal s⟩
  | EV_PRESENTATION_END =>
    simp only
    rw [to_guint_to_gint _ (by omega)]
    have inv' : WindowInv doc { s with state := EvPresentationState.EV_PRESENTATION_NORMAL } :=
      windowInv_of_key doc s _ rfl inv
    obtain ⟨jc, -, heq⟩ := update_same doc hdoc _ inv'
    exact ⟨_, heq, sameJobs_trans s _ _ ⟨rfl, rfl, rfl, rfl, rfl, rfl⟩ (sameJobs_drawn jc _)⟩

theorem change_page_not_normal (doc : EvDocument) (hdoc : doc.valid)
    (s : EvViewPresentation) (inv : WindowInv doc s)
    (hst : s.state ≠ EvPresentationState.EV_PRESENTATION_NORMAL) (scroll : GtkScrollType)
    (hs : scroll ≠ GtkScrollType.GTK_SCROLL_NONE) :
    ∃ s', ev_view_presentation_change_page doc s scroll = some s' ∧ SameJobs s s' := by
  cases scroll with
  | GTK_SCROLL_PAGE_FORWARD => exact next_page_not_normal doc s hst
  | GTK_SCROLL_PAGE_BACKWARD => exact previous_page_not_normal doc hdoc s inv hst
  | GTK_SCROLL_NONE => exact absurd rfl hs

/-- `ev_view_presentation_next_page` in the state `Normal`: the state
afterwards is `Normal`, or it is `End` and no job was touched. -/
theorem next_page_normal (doc : EvDocument) (hdoc : doc.valid) (s : EvViewPresentation)
    (inv : WindowInv doc s) (hst : s.state = EvPresentationState.EV_PRESENTATION_NORMAL) :
    ∃ s', ev_view_presentation_next_page doc s = some s' ∧
      (s'.state = EvPresentationState.EV_PRESENTATION_NORMAL ∨ SameJobs s s') := by
  have hc := inv.page_lt
  have h1 := hdoc.1
  have h2 := hdoc.2
  unfold ev_view_presentation_next_page
  rw [hst]
  simp only
  rw [to_gint_guint_add_one _ (by omega)]
  have e1 : to_guint ((s.current_page : Int) + 1) = s.current_page + 1 := by
    unfold to_guint; omega
  have e2 : to_guint doc.n_pages = doc.n_pages.toNat := by unfold to_guint; omega
  rw [e1, e2]
  split_ifs with hlast
  · exact ⟨_, rfl, Or.inr (sameJobs_set_end s)⟩
  · obtain ⟨s', hs', -, -, hstate⟩ := update_inv doc hdoc s inv (s.current_page + 1) (by omega)
    exact ⟨s', hs', Or.inl (hstate.trans hst)⟩

/-- `ev_view_presentation_previous_page` in the state `Normal` keeps the
state. -/
theorem previous_page_normal (doc : EvDocument) (hdoc : doc.valid) (s : EvViewPresentation)
    (inv : WindowInv doc s) (hst : s.state = EvPresentationState.EV_PRESENTATION_NORMAL) :
    ∃ s', ev_view_presentation_previous_page doc s = some s' ∧
      s'.state = EvPresentationState.EV_PRESENTATION_NORMAL := by
  have hc := inv.page_lt
  have h1 := hdoc.1
  have h2 := hdoc.2
  unfold ev_view_presentation_previous_page
  rw [hst]
  simp only
  by_cases h0 : s.current_page = 0
  · refine ⟨s, ?_, hst⟩
    rw [h0]
    have e : to_guint (to_gint (guint_sub 0 1)) = 4294967295 := by decide
    unfold ev_view_presentation_update_current_page
    rw [e, if_pos (by unfold to_guint; omega)]
  · have e : to_guint (to_gint (guint_sub s.current_page 1)) = s.current_page - 1 := by
      rw [to_gint_guint_sub_one _ (by omega)]; unfold to_guint; omega
    rw [e]
    obtain ⟨s', hs', -, -, hstate⟩ := update_inv doc hdoc s inv (s.current_page - 1) (by omega)
    exact ⟨s', hs', hstate.trans hst⟩

theorem sameJobs_key_press_black (s : EvViewPresentation) : SameJobs s (key_press_black s) := by
  unfold key_press_black
  split_ifs
  · exact sameJobs_set_normal s
  · exact sameJobs_set_black s

theorem sameJobs_key_press_white (s : EvViewPresentation) : SameJobs s (key_press_white s) := by
  unfold key_press_white
  split_ifs
  · exact sameJobs_set_normal s
  · exact sameJobs_set_white s

theorem bindings_not_normal (doc : EvDocument) (hdoc : doc.valid)
    (s : EvViewPresentation) (inv : WindowInv doc s)
    (hst : s.state ≠ EvPresentationState.EV_PRESENTATION_NORMAL) (key : GdkKey) :
    ∃ s', gtk_bindings_activate_event doc s key = some s' ∧ SameJobs s s' := by
  cases key <;>
    first
    | exact ⟨s, rfl, sameJobs_refl s⟩
    | exact next_page_not_normal doc s hst
    | exact previous_page_not_normal doc hdoc s inv hst

/-- The end of `ev_view_presentation_key_press_event`: the jobs are touched
only by `ev_view_presentation_change_page`, called in the state `Normal`. -/
theorem key_press_default_jobs (doc : EvDocument) (hdoc : doc.valid)
    (s : EvViewPresentation) (inv : WindowInv doc s) (key : GdkKey) :
    ∃ s', key_press_default doc s key = some s' ∧
      (SameJobs s s' ∨
        (s'.state = EvPresentationState.EV_PRESENTATION_NORMAL ∧
          (ev_view_presentation_set_normal s).state =
            EvPresentationState.EV_PRESENTATION_NORMAL ∧
          ∃ scroll, ev_view_presentation_change_page doc (ev_view_presentation_set_normal s)
            scroll = some s')) := by
  have inv' := windowInv_of_key doc s _ (window_key_set_normal s) inv
  have hn := set_normal_state s
  have hsame := sameJobs_set_normal s
  unfold key_press_default
  simp only
  by_cases hnum : doc.n_pages > 1 ∧ key = GdkKey.numeric
  · rw [if_pos hnum]
    exact ⟨_, rfl, Or.inl hsame⟩
  · rw [if_neg hnum]
    cases key with
    | forward =>
      obtain ⟨s', hs', h⟩ := next_page_normal doc hdoc _ inv' hn
      refine ⟨s', hs', ?_⟩
      rcases h with h | h
      · exact Or.inr ⟨h, hn, GtkScrollType.GTK_SCROLL_PAGE_FORWARD, hs'⟩
      · exact Or.inl (sameJobs_trans _ _ _ hsame h)
    | backward =>
      obtain ⟨s', hs', h⟩ := previous_page_normal doc hdoc _ inv' hn
      exact ⟨s', hs', Or.inr ⟨h, hn, GtkScrollType.GTK_SCROLL_PAGE_BACKWARD, hs'⟩⟩
    | _ => exact ⟨_, rfl, Or.inl hsame⟩

/-- C13, at the failing input: on ten pages, in the state `Black` at page 5, a
release of button 1 on a link to the first page calls
`ev_view_presentation_update_current_page`: the state stays `Black`, the
current page is 0, and three jobs are cancelled and two pushed, where the
claim has no job touched and the same page. -/
theorem link_release_in_black_changes_page :
    Reachable doc10 5 session10_5_black ∧
    session10_5_black.state = EvPresentationState.EV_PRESENTATION_BLACK ∧
    ev_view_presentation_get_link_at_location (some link_first_page) = some link_first_page ∧
    ev_view_presentation_button_release_event doc10 session10_5_black 1 (some link_first_page) =
      some session10_0_black ∧
    session10_0_black.state = EvPresentationState.EV_PRESENTATION_BLACK ∧
    session10_0_black.current_page ≠ session10_5_black.current_page ∧
    session10_0_black.sched =
      [SchedOp.push 4 1 EvJobPriority.EV_JOB_PRIORITY_LOW,
        SchedOp.push 3 0 EvJobPriority.EV_JOB_PRIORITY_URGENT,
        SchedOp.cancel 1, SchedOp.cancel 0, SchedOp.cancel 2] ++ session10_5_black.sched :=
  ⟨reachable_session10_5_black, rfl, by decide, by decide, rfl, by decide, by decide⟩

/-- The other input events outside the state `Normal`: for a session after
the initial population whose state is `Black`, `White` or `End`, every key
press, every scroll and every release of a button, but the release of button 1
on a supported link in the state `Black` or `White`, is handled, and no job is
pushed, cancelled or given a new priority and the current page does not change
while the state is not `Normal`: the handler leaves the current page, the
three jobs and the calls made to the scheduler as they are, or (a key bound to
`change_page` in the state `Black` or `White`) it sets the state to `Normal`
and then calls `ev_view_presentation_change_page`, and the state is `Normal`
afterwards. -/
theorem input_outside_normal (doc : EvDocument) (hdoc : doc.valid) (p : Nat)
    (s : EvViewPresentation) (hr : Reachable doc p s)
    (hst : s.state ≠ EvPresentationState.EV_PRESENTATION_NORMAL) :
    (∀ key, ∃ s', ev_view_presentation_key_press_event doc s key = some s' ∧
      (SameJobs s s' ∨
        (s'.state = EvPresentationState.EV_PRESENTATION_NORMAL ∧
          (ev_view_presentation_set_normal s).state =
            EvPresentationState.EV_PRESENTATION_NORMAL ∧
          ∃ scroll, ev_view_presentation_change_page doc (ev_view_presentation_set_normal s)
            scroll = some s'))) ∧
    (∀ direction state,
      ∃ s', ev_view_presentation_scroll_event doc s direction state = some s' ∧
        SameJobs s s') ∧
    (∀ button link,
      (button = 1 → s.state ≠ EvPresentationState.EV_PRESENTATION_END →
        ev_view_presentation_get_link_at_location link = none) →
      ∃ s', ev_view_presentation_button_release_event doc s button link = some s' ∧
        SameJobs s s') := by
  have inv := reachable_inv doc hdoc p s hr
  refine ⟨fun key => ?_, fun direction state => ?_, fun button link hlink => ?_⟩
  · unfold ev_view_presentation_key_press_event
    by_cases hend : s.state = EvPresentationState.EV_PRESENTATION_END
    · rw [if_pos hend]
      obtain ⟨s', hs', h⟩ := bindings_not_normal doc hdoc s inv hst key
      exact ⟨s', hs', Or.inl h⟩
    · rw [if_neg hend]
      cases key <;> simp only [if_neg hst] <;>
        first
        | exact ⟨_, rfl, Or.inl (sameJobs_key_press_black s)⟩
        | exact ⟨_, rfl, Or.inl (sameJobs_key_press_white s)⟩
        | exact key_press_default_jobs doc hdoc s inv _
  · unfold ev_view_presentation_scroll_event
    split_ifs
    · exact ⟨s, rfl, sameJobs_refl s⟩
    · cases direction <;>
        first
        | exact next_page_not_normal doc s hst
        | exact previous_page_not_normal doc hdoc s inv hst
  · unfold ev_view_presentation_button_release_event
    by_cases h1 : button = 1
    · rw [if_pos h1]
      by_cases hend : s.state = EvPresentationState.EV_PRESENTATION_END
      · rw [if_pos hend]
        exact ⟨s, rfl, sameJobs_refl s⟩
      · rw [if_neg hend, hlink h1 hend]
        exact next_page_not_normal doc s hst
    · rw [if_neg h1]
      split_ifs
      · exact previous_page_not_normal doc hdoc s inv hst
      · exact ⟨s, rfl, sameJobs_refl s⟩

/-- On ten pages in the state `Black` at page 5: a release of button 1 where
there is no link gives a session at page 5 with the same jobs. -/
theorem input_outside_normal_witness :
    ∃ s', ev_view_presentation_button_release_event doc10 session10_5_black 1 none = some s' ∧
      SameJobs session10_5_black s' :=
  (input_outside_normal doc10 doc10_valid 5 session10_5_black reachable_session10_5_black
    (by decide)).2.2 1 none (fun _ _ => rfl)

theorem MIN_eq_min (a b : ℚ) : MIN a b = min a b := by
  unfold MIN
  rcases lt_or_le a b with h | h
  · rw [if_pos h, min_eq_left h.le]
  · rw [if_neg (not_lt.mpr h), min_eq_right h]

/-- C15: over the rationals, for a viewport `(W, H)`, a rotation `r`, a page
of size `(w, h)` with `w, h > 0` and a cached scale `s`:
`ev_view_presentation_get_scale_for_page` returns and caches
`min (W / w') (H / h')`, where `(w', h')` is `(h, w)` when `r` is 90 or 270 and
`(w, h)` otherwise, when the page size of the document is not uniform or
`s = 0`; otherwise it returns `s` and leaves the cache as it is, whatever the
page. -/
theorem scale_for_page (document : EvDocumentSize) (pview : EvViewScale) (page : Nat)
    (w h : ℚ) (hsize : document.page_size page = (w, h)) (hw : 0 < w) (hh : 0 < h) :
    (document.is_page_size_uniform = false ∨ pview.scale = 0 →
      ev_view_presentation_get_scale_for_page document pview page =
        ({ pview with
            scale := min
              ((pview.monitor_width : ℚ) /
                (if pview.rotation = 90 ∨ pview.rotation = 270 then h else w))
              ((pview.monitor_height : ℚ) /
                (if pview.rotation = 90 ∨ pview.rotation = 270 then w else h)) },
          min
            ((pview.monitor_width : ℚ) /
              (if pview.rotation = 90 ∨ pview.rotation = 270 then h else w))
            ((pview.monitor_height : ℚ) /
              (if pview.rotation = 90 ∨ pview.rotation = 270 then w else h))) ∧
      0 < (if pview.rotation = 90 ∨ pview.rotation = 270 then h else w) ∧
      0 < (if pview.rotation = 90 ∨ pview.rotation = 270 then w else h)) ∧
    (document.is_page_size_uniform = true → pview.scale ≠ 0 →
      ∀ page', ev_view_presentation_get_scale_for_page document pview page' =
        (pview, pview.scale)) := by
  constructor
  · intro hc
    have hc' : ¬ document.is_page_size_uniform = true ∨ pview.scale = 0 := by
      rcases hc with hc | hc
      · left; rw [hc]; decide
      · right; exact hc
    refine ⟨?_, ?_, ?_⟩
    · unfold ev_view_presentation_get_scale_for_page
      rw [if_pos hc']
      simp only [hsize, MIN_eq_min]
    · split_ifs <;> assumption
    · split_ifs <;> assumption
  · intro hu hs page'
    unfold ev_view_presentation_get_scale_for_page
    rw [if_neg]
    rintro (hc | hc)
    · exact hc hu
    · exact hs hc

/-- C15, for pages of 400 by 300 turned by 90 on a viewport of 800 by 600 with
nothing cached: the scale is `min (800 / 300) (600 / 400) = 3 / 2`. -/
theorem scale_for_page_witness :
    ev_view_presentation_get_scale_for_page size400
        { rotation := 90, monitor_width := 800, monitor_height := 600, scale := 0 } 0 =
      ({ rotation := 90, monitor_width := 800, monitor_height := 600, scale := 3 / 2 }, 3 / 2) ∧
    ∀ page', ev_view_presentation_get_scale_for_page size400
        { rotation := 90, monitor_width := 800, monitor_height := 600, scale := 3 / 2 } page' =
      ({ rotation := 90, monitor_width := 800, monitor_height := 600, scale := 3 / 2 }, 3 / 2) := by
  have e : min ((800 : ℚ) / 300) ((600 : ℚ) / 400) = 3 / 2 := by norm_num
  have h1 := ((scale_for_page size400
    { rotation := 90, monitor_width := 800, monitor_height := 600, scale := 0 } 0 400 300 rfl
    (by norm_num) (by norm_num)).1 (Or.inr rfl)).1
  have h2 := (scale_for_page size400
    { rotation := 90, monitor_width := 800, monitor_height := 600, scale := 3 / 2 } 0 400 300 rfl
    (by norm_num) (by norm_num)).2 rfl (by norm_num)
  refine ⟨?_, h2⟩
  rw [h1]
  simp only [or_false, or_true, ↓reduceIte, Int.cast_ofNat, e]
  norm_num

theorem reuses_drawn (doc : EvDocument) (s s' : EvViewPresentation) (ops : List SchedOp) (t : Int)
    (j : EvJob) (h : Reuses doc s s' ops t) : Reuses doc s (drawn j s') ops t := by
  unfold drawn
  split_ifs
  · exact h
  · exact h

theorem reuses_same (doc : EvDocument) (hdoc : doc.valid) (s : EvViewPresentation)
    (inv : WindowInv doc s) :
    ∃ s' ops, ev_view_presentation_update_current_page doc s s.current_page = some s' ∧
      s'.sched = ops ++ s.sched ∧ Reuses doc s s' ops s.current_page := by
  obtain ⟨jc, hjc, heq⟩ := update_same doc hdoc s inv
  refine ⟨_, [], heq, by rw [drawn_sched]; rfl, reuses_drawn _ _ _ _ _ _ ?_⟩
  refine ⟨fun j hj => ?_, fun j hj hlo hhi => ?_, fun id pg pr hmem => ?_⟩
  · have hm := held_page_mem doc s inv j hj
    simp only [List.not_mem_nil, false_iff]
    omega
  · have hs := slot_of_page doc s inv j hj
    exact ⟨hs.1, hs.2.1, hs.2.2, fun pg pr => List.not_mem_nil _⟩
  · cases hmem

theorem reuses_minus_one (doc : EvDocument) (hdoc : doc.valid) (s : EvViewPresentation)
    (inv : WindowInv doc s) (t : Nat) (h : t + 1 = s.current_page) :
    ∃ s' ops, ev_view_presentation_update_current_page doc s t = some s' ∧
      s'.sched = ops ++ s.sched ∧ Reuses doc s s' ops t := by
  have h1 := hdoc.1
  have h2 := hdoc.2
  have hlt := inv.page_lt
  obtain ⟨jp, jc, a, hjp, hjc, heq⟩ := update_minus_one doc hdoc s inv t h
  refine ⟨_, SchedOp.update jc.id EvJobPriority.EV_JOB_PRIORITY_LOW ::
      (push_ops (new_job doc s.next_job_id ((t : Int) - 1)) EvJobPriority.EV_JOB_PRIORITY_HIGH ++
        SchedOp.update jp.id EvJobPriority.EV_JOB_PRIORITY_URGENT :: cancel_ops s.next_job),
    heq, by rw [drawn_sched]; simp, reuses_drawn _ _ _ _ _ _ ?_⟩
  clear heq
  refine ⟨fun j hj => ?_, fun j hj hlo hhi => ?_, fun id pg pr hmem => ?_⟩
  · have hm := held_page_mem doc s inv j hj
    simp only [List.mem_cons, List.mem_append, List.not_mem_nil, reduceCtorEq, false_or, or_false, cancel_not_mem_push_ops,
      cancel_prev_iff doc s inv j hj, cancel_curr_iff doc s inv j hj,
      cancel_next_iff doc s inv j hj]
    omega
  · have hm := held_page_mem doc s inv j hj
    have hs := slot_of_page doc s inv j hj
    have hi := inv.ids_lt j hj
    refine ⟨fun e => ?_, fun e => ?_, fun e => ?_, fun pg pr => ?_⟩
    · first
        | (exfalso; omega)
        | (rw [← hjp]; exact hs.1 (by omega))
        | (rw [← hjc]; exact hs.2.1 (by omega))
        | (rw [← hjn]; exact hs.2.2 (by omega))
    · first
        | (exfalso; omega)
        | (rw [← hjp]; exact hs.1 (by omega))
        | (rw [← hjc]; exact hs.2.1 (by omega))
        | (rw [← hjn]; exact hs.2.2 (by omega))
    · first
        | (exfalso; omega)
        | (rw [← hjp]; exact hs.1 (by omega))
        | (rw [← hjc]; exact hs.2.1 (by omega))
        | (rw [← hjn]; exact hs.2.2 (by omega))
    · simp only [List.mem_cons, List.mem_append, List.not_mem_nil, reduceCtorEq, false_or, or_false, push_not_mem_cancel_ops,
        push_mem_push_new_job, SchedOp.push.injEq]
      omega
  · simp only [List.mem_cons, List.mem_append, List.not_mem_nil, reduceCtorEq, false_or, or_false, push_not_mem_cancel_ops,
      push_mem_push_new_job, SchedOp.push.injEq] at hmem
    refine ⟨by omega, by omega, by omega, by omega, by omega, fun j hj => ?_⟩
    have hm := held_page_mem doc s inv j hj
    omega

theorem reuses_plus_one (doc : EvDocument) (hdoc : doc.valid) (s : EvViewPresentation)
    (inv : WindowInv doc s) (t : Nat) (h : t = s.current_page + 1) (ht : (t : Int) < doc.n_pages) :
    ∃ s' ops, ev_view_presentation_update_current_page doc s t = some s' ∧
      s'.sched = ops ++ s.sched ∧ Reuses doc s s' ops t := by
  have h1 := hdoc.1
  have h2 := hdoc.2
  have hlt := inv.page_lt
  obtain ⟨jc, jn, a, hjc, hjn, heq⟩ := update_plus_one doc hdoc s inv t h ht
  refine ⟨_, SchedOp.update jc.id EvJobPriority.EV_JOB_PRIORITY_LOW ::
      (push_ops (new_job doc s.next_job_id ((t : Int) + 1)) EvJobPriority.EV_JOB_PRIORITY_HIGH ++
        SchedOp.update jn.id EvJobPriority.EV_JOB_PRIORITY_URGENT :: cancel_ops s.prev_job),
    heq, by rw [drawn_sched]; simp, reuses_drawn _ _ _ _ _ _ ?_⟩
  clear heq
  refine ⟨fun j hj => ?_, fun j hj hlo hhi => ?_, fun id pg pr hmem => ?_⟩
  · have hm := held_page_mem doc s inv j hj
    simp only [List.mem_cons, List.mem_append, List.not_mem_nil, reduceCtorEq, false_or, or_false, cancel_not_mem_push_ops,
      cancel_prev_iff doc s inv j hj, cancel_curr_iff doc s inv j hj,
      cancel_next_iff doc s inv j hj]
    omega
  · have hm := held_page_mem doc s inv j hj
    have hs := slot_of_page doc s inv j hj
    have hi := inv.ids_lt j hj
    refine ⟨fun e => ?_, fun e => ?_, fun e => ?_, fun pg pr => ?_⟩
    · first
        | (exfalso; omega)
        | (rw [← hjp]; exact hs.1 (by omega))
        | (rw [← hjc]; exact hs.2.1 (by omega))
        | (rw [← hjn]; exact hs.2.2 (by omega))
    · first
        | (exfalso; omega)
        | (rw [← hjp]; exact hs.1 (by omega))
        | (rw [← hjc]; exact hs.2.1 (by omega))
        | (rw [← hjn]; exact hs.2.2 (by omega))
    · first
        | (exfalso; omega)
        | (rw [← hjp]; exact hs.1 (by omega))
        | (rw [← hjc]; exact hs.2.1 (by omega))
        | (rw [← hjn]; exact hs.2.2 (by omega))
    · simp only [List.mem_cons, List.mem_append, List.not_mem_nil, reduceCtorEq, false_or, or_false, push_not_mem_cancel_ops,
        push_mem_push_new_job, SchedOp.push.injEq]
      omega
  · simp only [List.mem_cons, List.mem_append, List.not_mem_nil, reduceCtorEq, false_or, or_false, push_not_mem_cancel_ops,
      push_mem_push_new_job, SchedOp.push.injEq] at hmem
    refine ⟨by omega, by omega, by omega, by omega, by omega, fun j hj => ?_⟩
    have hm := held_page_mem doc s inv j hj
    omega

theorem reuses_minus_two (doc : EvDocument) (hdoc : doc.valid) (s : EvViewPresentation)
    (inv : WindowInv doc s) (t : Nat) (h : t + 2 = s.current_page) :
    ∃ s' ops, ev_view_presentation_update_current_page doc s t = some s' ∧
      s'.sched = ops ++ s.sched ∧ Reuses doc s s' ops t := by
  have h1 := hdoc.1
  have h2 := hdoc.2
  have hlt := inv.page_lt
  obtain ⟨jp, a, hjp, heq⟩ := update_minus_two doc hdoc s inv t h
  refine ⟨_, SchedOp.update jp.id EvJobPriority.EV_JOB_PRIORITY_LOW ::
      (push_ops (new_job doc (s.next_job_id + 1) ((t : Int) - 1)) EvJobPriority.EV_JOB_PRIORITY_HIGH ++
        SchedOp.push s.next_job_id t EvJobPriority.EV_JOB_PRIORITY_URGENT ::
          (cancel_ops s.curr_job ++ cancel_ops s.next_job)),
    heq, by simp, ?_⟩
  clear heq
  refine ⟨fun j hj => ?_, fun j hj hlo hhi => ?_, fun id pg pr hmem => ?_⟩
  · have hm := held_page_mem doc s inv j hj
    simp only [List.mem_cons, List.mem_append, List.not_mem_nil, reduceCtorEq, false_or, or_false, cancel_not_mem_push_ops,
      cancel_prev_iff doc s inv j hj, cancel_curr_iff doc s inv j hj,
      cancel_next_iff doc s inv j hj]
    omega
  · have hm := held_page_mem doc s inv j hj
    have hs := slot_of_page doc s inv j hj
    have hi := inv.ids_lt j hj
    refine ⟨fun e => ?_, fun e => ?_, fun e => ?_, fun pg pr => ?_⟩
    · first
        | (exfalso; omega)
        | (rw [← hjp]; exact hs.1 (by omega))
        | (rw [← hjc]; exact hs.2.1 (by omega))
        | (rw [← hjn]; exact hs.2.2 (by omega))
    · first
        | (exfalso; omega)
        | (rw [← hjp]; exact hs.1 (by omega))
        | (rw [← hjc]; exact hs.2.1 (by omega))
        | (rw [← hjn]; exact hs.2.2 (by omega))
    · first
        | (exfalso; omega)
        | (rw [← hjp]; exact hs.1 (by omega))
        | (rw [← hjc]; exact hs.2.1 (by omega))
        | (rw [← hjn]; exact hs.2.2 (by omega))
    · simp only [List.mem_cons, List.mem_append, List.not_mem_nil, reduceCtorEq, false_or, or_false, push_not_mem_cancel_ops,
        push_mem_push_new_job, SchedOp.push.injEq]
      omega
  · simp only [List.mem_cons, List.mem_append, List.not_mem_nil, reduceCtorEq, false_or, or_false, push_not_mem_cancel_ops,
      push_mem_push_new_job, SchedOp.push.injEq] at hmem
    refine ⟨by omega, by omega, by omega, by omega, by omega, fun j hj => ?_⟩
    have hm := held_page_mem doc s inv j hj
    omega

theorem reuses_plus_two (doc : EvDocument) (hdoc : doc.valid) (s : EvViewPresentation)
    (inv : WindowInv doc s) (t : Nat) (h : t = s.current_page + 2) (ht : (t : Int) < doc.n_pages) :
    ∃ s' ops, ev_view_presentation_update_current_page doc s t = some s' ∧
      s'.sched = ops ++ s.sched ∧ Reuses doc s s' ops t := by
  have h1 := hdoc.1
  have h2 := hdoc.2
  have hlt := inv.page_lt
  obtain ⟨jn, a, hjn, heq⟩ := update_plus_two doc hdoc s inv t h ht
  refine ⟨_, SchedOp.update jn.id EvJobPriority.EV_JOB_PRIORITY_LOW ::
      (push_ops (new_job doc (s.next_job_id + 1) ((t : Int) + 1)) EvJobPriority.EV_JOB_PRIORITY_HIGH ++
        SchedOp.push s.next_job_id t EvJobPriority.EV_JOB_PRIORITY_URGENT ::
          (cancel_ops s.curr_job ++ cancel_ops s.prev_job)),
    heq, by simp, ?_⟩
  clear heq
  refine ⟨fun j hj => ?_, fun j hj hlo hhi => ?_, fun id pg pr hmem => ?_⟩
  · have hm := held_page_mem doc s inv j hj
    simp only [List.mem_cons, List.mem_append, List.not_mem_nil, reduceCtorEq, false_or, or_false, cancel_not_mem_push_ops,
      cancel_prev_iff doc s inv j hj, cancel_curr_iff doc s inv j hj,
      cancel_next_iff doc s inv j hj]
    omega
  · have hm := held_page_mem doc s inv j hj
    have hs := slot_of_page doc s inv j hj
    have hi := inv.ids_lt j hj
    refine ⟨fun e => ?_, fun e => ?_, fun e => ?_, fun pg pr => ?_⟩
    · first
        | (exfalso; omega)
        | (rw [← hjp]; exact hs.1 (by omega))
        | (rw [← hjc]; exact hs.2.1 (by omega))
        | (rw [← hjn]; exact hs.2.2 (by omega))
    · first
        | (exfalso; omega)
        | (rw [← hjp]; exact hs.1 (by omega))
        | (rw [← hjc]; exact hs.2.1 (by omega))
        | (rw [← hjn]; exact hs.2.2 (by omega))
    · first
        | (exfalso; omega)
        | (rw [← hjp]; exact hs.1 (by omega))
        | (rw [← hjc]; exact hs.2.1 (by omega))
        | (rw [← hjn]; exact hs.2.2 (by omega))
    · simp only [List.mem_cons, List.mem_append, List.not_mem_nil, reduceCtorEq, false_or, or_false, push_not_mem_cancel_ops,
        push_mem_push_new_job, SchedOp.push.injEq]
      omega
  · simp only [List.mem_cons, List.mem_append, List.not_mem_nil, reduceCtorEq, false_or, or_false, push_not_mem_cancel_ops,
      push_mem_push_new_job, SchedOp.push.injEq] at hmem
    refine ⟨by omega, by omega, by omega, by omega, by omega, fun j hj => ?_⟩
    have hm := held_page_mem doc s inv j hj
    omega

theorem reuses_forward (doc : EvDocument) (hdoc : doc.valid) (s : EvViewPresentation)
    (inv : WindowInv doc s) (t : Nat) (h : s.current_page + 3 ≤ t) (ht : (t : Int) < doc.n_pages) :
    ∃ s' ops, ev_view_presentation_update_current_page doc s t = some s' ∧
      s'.sched = ops ++ s.sched ∧ Reuses doc s s' ops t := by
  have h1 := hdoc.1
  have h2 := hdoc.2
  have hlt := inv.page_lt
  obtain ⟨a, heq⟩ := update_forward doc hdoc s inv t h ht
  refine ⟨_, SchedOp.push (bump (s.next_job_id + 1) (new_job doc (s.next_job_id + 1) ((t : Int) + 1)))
        ((t : Int) - 1) EvJobPriority.EV_JOB_PRIORITY_LOW ::
      (push_ops (new_job doc (s.next_job_id + 1) ((t : Int) + 1)) EvJobPriority.EV_JOB_PRIORITY_HIGH ++
        SchedOp.push s.next_job_id t EvJobPriority.EV_JOB_PRIORITY_URGENT ::
          (cancel_ops s.next_job ++ (cancel_ops s.curr_job ++ cancel_ops s.prev_job))),
    heq, by simp, ?_⟩
  clear heq
  have hb := bump_bounds (s.next_job_id + 1) (new_job doc (s.next_job_id + 1) ((t : Int) + 1))
  refine ⟨fun j hj => ?_, fun j hj hlo hhi => ?_, fun id pg pr hmem => ?_⟩
  · have hm := held_page_mem doc s inv j hj
    simp only [List.mem_cons, List.mem_append, List.not_mem_nil, reduceCtorEq, false_or, or_false, cancel_not_mem_push_ops,
      cancel_prev_iff doc s inv j hj, cancel_curr_iff doc s inv j hj,
      cancel_next_iff doc s inv j hj]
    omega
  · have hm := held_page_mem doc s inv j hj
    have hs := slot_of_page doc s inv j hj
    have hi := inv.ids_lt j hj
    refine ⟨fun e => ?_, fun e => ?_, fun e => ?_, fun pg pr => ?_⟩
    · first
        | (exfalso; omega)
        | (rw [← hjp]; exact hs.1 (by omega))
        | (rw [← hjc]; exact hs.2.1 (by omega))
        | (rw [← hjn]; exact hs.2.2 (by omega))
    · first
        | (exfalso; omega)
        | (rw [← hjp]; exact hs.1 (by omega))
        | (rw [← hjc]; exact hs.2.1 (by omega))
        | (rw [← hjn]; exact hs.2.2 (by omega))
    · first
        | (exfalso; omega)
        | (rw [← hjp]; exact hs.1 (by omega))
        | (rw [← hjc]; exact hs.2.1 (by omega))
        | (rw [← hjn]; exact hs.2.2 (by omega))
    · simp only [List.mem_cons, List.mem_append, List.not_mem_nil, reduceCtorEq, false_or, or_false, push_not_mem_cancel_ops,
        push_mem_push_new_job, SchedOp.push.injEq]
      omega
  · simp only [List.mem_cons, List.mem_append, List.not_mem_nil, reduceCtorEq, false_or, or_false, push_not_mem_cancel_ops,
      push_mem_push_new_job, SchedOp.push.injEq] at hmem
    refine ⟨by omega, by omega, by omega, by omega, by omega, fun j hj => ?_⟩
    have hm := held_page_mem doc s inv j hj
    omega

theorem reuses_backward (doc : EvDocument) (hdoc : doc.valid) (s : EvViewPresentation)
    (inv : WindowInv doc s) (t : Nat) (h : t + 3 ≤ s.current_page) :
    ∃ s' ops, ev_view_presentation_update_current_page doc s t = some s' ∧
      s'.sched = ops ++ s.sched ∧ Reuses doc s s' ops t := by
  have h1 := hdoc.1
  have h2 := hdoc.2
  have hlt := inv.page_lt
  obtain ⟨a, heq⟩ := update_backward doc hdoc s inv t h
  refine ⟨_, SchedOp.push (bump (s.next_job_id + 1) (new_job doc (s.next_job_id + 1) ((t : Int) - 1)))
        ((t : Int) + 1) EvJobPriority.EV_JOB_PRIORITY_LOW ::
      (push_ops (new_job doc (s.next_job_id + 1) ((t : Int) - 1)) EvJobPriority.EV_JOB_PRIORITY_HIGH ++
        SchedOp.push s.next_job_id t EvJobPriority.EV_JOB_PRIORITY_URGENT ::
          (cancel_ops s.next_job ++ (cancel_ops s.curr_job ++ cancel_ops s.prev_job))),
    heq, by simp, ?_⟩
  clear heq
  have hb := bump_bounds (s.next_job_id + 1) (new_job doc (s.next_job_id + 1) ((t : Int) - 1))
  refine ⟨fun j hj => ?_, fun j hj hlo hhi => ?_, fun id pg pr hmem => ?_⟩
  · have hm := held_page_mem doc s inv j hj
    simp only [List.mem_cons, List.mem_append, List.not_mem_nil, reduceCtorEq, false_or, or_false, cancel_not_mem_push_ops,
      cancel_prev_iff doc s inv j hj, cancel_curr_iff doc s inv j hj,
      cancel_next_iff doc s inv j hj]
    omega
  · have hm := held_page_mem doc s inv j hj
    have hs := slot_of_page doc s inv j hj
    have hi := inv.ids_lt j hj
    refine ⟨fun e => ?_, fun e => ?_, fun e => ?_, fun pg pr => ?_⟩
    · first
        | (exfalso; omega)
        | (rw [← hjp]; exact hs.1 (by omega))
        | (rw [← hjc]; exact hs.2.1 (by omega))
        | (rw [← hjn]; exact hs.2.2 (by omega))
    · first
        | (exfalso; omega)
        | (rw [← hjp]; exact hs.1 (by omega))
        | (rw [← hjc]; exact hs.2.1 (by omega))
        | (rw [← hjn]; exact hs.2.2 (by omega))
    · first
        | (exfalso; omega)
        | (rw [← hjp]; exact hs.1 (by omega))
        | (rw [← hjc]; exact hs.2.1 (by omega))
        | (rw [← hjn]; exact hs.2.2 (by omega))
    · simp only [List.mem_cons, List.mem_append, List.not_mem_nil, reduceCtorEq, false_or, or_false, push_not_mem_cancel_ops,
        push_mem_push_new_job, SchedOp.push.injEq]
      omega
  · simp only [List.mem_cons, List.mem_append, List.not_mem_nil, reduceCtorEq, false_or, or_false, push_not_mem_cancel_ops,
      push_mem_push_new_job, SchedOp.push.injEq] at hmem
    refine ⟨by omega, by omega, by omega, by omega, by omega, fun j hj => ?_⟩
    have hm := held_page_mem doc s inv j hj
    omega

/-- C16: for a session after the initial population and a page `t` of the
document, `ev_view_presentation_update_current_page` for `t` returns, and with
`ops` the calls it makes to the scheduler: a job held is cancelled if and only
if its page is not `t - 1`, `t` or `t + 1`; a job held for one of these pages
is the job of the slot of that page afterwards and no job is pushed for it
again; and every job pushed is a new job for one of these pages, a page of the
document for which no job was held. -/
theorem reconcile_reuses_jobs (doc : EvDocument) (hdoc : doc.valid) (p : Nat)
    (s : EvViewPresentation) (hr : Reachable doc p s) (t : Nat)
    (ht : (t : Int) < doc.n_pages) :
    ∃ s' ops, ev_view_presentation_update_current_page doc s t = some s' ∧
      s'.sched = ops ++ s.sched ∧
      (∀ j ∈ held s,
        (SchedOp.cancel j.id ∈ ops ↔ (j.page < (t : Int) - 1 ∨ (t : Int) + 1 < j.page))) ∧
      (∀ j ∈ held s, (t : Int) - 1 ≤ j.page → j.page ≤ (t : Int) + 1 →
        (j.page = (t : Int) - 1 → s'.prev_job = some j) ∧
        (j.page = (t : Int) → s'.curr_job = some j) ∧
        (j.page = (t : Int) + 1 → s'.next_job = some j) ∧
        ∀ pg pr, SchedOp.push j.id pg pr ∉ ops) ∧
      (∀ id pg pr, SchedOp.push id pg pr ∈ ops →
        (t : Int) - 1 ≤ pg ∧ pg ≤ (t : Int) + 1 ∧ 0 ≤ pg ∧ pg < doc.n_pages ∧
        s.next_job_id ≤ id ∧ ∀ j ∈ held s, j.page ≠ pg) := by
  have inv := reachable_inv doc hdoc p s hr
  have key : ∃ s' ops, ev_view_presentation_update_current_page doc s t = some s' ∧
      s'.sched = ops ++ s.sched ∧ Reuses doc s s' ops t := by
    by_cases h0 : t = s.current_page
    · subst h0
      exact reuses_same doc hdoc s inv
    by_cases h1 : t = s.current_page + 1
    · exact reuses_plus_one doc hdoc s inv t h1 ht
    by_cases h2 : t + 1 = s.current_page
    · exact reuses_minus_one doc hdoc s inv t h2
    by_cases h3 : t = s.current_page + 2
    · exact reuses_plus_two doc hdoc s inv t h3 ht
    by_cases h4 : t + 2 = s.current_page
    · exact reuses_minus_two doc hdoc s inv t h4
    by_cases h5 : s.current_page + 3 ≤ t
    · exact reuses_forward doc hdoc s inv t h5 ht
    · exact reuses_backward doc hdoc s inv t (by omega)
  obtain ⟨s', ops, e1, e2, e3⟩ := key
  exact ⟨s', ops, e1, e2, e3⟩

/-- C16, on ten pages from page 5 to page 3: of the jobs 2, 0 and 1 held for
the pages 4, 5 and 6, the jobs 0 and 1 are cancelled and the job 2 is in
`next_job`; the jobs pushed are for the pages 3 and 2. -/
theorem reconcile_reuses_jobs_witness :
    ∃ s' ops, ev_view_presentation_update_current_page doc10 session10_5 3 = some s' ∧
      s'.sched = ops ++ session10_5.sched ∧
      (∀ j ∈ held session10_5,
        (SchedOp.cancel j.id ∈ ops ↔
          (j.page < ((3 : Nat) : Int) - 1 ∨ ((3 : Nat) : Int) + 1 < j.page))) ∧
      (∀ j ∈ held session10_5,
        ((3 : Nat) : Int) - 1 ≤ j.page → j.page ≤ ((3 : Nat) : Int) + 1 →
        (j.page = ((3 : Nat) : Int) - 1 → s'.prev_job = some j) ∧
        (j.page = ((3 : Nat) : Int) → s'.curr_job = some j) ∧
        (j.page = ((3 : Nat) : Int) + 1 → s'.next_job = some j) ∧
        ∀ pg pr, SchedOp.push j.id pg pr ∉ ops) ∧
      (∀ id pg pr, SchedOp.push id pg pr ∈ ops →
        ((3 : Nat) : Int) - 1 ≤ pg ∧ pg ≤ ((3 : Nat) : Int) + 1 ∧ 0 ≤ pg ∧
        pg < doc10.n_pages ∧
        session10_5.next_job_id ≤ id ∧ ∀ j ∈ held session10_5, j.page ≠ pg) :=
  reconcile_reuses_jobs doc10 doc10_valid 5 session10_5 reachable_session10_5 3 (by decide)

/-- C17: for a session after the initial population at a page `c ≥ 1`,
`ev_view_presentation_update_current_page` for page `c - 1` returns, and:
it cancels the job of `next_job`, if there is one; the job that was in
`curr_job` is in `next_job` and is updated to `LOW`; the job that was in
`prev_job` is in `curr_job` and is updated to `URGENT`, with no push of a job
for that page; `prev_job` holds a new job for page `c - 2` pushed at `HIGH`
when `c ≥ 2` and is empty when `c = 1`; and the current page is `c - 1`. -/
theorem step_back_one (doc : EvDocument) (hdoc : doc.valid) (p : Nat) (s : EvViewPresentation)
    (hr : Reachable doc p s) (hc : 1 ≤ s.current_page) :
    ∃ jp jc s', s.prev_job = some jp ∧ s.curr_job = some jc ∧
      jp.page = (s.current_page : Int) - 1 ∧ jc.page = (s.current_page : Int) ∧
      ev_view_presentation_update_current_page doc s (s.current_page - 1) = some s' ∧
      s'.current_page = s.current_page - 1 ∧
      s'.next_job = some jc ∧ s'.curr_job = some jp ∧
      s'.prev_job = new_job doc s.next_job_id ((s.current_page : Int) - 2) ∧
      (2 ≤ s.current_page → s'.prev_job =
        some { id := s.next_job_id, page := (s.current_page : Int) - 2, surface := none }) ∧
      (s.current_page = 1 → s'.prev_job = none) ∧
      s'.sched = SchedOp.update jc.id EvJobPriority.EV_JOB_PRIORITY_LOW ::
        (push_ops s'.prev_job EvJobPriority.EV_JOB_PRIORITY_HIGH ++
          SchedOp.update jp.id EvJobPriority.EV_JOB_PRIORITY_URGENT ::
            (cancel_ops s.next_job ++ s.sched)) ∧
      window s' =
        (if 2 ≤ s.current_page then
            some ((s.current_page : Int) - 2, some EvJobPriority.EV_JOB_PRIORITY_HIGH)
          else none,
          some ((s.current_page : Int) - 1, some EvJobPriority.EV_JOB_PRIORITY_URGENT),
          some ((s.current_page : Int), some EvJobPriority.EV_JOB_PRIORITY_LOW)) := by
  have inv := reachable_inv doc hdoc p s hr
  have h1 := hdoc.1
  have h2 := hdoc.2
  have hlt := inv.page_lt
  obtain ⟨jp, jc, a, hjp, hjc, heq⟩ := update_minus_one doc hdoc s inv (s.current_page - 1) (by omega)
  obtain ⟨jp', hjp', hpp⟩ := inv.prev_some (by omega)
  obtain ⟨jc', hjc', hpc⟩ := inv.curr_some
  rw [hjp] at hjp'; rw [hjc] at hjc'
  cases hjp'; cases hjc'
  have c1 := (held_id_lt doc s inv).1 jp hjp
  have c2 := (held_id_lt doc s inv).2.1 jc hjc
  have c3 := (held_id_ne doc s inv).1 jp jc hjp hjc
  have e0 : ((s.current_page - 1 : Nat) : Int) - 1 = (s.current_page : Int) - 2 := by omega
  have e1 : ((s.current_page - 1 : Nat) : Int) = (s.current_page : Int) - 1 := by omega
  rw [e0] at heq
  obtain ⟨r, hr'⟩ := drawn_eq jp
    { s with
      current_page := s.current_page - 1
      animation := a
      next_job := some jc
      curr_job := some jp
      prev_job := new_job doc s.next_job_id ((s.current_page : Int) - 2)
      sched := SchedOp.update jc.id EvJobPriority.EV_JOB_PRIORITY_LOW ::
        (push_ops (new_job doc s.next_job_id ((s.current_page : Int) - 2))
            EvJobPriority.EV_JOB_PRIORITY_HIGH ++
          SchedOp.update jp.id EvJobPriority.EV_JOB_PRIORITY_URGENT ::
            (cancel_ops s.next_job ++ s.sched))
      next_job_id := bump s.next_job_id (new_job doc s.next_job_id ((s.current_page : Int) - 2)) }
  rw [hr'] at heq
  refine ⟨jp, jc, _, hjp, hjc, hpp, hpc, heq, rfl, rfl, rfl, rfl, ?_, ?_, rfl, ?_⟩
  · intro h
    exact new_job_inside doc _ _ (by omega) (by omega)
  · intro h
    exact new_job_outside doc _ _ (Or.inl (by omega))
  · by_cases h : 2 ≤ s.current_page
    · rw [if_pos h]
      simp only [window, slot_view, new_job_inside doc s.next_job_id _
        (show 0 ≤ (s.current_page : Int) - 2 by omega)
        (show (s.current_page : Int) - 2 < doc.n_pages by omega), push_ops, last_priority,
        Option.map_some', List.cons_append, List.nil_append, ↓reduceIte, hpp, hpc]
      rw [if_neg (by omega), if_neg (by omega), if_neg (by omega)]
    · rw [if_neg h]
      simp only [window, slot_view, new_job_outside doc s.next_job_id _
        (show (s.current_page : Int) - 2 < 0 ∨ (s.current_page : Int) - 2 ≥ doc.n_pages from
          Or.inl (by omega)), push_ops, last_priority,
        Option.map_some', Option.map_none', List.cons_append, List.nil_append, ↓reduceIte, hpp, hpc]
      rw [if_neg (by omega)]

/-- C17, on ten pages from page 5 to page 4: {previous: page 3 at `HIGH`,
current: page 4 at `URGENT`, next: page 5 at `LOW`}, and the job of page 6 is
cancelled. -/
theorem step_back_one_witness :
    ∃ s', ev_view_presentation_update_current_page doc10 session10_5 4 = some s' ∧
      s'.current_page = 4 ∧
      s'.next_job = session10_5.curr_job ∧ s'.curr_job = session10_5.prev_job ∧
      s'.prev_job = some { id := 3, page := 3, surface := none } ∧
      s'.sched = SchedOp.update 0 EvJobPriority.EV_JOB_PRIORITY_LOW ::
        SchedOp.push 3 3 EvJobPriority.EV_JOB_PRIORITY_HIGH ::
        SchedOp.update 2 EvJobPriority.EV_JOB_PRIORITY_URGENT ::
        SchedOp.cancel 1 :: session10_5.sched ∧
      window s' =
        (some (3, some EvJobPriority.EV_JOB_PRIORITY_HIGH),
          some (4, some EvJobPriority.EV_JOB_PRIORITY_URGENT),
          some (5, some EvJobPriority.EV_JOB_PRIORITY_LOW)) := by
  obtain ⟨jp, jc, s', hjp, hjc, -, -, hs', h1, h2, h3, -, h4, -, h5, h6⟩ :=
    step_back_one doc10 doc10_valid 5 session10_5 reachable_session10_5 (by decide)
  cases hjp
  cases hjc
  exact ⟨s', hs', h1, h2, h3, h4 (by decide), by rw [h5, h4 (by decide)]; rfl, h6⟩

/-- C19: for a session after the initial population at a page `c ≥ 2`,
`ev_view_presentation_update_current_page` for page `c - 2` returns, and: it
cancels the job of `next_job`, if there is one, and the job of `curr_job`; the
job that was in `prev_job` is in `next_job` and is updated to `LOW`, with no
push of a job for that page; `curr_job` holds a new job for page `c - 2`
pushed at `URGENT`; `prev_job` holds a new job for page `c - 3` pushed at
`HIGH` when `c ≥ 3` and is empty when `c = 2`; and the current page is
`c - 2`. -/
theorem step_back_two (doc : EvDocument) (hdoc : doc.valid) (p : Nat) (s : EvViewPresentation)
    (hr : Reachable doc p s) (hc : 2 ≤ s.current_page) :
    ∃ jp jc s', s.prev_job = some jp ∧ s.curr_job = some jc ∧
      jp.page = (s.current_page : Int) - 1 ∧ jc.page = (s.current_page : Int) ∧
      ev_view_presentation_update_current_page doc s (s.current_page - 2) = some s' ∧
      s'.current_page = s.current_page - 2 ∧
      s'.next_job = some jp ∧
      s'.curr_job =
        some { id := s.next_job_id, page := (s.current_page : Int) - 2, surface := none } ∧
      s'.prev_job = new_job doc (s.next_job_id + 1) ((s.current_page : Int) - 3) ∧
      (3 ≤ s.current_page → s'.prev_job =
        some { id := s.next_job_id + 1, page := (s.current_page : Int) - 3, surface := none }) ∧
      (s.current_page = 2 → s'.prev_job = none) ∧
      s'.sched = SchedOp.update jp.id EvJobPriority.EV_JOB_PRIORITY_LOW ::
        (push_ops s'.prev_job EvJobPriority.EV_JOB_PRIORITY_HIGH ++
          SchedOp.push s.next_job_id ((s.current_page : Int) - 2)
              EvJobPriority.EV_JOB_PRIORITY_URGENT ::
            SchedOp.cancel jc.id :: (cancel_ops s.next_job ++ s.sched)) ∧
      window s' =
        (if 3 ≤ s.current_page then
            some ((s.current_page : Int) - 3, some EvJobPriority.EV_JOB_PRIORITY_HIGH)
          else none,
          some ((s.current_page : Int) - 2, some EvJobPriority.EV_JOB_PRIORITY_URGENT),
          some ((s.current_page : Int) - 1, some EvJobPriority.EV_JOB_PRIORITY_LOW)) := by
  have inv := reachable_inv doc hdoc p s hr
  have h1 := hdoc.1
  have h2 := hdoc.2
  have hlt := inv.page_lt
  obtain ⟨jp, a, hjp, heq⟩ := update_minus_two doc hdoc s inv (s.current_page - 2) (by omega)
  obtain ⟨jp', hjp', hpp⟩ := inv.prev_some (by omega)
  obtain ⟨jc, hjc, hpc⟩ := inv.curr_some
  rw [hjp] at hjp'
  cases hjp'
  have c1 := (held_id_lt doc s inv).1 jp hjp
  have e0 : ((s.current_page - 2 : Nat) : Int) - 1 = (s.current_page : Int) - 3 := by omega
  have e1 : ((s.current_page - 2 : Nat) : Int) = (s.current_page : Int) - 2 := by omega
  rw [e0, e1, hjc] at heq
  refine ⟨jp, jc, _, hjp, hjc, hpp, hpc, heq, rfl, rfl, rfl, rfl, ?_, ?_, rfl, ?_⟩
  · intro h
    exact new_job_inside doc _ _ (by omega) (by omega)
  · intro h
    exact new_job_outside doc _ _ (Or.inl (by omega))
  · by_cases h : 3 ≤ s.current_page
    · rw [if_pos h]
      simp only [window, slot_view, new_job_inside doc (s.next_job_id + 1) _
        (show 0 ≤ (s.current_page : Int) - 3 by omega)
        (show (s.current_page : Int) - 3 < doc.n_pages by omega), push_ops, last_priority,
        cancel_ops, Option.map_some', List.cons_append, List.nil_append, ↓reduceIte, hpp]
      rw [if_neg (by omega), if_neg (by omega), if_neg (by omega)]
    · rw [if_neg h]
      simp only [window, slot_view, new_job_outside doc (s.next_job_id + 1) _
        (show (s.current_page : Int) - 3 < 0 ∨ (s.current_page : Int) - 3 ≥ doc.n_pages from
          Or.inl (by omega)), push_ops, last_priority, cancel_ops,
        Option.map_some', Option.map_none', List.cons_append, List.nil_append, ↓reduceIte, hpp]
      rw [if_neg (by omega)]

/-- C19, on ten pages from page 5 to page 3: {previous: page 2 at `HIGH`,
current: page 3 at `URGENT`, next: page 4 at `LOW`}; the jobs of the pages 6
and 5 are cancelled. -/
theorem step_back_two_witness :
    ∃ s', ev_view_presentation_update_current_page doc10 session10_5 3 = some s' ∧
      s'.current_page = 3 ∧
      s'.next_job = session10_5.prev_job ∧
      s'.curr_job = some { id := 3, page := 3, surface := none } ∧
      s'.prev_job = some { id := 4, page := 2, surface := none } ∧
      s'.sched = SchedOp.update 2 EvJobPriority.EV_JOB_PRIORITY_LOW ::
        SchedOp.push 4 2 EvJobPriority.EV_JOB_PRIORITY_HIGH ::
        SchedOp.push 3 3 EvJobPriority.EV_JOB_PRIORITY_URGENT ::
        SchedOp.cancel 0 :: SchedOp.cancel 1 :: session10_5.sched ∧
      window s' =
        (some (2, some EvJobPriority.EV_JOB_PRIORITY_HIGH),
          some (3, some EvJobPriority.EV_JOB_PRIORITY_URGENT),
          some (4, some EvJobPriority.EV_JOB_PRIORITY_LOW)) := by
  obtain ⟨jp, jc, s', hjp, hjc, -, -, hs', h1, h2, h3, -, h4, -, h5, h6⟩ :=
    step_back_two doc10 doc10_valid 5 session10_5 reachable_session10_5 (by decide)
  cases hjp
  cases hjc
  exact ⟨s', hs', h1, h2, h3, h4 (by decide), by rw [h5, h4 (by decide)]; rfl, h6⟩

/-- C20: for a session after the initial population at page `c` and a page
`t` of the document with `|t - c| ≥ 3`,
`ev_view_presentation_update_current_page` for `t` returns, cancels every job
held and pushes new ones: a job for `t` at `URGENT` in `curr_job`; when
`t > c`, a job for `t + 1` at `HIGH` in `next_job` (empty when `t + 1 ≥ n`) and
a job for `t - 1` at `LOW` in `prev_job`; when `t < c`, a job for `t - 1` at
`HIGH` in `prev_job` (empty when `t = 0`) and a job for `t + 1` at `LOW` in
`next_job`.  No job held before is held or outstanding after. -/
theorem far_jump_replaces_window (doc : EvDocument) (hdoc : doc.valid) (p : Nat)
    (s : EvViewPresentation) (hr : Reachable doc p s) (t : Nat) (ht : (t : Int) < doc.n_pages)
    (hfar : s.current_page + 3 ≤ t ∨ t + 3 ≤ s.current_page) :
    ∃ s', ev_view_presentation_update_current_page doc s t = some s' ∧
      s'.current_page = t ∧
      s'.curr_job = some { id := s.next_job_id, page := t, surface := none } ∧
      (s.current_page + 3 ≤ t →
        s'.sched =
          push_ops s'.prev_job EvJobPriority.EV_JOB_PRIORITY_LOW ++
            (push_ops s'.next_job EvJobPriority.EV_JOB_PRIORITY_HIGH ++
              SchedOp.push s.next_job_id t EvJobPriority.EV_JOB_PRIORITY_URGENT ::
                (cancel_ops s.next_job ++ (cancel_ops s.curr_job ++
                  (cancel_ops s.prev_job ++ s.sched)))) ∧
        window s' =
          (some ((t : Int) - 1, some EvJobPriority.EV_JOB_PRIORITY_LOW),
            some ((t : Int), some EvJobPriority.EV_JOB_PRIORITY_URGENT),
            if (t : Int) + 1 < doc.n_pages then
              some ((t : Int) + 1, some EvJobPriority.EV_JOB_PRIORITY_HIGH)
            else none)) ∧
      (t + 3 ≤ s.current_page →
        s'.sched =
          push_ops s'.next_job EvJobPriority.EV_JOB_PRIORITY_LOW ++
            (push_ops s'.prev_job EvJobPriority.EV_JOB_PRIORITY_HIGH ++
              SchedOp.push s.next_job_id t EvJobPriority.EV_JOB_PRIORITY_URGENT ::
                (cancel_ops s.next_job ++ (cancel_ops s.curr_job ++
                  (cancel_ops s.prev_job ++ s.sched)))) ∧
        window s' =
          (if 1 ≤ t then some ((t : Int) - 1, some EvJobPriority.EV_JOB_PRIORITY_HIGH)
            else none,
            some ((t : Int), some EvJobPriority.EV_JOB_PRIORITY_URGENT),
            some ((t : Int) + 1, some EvJobPriority.EV_JOB_PRIORITY_LOW))) ∧
      (∀ j ∈ held s, SchedOp.cancel j.id ∈ s'.sched ∧ j.id ∉ outstanding s'.sched ∧
        ∀ j' ∈ held s', j'.id ≠ j.id) := by
  have inv := reachable_inv doc hdoc p s hr
  have h1 := hdoc.1
  have h2 := hdoc.2
  have hlt := inv.page_lt
  have hids := inv.ids_lt
  have key : ∀ s', ev_view_presentation_update_current_page doc s t = some s' →
      (∀ j ∈ held s, SchedOp.cancel j.id ∈ s'.sched) →
      (∀ j' ∈ held s', s.next_job_id ≤ j'.id) →
      ∀ j ∈ held s, SchedOp.cancel j.id ∈ s'.sched ∧ j.id ∉ outstanding s'.sched ∧
        ∀ j' ∈ held s', j'.id ≠ j.id := by
    intro s' hs' hcan hfresh j hj
    have inv' := reachable_inv doc hdoc p s' (Reachable.step s s' (Event.update_current_page t) hr hs')
    have hne : ∀ j' ∈ held s', j'.id ≠ j.id := by
      intro j' hj'
      have := hfresh j' hj'
      have := hids j hj
      omega
    refine ⟨hcan j hj, ?_, hne⟩
    intro hout
    obtain ⟨j', hj', e⟩ := List.mem_map.mp ((inv'.outstanding_iff j.id).mp hout)
    exact hne j' hj' e
  have hcancel : ∀ j ∈ held s,
      SchedOp.cancel j.id ∈ cancel_ops s.next_job ++ (cancel_ops s.curr_job ++
        (cancel_ops s.prev_job ++ s.sched)) := by
    intro j hj
    rw [mem_held_iff] at hj
    simp only [List.mem_append]
    rcases hj with hj | hj | hj
    · exact Or.inr (Or.inr (Or.inl (cancel_mem_cancel_ops _ j hj)))
    · exact Or.inr (Or.inl (cancel_mem_cancel_ops _ j hj))
    · exact Or.inl (cancel_mem_cancel_ops _ j hj)
  rcases hfar with hf | hb
  · obtain ⟨a, heq⟩ := update_forward doc hdoc s inv t hf ht
    refine ⟨_, heq, rfl, rfl, ?_, fun h => absurd h (by omega), ?_⟩
    · intro _
      constructor
      · simp only [push_ops, List.cons_append, List.nil_append]
      · by_cases hn : (t : Int) + 1 < doc.n_pages
        · rw [if_pos hn]
          simp only [window, slot_view, new_job_inside doc (s.next_job_id + 1) _
            (show 0 ≤ (t : Int) + 1 by omega) hn, bump, push_ops, last_priority,
            Option.map_some', List.cons_append, List.nil_append, ↓reduceIte]
          rw [if_neg (by omega), if_neg (by omega), if_neg (by omega)]
        · rw [if_neg hn]
          simp only [window, slot_view, new_job_outside doc (s.next_job_id + 1) _
            (show (t : Int) + 1 < 0 ∨ (t : Int) + 1 ≥ doc.n_pages from Or.inr (by omega)),
            bump, push_ops, last_priority, Option.map_some', Option.map_none',
            List.cons_append, List.nil_append, ↓reduceIte]
          rw [if_neg (by omega)]
    · apply key _ heq
      · intro j hj
        exact List.mem_cons_of_mem _
          (List.mem_append_right _ (List.mem_cons_of_mem _ (hcancel j hj)))
      · intro j' hj'
        rw [mem_held_iff] at hj'
        simp only at hj'
        rcases hj' with hj' | hj' | hj'
        · cases hj'
          cases new_job doc (s.next_job_id + 1) ((t : Int) + 1) <;> simp only [bump] <;> omega
        · cases hj'
          exact le_refl _
        · unfold new_job at hj'
          split_ifs at hj'
          cases hj'
          simp only
          omega
  · obtain ⟨a, heq⟩ := update_backward doc hdoc s inv t hb
    refine ⟨_, heq, rfl, rfl, fun h => absurd h (by omega), ?_, ?_⟩
    · intro _
      constructor
      · simp only [push_ops, List.cons_append, List.nil_append]
      · by_cases hn : 1 ≤ t
        · rw [if_pos hn]
          simp only [window, slot_view, new_job_inside doc (s.next_job_id + 1) _
            (show 0 ≤ (t : Int) - 1 by omega) (show (t : Int) - 1 < doc.n_pages by omega),
            bump, push_ops, last_priority,
            Option.map_some', List.cons_append, List.nil_append, ↓reduceIte]
          rw [if_neg (by omega), if_neg (by omega), if_neg (by omega)]
        · rw [if_neg hn]
          simp only [window, slot_view, new_job_outside doc (s.next_job_id + 1) _
            (show (t : Int) - 1 < 0 ∨ (t : Int) - 1 ≥ doc.n_pages from Or.inl (by omega)),
            bump, push_ops, last_priority, Option.map_some', Option.map_none',
            List.cons_append, List.nil_append, ↓reduceIte]
          rw [if_neg (by omega)]
    · apply key _ heq
      · intro j hj
        exact List.mem_cons_of_mem _
          (List.mem_append_right _ (List.mem_cons_of_mem _ (hcancel j hj)))
      · intro j' hj'
        rw [mem_held_iff] at hj'
        simp only at hj'
        rcases hj' with hj' | hj' | hj'
        · unfold new_job at hj'
          split_ifs at hj'
          cases hj'
          simp only
          omega
        · cases hj'
          exact le_refl _
        · cases hj'
          cases new_job doc (s.next_job_id + 1) ((t : Int) - 1) <;> simp only [bump] <;> omega

/-- C20, on ten pages from page 5 to page 0: {previous: empty, current: page 0
at `URGENT`, next: page 1 at `LOW`}; the jobs 2, 0 and 1 are cancelled. -/
theorem far_jump_replaces_window_witness :
    ∃ s', ev_view_presentation_update_current_page doc10 session10_5 0 = some s' ∧
      s'.current_page = 0 ∧
      s'.curr_job = some { id := 3, page := 0, surface := none } ∧
      window s' =
        (none, some (0, some EvJobPriority.EV_JOB_PRIORITY_URGENT),
          some (1, some EvJobPriority.EV_JOB_PRIORITY_LOW)) ∧
      (∀ j ∈ held session10_5, SchedOp.cancel j.id ∈ s'.sched ∧
        j.id ∉ outstanding s'.sched ∧ ∀ j' ∈ held s', j'.id ≠ j.id) := by
  obtain ⟨s', hs', h1, h2, -, h3, h4⟩ :=
    far_jump_replaces_window doc10 doc10_valid 5 session10_5 reachable_session10_5 0
      (by decide) (Or.inr (by decide))
  exact ⟨s', hs', h1, h2, (h3 (by decide)).2, h4⟩

/-! ## The reflection -/

theorem rho_page_rho_page (doc : EvDocument) (page : Int) :
    rho_page doc (rho_page doc page) = page := by
  unfold rho_page; omega

theorem outstanding_map_rho (doc : EvDocument) (l : List SchedOp) :
    outstanding (l.map (rho_op doc)) = outstanding l := by
  induction l with
  | nil => rfl
  | cons op rest ih => cases op <;> simp only [List.map_cons, rho_op, outstanding, ih]

theorem last_priority_map_rho (doc : EvDocument) (i : Nat) (l : List SchedOp) :
    last_priority i (l.map (rho_op doc)) = last_priority i l := by
  induction l with
  | nil => rfl
  | cons op rest ih => cases op <;> simp only [List.map_cons, rho_op, last_priority, ih]

theorem last_priority_filter (i : Nat) (l : List SchedOp) :
    last_priority i (l.filter not_cancel) = last_priority i l := by
  induction l with
  | nil => rfl
  | cons op rest ih =>
    cases op <;> simp only [List.filter_cons, not_cancel, ↓reduceIte, last_priority, ih,
      Bool.false_eq_true]

theorem filter_not_cancel_map_rho (doc : EvDocument) (l : List SchedOp) :
    (l.map (rho_op doc)).filter not_cancel = (l.filter not_cancel).map (rho_op doc) := by
  induction l with
  | nil => rfl
  | cons op rest ih =>
    cases op <;> simp only [List.map_cons, List.filter_cons, rho_op, not_cancel, ↓reduceIte, ih,
      Bool.false_eq_true]

theorem priority_updates_filter (s : EvViewPresentation) (l : List SchedOp) :
    priority_updates s (l.filter not_cancel) = priority_updates s l := by
  induction l with
  | nil => rfl
  | cons op rest ih =>
    cases op <;> simp only [List.filter_cons, not_cancel, ↓reduceIte, priority_updates, ih,
      Bool.false_eq_true]

theorem cancel_mem_map_rho (doc : EvDocument) (i : Nat) (l : List SchedOp) :
    SchedOp.cancel i ∈ l.map (rho_op doc) ↔ SchedOp.cancel i ∈ l := by
  induction l with
  | nil => simp
  | cons op rest ih =>
    cases op <;> simp only [List.map_cons, List.mem_cons, rho_op, reduceCtorEq, false_or, ih]

theorem mirrorOps_map (doc : EvDocument) (ops : List SchedOp) :
    MirrorOps doc ops (ops.map (rho_op doc)) :=
  ⟨fun i => cancel_mem_map_rho doc i ops, filter_not_cancel_map_rho doc ops⟩

theorem held_rho (doc : EvDocument) (s : EvViewPresentation) :
    held (rho doc s) =
      (s.next_job.toList ++ s.curr_job.toList ++ s.prev_job.toList).map (rho_job doc) := by
  unfold held rho
  cases s.prev_job <;> cases s.curr_job <;> cases s.next_job <;> rfl

theorem mem_held_rho (doc : EvDocument) (s : EvViewPresentation) (j : EvJob) :
    j ∈ held (rho doc s) ↔ ∃ j0 ∈ held s, rho_job doc j0 = j := by
  rw [held_rho]
  simp only [List.mem_map, held, List.mem_append]
  constructor
  · rintro ⟨j0, (h | h) | h, e⟩
    · exact ⟨j0, Or.inr h, e⟩
    · exact ⟨j0, Or.inl (Or.inr h), e⟩
    · exact ⟨j0, Or.inl (Or.inl h), e⟩
  · rintro ⟨j0, (h | h) | h, e⟩
    · exact ⟨j0, Or.inr h, e⟩
    · exact ⟨j0, Or.inl (Or.inr h), e⟩
    · exact ⟨j0, Or.inl (Or.inl h), e⟩

theorem held_rho_ids_perm (doc : EvDocument) (s : EvViewPresentation) :
    ((held (rho doc s)).map EvJob.id).Perm ((held s).map EvJob.id) := by
  rw [held_rho]
  unfold held
  cases s.prev_job <;> cases s.curr_job <;> cases s.next_job <;>
    simp only [Option.toList, List.nil_append, List.append_nil, List.map_cons, List.map_nil,
      List.cons_append, rho_job] <;>
    first
    | exact List.Perm.refl _
    | exact List.Perm.swap _ _ _
    | exact (List.reverse_perm _).symm.trans (by rfl)

theorem rho_page_cast (doc : EvDocument) (c : Nat) (h : (c : Int) < doc.n_pages) :
    (((rho_page doc c).toNat : Nat) : Int) = rho_page doc c := by
  unfold rho_page; omega

/-- The reflection of a session with the invariant has the invariant. -/
theorem windowInv_rho (doc : EvDocument) (s : EvViewPresentation) (inv : WindowInv doc s) :
    WindowInv doc (rho doc s) := by
  have hc := inv.page_lt
  have hcast := rho_page_cast doc s.current_page hc
  obtain ⟨hpp, hpc, hpn⟩ := held_page_of_inv doc s inv
  have hmem : ∀ i, i ∈ (held (rho doc s)).map EvJob.id ↔ i ∈ (held s).map EvJob.id :=
    fun i => (held_rho_ids_perm doc s).mem_iff
  refine
    { page_lt := ?_, curr := ?_, prev := ?_, next := ?_, ids_lt := ?_, ids_nodup := ?_,
      outstanding_iff := ?_, outstanding_nodup := ?_, prio_curr := ?_, prio_prev := ?_,
      prio_next := ?_ }
  · show (((rho_page doc s.current_page).toNat : Nat) : Int) < doc.n_pages
    rw [hcast]; unfold rho_page; omega
  · show (s.curr_job.map (rho_job doc)).map EvJob.page =
      some (((rho_page doc s.current_page).toNat : Nat) : Int)
    obtain ⟨j, hj, hp⟩ := inv.curr_some
    rw [hcast, hj]
    simp only [Option.map_some', rho_job, hp]
  · show (s.next_job.map (rho_job doc)).map EvJob.page =
      if 1 ≤ (rho_page doc s.current_page).toNat then
        some ((((rho_page doc s.current_page).toNat : Nat) : Int) - 1) else none
    rw [hcast]
    by_cases h : (s.current_page : Int) + 1 < doc.n_pages
    · obtain ⟨j, hj, hp⟩ := inv.next_some h
      rw [hj, if_pos (by unfold rho_page; omega)]
      simp only [Option.map_some', rho_job, hp, Option.some.injEq]
      unfold rho_page; omega
    · rw [inv.next_none h, if_neg (by unfold rho_page; omega)]
      rfl
  · show (s.prev_job.map (rho_job doc)).map EvJob.page =
      if ((((rho_page doc s.current_page).toNat : Nat) : Int)) + 1 < doc.n_pages then
        some ((((rho_page doc s.current_page).toNat : Nat) : Int) + 1) else none
    rw [hcast]
    by_cases h : 1 ≤ s.current_page
    · obtain ⟨j, hj, hp⟩ := inv.prev_some h
      rw [hj, if_pos (by unfold rho_page; omega)]
      simp only [Option.map_some', rho_job, hp, Option.some.injEq]
      unfold rho_page; omega
    · rw [inv.prev_none (by omega), if_neg (by unfold rho_page; omega)]
      rfl
  · intro j hj
    obtain ⟨j0, hj0, rfl⟩ := (mem_held_rho doc s j).mp hj
    exact inv.ids_lt j0 hj0
  · exact (held_rho_ids_perm doc s).nodup_iff.mpr inv.ids_nodup
  · intro i
    show i ∈ outstanding (s.sched.map (rho_op doc)) ↔ _
    rw [outstanding_map_rho, hmem]
    exact inv.outstanding_iff i
  · show (outstanding (s.sched.map (rho_op doc))).Nodup
    rw [outstanding_map_rho]
    exact inv.outstanding_nodup
  · intro j hj
    show last_priority j.id (s.sched.map (rho_op doc)) = _
    rw [last_priority_map_rho]
    have hj' : s.curr_job.map (rho_job doc) = some j := hj
    cases hcj : s.curr_job with
    | none => rw [hcj] at hj'; cases hj'
    | some j0 =>
      rw [hcj] at hj'
      cases hj'
      exact inv.prio_curr j0 hcj
  · intro j hj
    show last_priority j.id (s.sched.map (rho_op doc)) = _ ∨
      last_priority j.id (s.sched.map (rho_op doc)) = _
    rw [last_priority_map_rho]
    have hj' : s.next_job.map (rho_job doc) = some j := hj
    cases hcj : s.next_job with
    | none => rw [hcj] at hj'; cases hj'
    | some j0 =>
      rw [hcj] at hj'
      cases hj'
      exact inv.prio_next j0 hcj
  · intro j hj
    show last_priority j.id (s.sched.map (rho_op doc)) = _ ∨
      last_priority j.id (s.sched.map (rho_op doc)) = _
    rw [last_priority_map_rho]
    have hj' : s.prev_job.map (rho_job doc) = some j := hj
    cases hcj : s.prev_job with
    | none => rw [hcj] at hj'; cases hj'
    | some j0 =>
      rw [hcj] at hj'
      cases hj'
      exact inv.prio_prev j0 hcj

theorem find_id_eq_some (l : List EvJob) (hnd : (l.map EvJob.id).Nodup) (i : Nat) (j : EvJob)
    (hj : j ∈ l) (hi : j.id = i) : l.find? (fun j => j.id = i) = some j := by
  induction l with
  | nil => cases hj
  | cons a rest ih =>
    simp only [List.map_cons, List.nodup_cons, List.mem_map, not_exists, not_and] at hnd
    rcases List.mem_cons.mp hj with e | e
    · subst e
      simp only [List.find?_cons, hi, decide_True]
    · have hne : a.id ≠ i := by
        intro h
        exact hnd.1 j e (hi.trans h.symm)
      simp only [List.find?_cons, hne, decide_False]
      exact ih hnd.2 e

theorem page_of_eq_some (doc : EvDocument) (s : EvViewPresentation) (inv : WindowInv doc s)
    (j : EvJob) (hj : j ∈ held s) : page_of s j.id = some j.page := by
  unfold page_of
  rw [find_id_eq_some (held s) inv.ids_nodup j.id j hj rfl]
  rfl

theorem page_of_eq_none (s : EvViewPresentation) (i : Nat) (h : ∀ j ∈ held s, j.id ≠ i) :
    page_of s i = none := by
  unfold page_of
  rw [List.find?_eq_none.mpr (fun j hj => by simpa using h j hj)]
  rfl

theorem page_of_rho (doc : EvDocument) (s : EvViewPresentation) (inv : WindowInv doc s)
    (i : Nat) : page_of (rho doc s) i = (page_of s i).map (rho_page doc) := by
  by_cases h : ∃ j ∈ held s, j.id = i
  · obtain ⟨j, hj, rfl⟩ := h
    rw [page_of_eq_some doc s inv j hj]
    have hj' : rho_job doc j ∈ held (rho doc s) := (mem_held_rho doc s _).mpr ⟨j, hj, rfl⟩
    exact page_of_eq_some doc (rho doc s) (windowInv_rho doc s inv) (rho_job doc j) hj'
  · have h' : ∀ j ∈ held s, j.id ≠ i := fun j hj e => h ⟨j, hj, e⟩
    rw [page_of_eq_none s i h', page_of_eq_none]
    · rfl
    · intro j hj
      obtain ⟨j0, hj0, rfl⟩ := (mem_held_rho doc s j).mp hj
      exact h' j0 hj0

theorem priority_updates_map_rho (doc : EvDocument) (s : EvViewPresentation)
    (inv : WindowInv doc s) (l : List SchedOp) :
    priority_updates (rho doc s) (l.map (rho_op doc)) =
      (priority_updates s l).map (rho_update doc) := by
  induction l with
  | nil => rfl
  | cons op rest ih =>
    cases op <;>
      simp only [List.map_cons, rho_op, priority_updates, ih, page_of_rho doc s inv, rho_update]

theorem new_ops_eq (s s' : EvViewPresentation) (ops : List SchedOp)
    (h : s'.sched = ops ++ s.sched) : new_ops s s' = ops := by
  unfold new_ops
  rw [h]
  simp

/-- What reflected calls and reflected slots give: the reflected window, the
reflected set of cancelled pages and the reflected list of priority
updates. -/
theorem mirror_observables (doc : EvDocument) (s s1 s2 : EvViewPresentation)
    (inv : WindowInv doc s) (ops1 ops2 : List SchedOp)
    (h1 : s1.sched = ops1 ++ s.sched) (h2 : s2.sched = ops2 ++ (rho doc s).sched)
    (hm : MirrorOps doc ops1 ops2)
    (hp : s2.prev_job = s1.next_job.map (rho_job doc))
    (hc : s2.curr_job = s1.curr_job.map (rho_job doc))
    (hn : s2.next_job = s1.prev_job.map (rho_job doc)) :
    window s2 = rho_window doc (window s1) ∧
    (∀ pg, pg ∈ cancelled_pages (rho doc s) (new_ops (rho doc s) s2) ↔
      rho_page doc pg ∈ cancelled_pages s (new_ops s s1)) ∧
    priority_updates (rho doc s) (new_ops (rho doc s) s2) =
      (priority_updates s (new_ops s s1)).map (rho_update doc) := by
  have hs : (rho doc s).sched = s.sched.map (rho_op doc) := rfl
  have lp : ∀ i, last_priority i s2.sched = last_priority i s1.sched := by
    intro i
    rw [← last_priority_filter i s2.sched, ← last_priority_filter i s1.sched, h1, h2, hs,
      List.filter_append, List.filter_append, hm.2, filter_not_cancel_map_rho,
      ← List.map_append, last_priority_map_rho]
  rw [new_ops_eq _ _ _ h1, new_ops_eq _ _ _ h2]
  refine ⟨?_, ?_, ?_⟩
  · unfold window rho_window rho_slot slot_view
    rw [hp, hc, hn]
    cases s1.prev_job <;> cases s1.curr_job <;> cases s1.next_job <;>
      simp only [Option.map_some', Option.map_none', rho_job, lp]
  · intro pg
    unfold cancelled_pages
    simp only [List.mem_map, List.mem_filter, decide_eq_true_eq, mem_held_rho, hm.1]
    constructor
    · rintro ⟨j, ⟨⟨j0, hj0, rfl⟩, hcan⟩, rfl⟩
      exact ⟨j0, ⟨hj0, hcan⟩, (rho_page_rho_page doc j0.page).symm⟩
    · rintro ⟨j0, ⟨hj0, hcan⟩, e⟩
      refine ⟨rho_job doc j0, ⟨⟨j0, hj0, rfl⟩, hcan⟩, ?_⟩
      show rho_page doc j0.page = pg
      rw [e, rho_page_rho_page]
  · rw [← priority_updates_filter, hm.2, priority_updates_map_rho doc s inv,
      priority_updates_filter]

theorem new_job_rho (doc : EvDocument) (id : Nat) (page : Int) :
    new_job doc id (rho_page doc page) = (new_job doc id page).map (rho_job doc) := by
  unfold new_job rho_page
  split_ifs <;> first | rfl | (exfalso; omega)

theorem push_ops_rho (doc : EvDocument) (o : Option EvJob) (p : EvJobPriority) :
    push_ops (o.map (rho_job doc)) p = (push_ops o p).map (rho_op doc) := by
  cases o <;> rfl

theorem cancel_ops_rho (doc : EvDocument) (o : Option EvJob) :
    cancel_ops (o.map (rho_job doc)) = (cancel_ops o).map (rho_op doc) := by
  cases o <;> rfl

theorem bump_rho (doc : EvDocument) (id : Nat) (o : Option EvJob) :
    bump id (o.map (rho_job doc)) = bump id o := by
  cases o <;> rfl

theorem drawn_prev_job (j : EvJob) (s : EvViewPresentation) :
    (drawn j s).prev_job = s.prev_job := by
  unfold drawn; split_ifs <;> rfl

theorem drawn_curr_job (j : EvJob) (s : EvViewPresentation) :
    (drawn j s).curr_job = s.curr_job := by
  unfold drawn; split_ifs <;> rfl

theorem drawn_next_job (j : EvJob) (s : EvViewPresentation) :
    (drawn j s).next_job = s.next_job := by
  unfold drawn; split_ifs <;> rfl

theorem rho_slot_some (doc : EvDocument) (o : Option EvJob) (j' : EvJob) (j : EvJob)
    (h : o = some j) (h' : o.map (rho_job doc) = some j') : j' = rho_job doc j := by
  subst h
  simpa using h'.symm

theorem filter_not_cancel_cancel_ops (o : Option EvJob) :
    (cancel_ops o).filter not_cancel = [] := by
  cases o <;> rfl

theorem mirrorOps_far (doc : EvDocument) (ops : List SchedOp) (a b c : Option EvJob) :
    MirrorOps doc (ops ++ (cancel_ops a ++ (cancel_ops b ++ cancel_ops c)))
      (ops.map (rho_op doc) ++ (cancel_ops (c.map (rho_job doc)) ++
        (cancel_ops (b.map (rho_job doc)) ++ cancel_ops (a.map (rho_job doc))))) := by
  constructor
  · intro i
    simp only [List.mem_append, cancel_mem_map_rho, cancel_ops_rho]
    tauto
  · simp only [List.filter_append, filter_not_cancel_cancel_ops, List.append_nil,
      filter_not_cancel_map_rho]

theorem mirrored_minus_one (doc : EvDocument) (hdoc : doc.valid) (s : EvViewPresentation)
    (inv : WindowInv doc s) (t : Nat) (h : t + 1 = s.current_page) : Mirrored doc s t := by
  have h1 := hdoc.1
  have h2 := hdoc.2
  have hlt := inv.page_lt
  have inv' := windowInv_rho doc s inv
  have hc' : (rho doc s).current_page = (rho_page doc s.current_page).toNat := rfl
  have hpr : (rho doc s).prev_job = s.next_job.map (rho_job doc) := rfl
  have hcr : (rho doc s).curr_job = s.curr_job.map (rho_job doc) := rfl
  have hnr : (rho doc s).next_job = s.prev_job.map (rho_job doc) := rfl
  have hid : (rho doc s).next_job_id = s.next_job_id := rfl
  have ecast := rho_page_cast doc t (by omega)
  have eplus : rho_page doc (t : Int) + 1 = rho_page doc ((t : Int) - 1) := by
    unfold rho_page; omega
  have eminus : rho_page doc (t : Int) - 1 = rho_page doc ((t : Int) + 1) := by
    unfold rho_page; omega
  obtain ⟨jp, jc, a, hjp, hjc, heq1⟩ := update_minus_one doc hdoc s inv t h
  obtain ⟨jc', jn', a', hjc', hjn', heq2⟩ := update_plus_one doc hdoc (rho doc s) inv'
    (rho_page doc t).toNat (by rw [hc']; unfold rho_page; omega) (by unfold rho_page; omega)
  have ec := rho_slot_some doc _ jc' jc hjc (hcr ▸ hjc')
  have en := rho_slot_some doc _ jn' jp hjp (hnr ▸ hjn')
  subst ec en
  rw [ecast, eplus, new_job_rho, hid, hpr] at heq2
  refine ⟨_, _,
    SchedOp.update jc.id EvJobPriority.EV_JOB_PRIORITY_LOW ::
      (push_ops (new_job doc s.next_job_id ((t : Int) - 1)) EvJobPriority.EV_JOB_PRIORITY_HIGH ++
        SchedOp.update jp.id EvJobPriority.EV_JOB_PRIORITY_URGENT :: cancel_ops s.next_job),
    _, heq1, heq2, by rw [drawn_sched]; simp, ?_, mirrorOps_map doc _, ?_, ?_, ?_⟩
  · rw [drawn_sched]
    simp only [List.map_cons, List.map_append, rho_op, push_ops_rho, cancel_ops_rho,
      List.cons_append, List.append_assoc, rho_job]
  · rw [drawn_prev_job, drawn_next_job]; rfl
  · rw [drawn_curr_job, drawn_curr_job]; rfl
  · rw [drawn_next_job, drawn_prev_job]

theorem mirrored_plus_one (doc : EvDocument) (hdoc : doc.valid) (s : EvViewPresentation)
    (inv : WindowInv doc s) (t : Nat) (h : t = s.current_page + 1)
    (ht : (t : Int) < doc.n_pages) : Mirrored doc s t := by
  have h1 := hdoc.1
  have h2 := hdoc.2
  have hlt := inv.page_lt
  have inv' := windowInv_rho doc s inv
  have hc' : (rho doc s).current_page = (rho_page doc s.current_page).toNat := rfl
  have hpr : (rho doc s).prev_job = s.next_job.map (rho_job doc) := rfl
  have hcr : (rho doc s).curr_job = s.curr_job.map (rho_job doc) := rfl
  have hnr : (rho doc s).next_job = s.prev_job.map (rho_job doc) := rfl
  have hid : (rho doc s).next_job_id = s.next_job_id := rfl
  have ecast := rho_page_cast doc t (by omega)
  have eplus : rho_page doc (t : Int) + 1 = rho_page doc ((t : Int) - 1) := by
    unfold rho_page; omega
  have eminus : rho_page doc (t : Int) - 1 = rho_page doc ((t : Int) + 1) := by
    unfold rho_page; omega
  obtain ⟨jc, jn, a, hjc, hjn, heq1⟩ := update_plus_one doc hdoc s inv t h ht
  obtain ⟨jp', jc', a', hjp', hjc', heq2⟩ := update_minus_one doc hdoc (rho doc s) inv'
    (rho_page doc t).toNat (by rw [hc']; unfold rho_page; omega)
  have ec := rho_slot_some doc _ jc' jc hjc (hcr ▸ hjc')
  have ep := rho_slot_some doc _ jp' jn hjn (hpr ▸ hjp')
  subst ec ep
  rw [ecast, eminus, new_job_rho, hid, hnr] at heq2
  refine ⟨_, _,
    SchedOp.update jc.id EvJobPriority.EV_JOB_PRIORITY_LOW ::
      (push_ops (new_job doc s.next_job_id ((t : Int) + 1)) EvJobPriority.EV_JOB_PRIORITY_HIGH ++
        SchedOp.update jn.id EvJobPriority.EV_JOB_PRIORITY_URGENT :: cancel_ops s.prev_job),
    _, heq1, heq2, by rw [drawn_sched]; simp, ?_, mirrorOps_map doc _, ?_, ?_, ?_⟩
  · rw [drawn_sched]
    simp only [List.map_cons, List.map_append, rho_op, push_ops_rho, cancel_ops_rho,
      List.cons_append, List.append_assoc, rho_job]
  · rw [drawn_prev_job, drawn_next_job]
  · rw [drawn_curr_job, drawn_curr_job]; rfl
  · rw [drawn_next_job, drawn_prev_job]; rfl

theorem mirrored_minus_two (doc : EvDocument) (hdoc : doc.valid) (s : EvViewPresentation)
    (inv : WindowInv doc s) (t : Nat) (h : t + 2 = s.current_page) : Mirrored doc s t := by
  have h1 := hdoc.1
  have h2 := hdoc.2
  have hlt := inv.page_lt
  have inv' := windowInv_rho doc s inv
  have hc' : (rho doc s).current_page = (rho_page doc s.current_page).toNat := rfl
  have hpr : (rho doc s).prev_job = s.next_job.map (rho_job doc) := rfl
  have hcr : (rho doc s).curr_job = s.curr_job.map (rho_job doc) := rfl
  have hnr : (rho doc s).next_job = s.prev_job.map (rho_job doc) := rfl
  have hid : (rho doc s).next_job_id = s.next_job_id := rfl
  have ecast := rho_page_cast doc t (by omega)
  have eplus : rho_page doc (t : Int) + 1 = rho_page doc ((t : Int) - 1) := by
    unfold rho_page; omega
  have eminus : rho_page doc (t : Int) - 1 = rho_page doc ((t : Int) + 1) := by
    unfold rho_page; omega
  obtain ⟨jp, a, hjp, heq1⟩ := update_minus_two doc hdoc s inv t h
  obtain ⟨jn', a', hjn', heq2⟩ := update_plus_two doc hdoc (rho doc s) inv'
    (rho_page doc t).toNat (by rw [hc']; unfold rho_page; omega) (by unfold rho_page; omega)
  have en := rho_slot_some doc _ jn' jp hjp (hnr ▸ hjn')
  subst en
  rw [ecast, eplus, new_job_rho, hid, hpr, hcr] at heq2
  refine ⟨_, _,
    SchedOp.update jp.id EvJobPriority.EV_JOB_PRIORITY_LOW ::
      (push_ops (new_job doc (s.next_job_id + 1) ((t : Int) - 1)) EvJobPriority.EV_JOB_PRIORITY_HIGH ++
        SchedOp.push s.next_job_id t EvJobPriority.EV_JOB_PRIORITY_URGENT ::
          (cancel_ops s.curr_job ++ cancel_ops s.next_job)),
    _, heq1, heq2, by simp, ?_, mirrorOps_map doc _, ?_, ?_, ?_⟩
  · simp only [List.map_cons, List.map_append, rho_op, push_ops_rho, cancel_ops_rho,
      List.cons_append, List.append_assoc, rho_job]
  · rfl
  · rfl
  · rfl

theorem mirrored_plus_two (doc : EvDocument) (hdoc : doc.valid) (s : EvViewPresentation)
    (inv : WindowInv doc s) (t : Nat) (h : t = s.current_page + 2)
    (ht : (t : Int) < doc.n_pages) : Mirrored doc s t := by
  have h1 := hdoc.1
  have h2 := hdoc.2
  have hlt := inv.page_lt
  have inv' := windowInv_rho doc s inv
  have hc' : (rho doc s).current_page = (rho_page doc s.current_page).toNat := rfl
  have hpr : (rho doc s).prev_job = s.next_job.map (rho_job doc) := rfl
  have hcr : (rho doc s).curr_job = s.curr_job.map (rho_job doc) := rfl
  have hnr : (rho doc s).next_job = s.prev_job.map (rho_job doc) := rfl
  have hid : (rho doc s).next_job_id = s.next_job_id := rfl
  have ecast := rho_page_cast doc t (by omega)
  have eplus : rho_page doc (t : Int) + 1 = rho_page doc ((t : Int) - 1) := by
    unfold rho_page; omega
  have eminus : rho_page doc (t : Int) - 1 = rho_page doc ((t : Int) + 1) := by
    unfold rho_page; omega
  obtain ⟨jn, a, hjn, heq1⟩ := update_plus_two doc hdoc s inv t h ht
  obtain ⟨jp', a', hjp', heq2⟩ := update_minus_two doc hdoc (rho doc s) inv'
    (rho_page doc t).toNat (by rw [hc']; unfold rho_page; omega)
  have ep := rho_slot_some doc _ jp' jn hjn (hpr ▸ hjp')
  subst ep
  rw [ecast, eminus, new_job_rho, hid, hnr, hcr] at heq2
  refine ⟨_, _,
    SchedOp.update jn.id EvJobPriority.EV_JOB_PRIORITY_LOW ::
      (push_ops (new_job doc (s.next_job_id + 1) ((t : Int) + 1)) EvJobPriority.EV_JOB_PRIORITY_HIGH ++
        SchedOp.push s.next_job_id t EvJobPriority.EV_JOB_PRIORITY_URGENT ::
          (cancel_ops s.curr_job ++ cancel_ops s.prev_job)),
    _, heq1, heq2, by simp, ?_, mirrorOps_map doc _, ?_, ?_, ?_⟩
  · simp only [List.map_cons, List.map_append, rho_op, push_ops_rho, cancel_ops_rho,
      List.cons_append, List.append_assoc, rho_job]
  · rfl
  · rfl
  · rfl

theorem mirrored_backward (doc : EvDocument) (hdoc : doc.valid) (s : EvViewPresentation)
    (inv : WindowInv doc s) (t : Nat) (h : t + 3 ≤ s.current_page) : Mirrored doc s t := by
  have h1 := hdoc.1
  have h2 := hdoc.2
  have hlt := inv.page_lt
  have inv' := windowInv_rho doc s inv
  have hc' : (rho doc s).current_page = (rho_page doc s.current_page).toNat := rfl
  have hpr : (rho doc s).prev_job = s.next_job.map (rho_job doc) := rfl
  have hcr : (rho doc s).curr_job = s.curr_job.map (rho_job doc) := rfl
  have hnr : (rho doc s).next_job = s.prev_job.map (rho_job doc) := rfl
  have hid : (rho doc s).next_job_id = s.next_job_id := rfl
  have ecast := rho_page_cast doc t (by omega)
  have eplus : rho_page doc (t : Int) + 1 = rho_page doc ((t : Int) - 1) := by
    unfold rho_page; omega
  have eminus : rho_page doc (t : Int) - 1 = rho_page doc ((t : Int) + 1) := by
    unfold rho_page; omega
  obtain ⟨a, heq1⟩ := update_backward doc hdoc s inv t h
  obtain ⟨a', heq2⟩ := update_forward doc hdoc (rho doc s) inv'
    (rho_page doc t).toNat (by rw [hc']; unfold rho_page; omega) (by unfold rho_page; omega)
  rw [ecast, eplus, eminus, new_job_rho, bump_rho, hid, hpr, hcr, hnr] at heq2
  refine ⟨_, _, _, _, heq1, heq2, ?_, ?_,
    mirrorOps_far doc
      (SchedOp.push (bump (s.next_job_id + 1) (new_job doc (s.next_job_id + 1) ((t : Int) - 1)))
          ((t : Int) + 1) EvJobPriority.EV_JOB_PRIORITY_LOW ::
        (push_ops (new_job doc (s.next_job_id + 1) ((t : Int) - 1)) EvJobPriority.EV_JOB_PRIORITY_HIGH ++
          [SchedOp.push s.next_job_id t EvJobPriority.EV_JOB_PRIORITY_URGENT]))
      s.next_job s.curr_job s.prev_job, ?_, ?_, ?_⟩
  · simp
  · simp only [List.map_cons, List.map_append, rho_op, push_ops_rho, cancel_ops_rho,
      List.cons_append, List.append_assoc, List.map_nil, List.nil_append, List.singleton_append]
  · rfl
  · rfl
  · rfl

theorem mirrored_forward (doc : EvDocument) (hdoc : doc.valid) (s : EvViewPresentation)
    (inv : WindowInv doc s) (t : Nat) (h : s.current_page + 3 ≤ t)
    (ht : (t : Int) < doc.n_pages) : Mirrored doc s t := by
  have h1 := hdoc.1
  have h2 := hdoc.2
  have hlt := inv.page_lt
  have inv' := windowInv_rho doc s inv
  have hc' : (rho doc s).current_page = (rho_page doc s.current_page).toNat := rfl
  have hpr : (rho doc s).prev_job = s.next_job.map (rho_job doc) := rfl
  have hcr : (rho doc s).curr_job = s.curr_job.map (rho_job doc) := rfl
  have hnr : (rho doc s).next_job = s.prev_job.map (rho_job doc) := rfl
  have hid : (rho doc s).next_job_id = s.next_job_id := rfl
  have ecast := rho_page_cast doc t (by omega)
  have eplus : rho_page doc (t : Int) + 1 = rho_page doc ((t : Int) - 1) := by
    unfold rho_page; omega
  have eminus : rho_page doc (t : Int) - 1 = rho_page doc ((t : Int) + 1) := by
    unfold rho_page; omega
  obtain ⟨a, heq1⟩ := update_forward doc hdoc s inv t h ht
  obtain ⟨a', heq2⟩ := update_backward doc hdoc (rho doc s) inv'
    (rho_page doc t).toNat (by rw [hc']; unfold rho_page; omega)
  rw [ecast, eplus, eminus, new_job_rho, bump_rho, hid, hpr, hcr, hnr] at heq2
  refine ⟨_, _, _, _, heq1, heq2, ?_, ?_,
    mirrorOps_far doc
      (SchedOp.push (bump (s.next_job_id + 1) (new_job doc (s.next_job_id + 1) ((t : Int) + 1)))
          ((t : Int) - 1) EvJobPriority.EV_JOB_PRIORITY_LOW ::
        (push_ops (new_job doc (s.next_job_id + 1) ((t : Int) + 1)) EvJobPriority.EV_JOB_PRIORITY_HIGH ++
          [SchedOp.push s.next_job_id t EvJobPriority.EV_JOB_PRIORITY_URGENT]))
      s.next_job s.curr_job s.prev_job, ?_, ?_, ?_⟩
  · simp
  · simp only [List.map_cons, List.map_append, rho_op, push_ops_rho, cancel_ops_rho,
      List.cons_append, List.append_assoc, List.map_nil, List.nil_append, List.singleton_append]
  · rfl
  · rfl
  · rfl

theorem update_current_page_eq_page (doc : EvDocument) (hdoc : doc.valid)
    (s s' : EvViewPresentation) (inv : WindowInv doc s) (t : Nat)
    (ht : (t : Int) < doc.n_pages)
    (h : ev_view_presentation_update_current_page doc s t = some s') : s'.current_page = t := by
  obtain ⟨s'', hs'', -, hpage, -⟩ := update_inv doc hdoc s inv t ht
  rw [h] at hs''
  cases hs''
  exact hpage

/-- C18: with `rho` the reflection that swaps `prev_job` and `next_job` and
sends every page `i` (the current page and the page of every job) to
`n - 1 - i`: for a session `s` after the initial population and a page `t` of
the document other than the current page,
`ev_view_presentation_update_current_page` returns for `t` in `s` and for
`n - 1 - t` in `rho s`, and the second call gives the reflection of what the
first gives: of the current page, of the window (the pages of the slots and
their priorities), of the set of the pages whose job is cancelled, and of the
list of the priority updates.  So the `case 1` is the mirror of the
`case -1`, and the `case 2` of the `case -2`. -/
theorem reconcile_is_mirror_symmetric (doc : EvDocument) (hdoc : doc.valid) (p : Nat)
    (s : EvViewPresentation) (hr : Reachable doc p s) (t : Nat)
    (ht : (t : Int) < doc.n_pages) (hne : t ≠ s.current_page) :
    ∃ s1 s2, ev_view_presentation_update_current_page doc s t = some s1 ∧
      ev_view_presentation_update_current_page doc (rho doc s) (rho_page doc t).toNat =
        some s2 ∧
      (s2.current_page : Int) = rho_page doc s1.current_page ∧
      window s2 = rho_window doc (window s1) ∧
      (∀ pg, pg ∈ cancelled_pages (rho doc s) (new_ops (rho doc s) s2) ↔
        rho_page doc pg ∈ cancelled_pages s (new_ops s s1)) ∧
      priority_updates (rho doc s) (new_ops (rho doc s) s2) =
        (priority_updates s (new_ops s s1)).map (rho_update doc) := by
  have inv := reachable_inv doc hdoc p s hr
  have inv' := windowInv_rho doc s inv
  have h1 := hdoc.1
  have key : Mirrored doc s t := by
    by_cases c1 : t = s.current_page + 1
    · exact mirrored_plus_one doc hdoc s inv t c1 ht
    by_cases c2 : t + 1 = s.current_page
    · exact mirrored_minus_one doc hdoc s inv t c2
    by_cases c3 : t = s.current_page + 2
    · exact mirrored_plus_two doc hdoc s inv t c3 ht
    by_cases c4 : t + 2 = s.current_page
    · exact mirrored_minus_two doc hdoc s inv t c4
    by_cases c5 : s.current_page + 3 ≤ t
    · exact mirrored_forward doc hdoc s inv t c5 ht
    · exact mirrored_backward doc hdoc s inv t (by omega)
  obtain ⟨s1, s2, ops1, ops2, e1, e2, hs1, hs2, hm, hp, hc, hn⟩ := key
  have hcast := rho_page_cast doc t ht
  have p1 := update_current_page_eq_page doc hdoc s s1 inv t ht e1
  have p2 := update_current_page_eq_page doc hdoc (rho doc s) s2 inv' _
    (by rw [hcast]; unfold rho_page; omega) e2
  obtain ⟨o1, o2, o3⟩ := mirror_observables doc s s1 s2 inv ops1 ops2 hs1 hs2 hm hp hc hn
  exact ⟨s1, s2, e1, e2, by rw [p1, p2, hcast], o1, o2, o3⟩

/-- C18, on ten pages: the call for page 4 at page 5 (a `case -1`), and the
call for page 5 at page 4 in the reflected session (a `case 1`). -/
theorem reconcile_is_mirror_symmetric_witness :
    ∃ s1 s2, ev_view_presentation_update_current_page doc10 session10_5 4 = some s1 ∧
      ev_view_presentation_update_current_page doc10 (rho doc10 session10_5) 5 = some s2 ∧
      (s2.current_page : Int) = rho_page doc10 s1.current_page ∧
      window s2 = rho_window doc10 (window s1) ∧
      (∀ pg, pg ∈ cancelled_pages (rho doc10 session10_5)
          (new_ops (rho doc10 session10_5) s2) ↔
        rho_page doc10 pg ∈ cancelled_pages session10_5 (new_ops session10_5 s1)) ∧
      priority_updates (rho doc10 session10_5) (new_ops (rho doc10 session10_5) s2) =
        (priority_updates session10_5 (new_ops session10_5 s1)).map (rho_update doc10) :=
  reconcile_is_mirror_symmetric doc10 doc10_valid 5 session10_5 reachable_session10_5 4
    (by decide) (by decide)

/-! ## The timer -/

theorem reachable_session10_5_timer : Reachable doc10 5 session10_5_timer :=
  Reachable.step session10_5 session10_5_timer (Event.job_finished 0 7)
    reachable_session10_5 (by decide)

theorem reachable_session10_5_ready : Reachable doc10 5 session10_5_ready :=
  Reachable.step session10_5_timer session10_5_ready (Event.job_finished 1 8)
    reachable_session10_5_timer (by decide)

theorem sameTimer_refl (s : EvViewPresentation) : SameTimer s s := ⟨rfl, rfl, rfl⟩

theorem sameTimer_trans (s s1 s2 : EvViewPresentation) (h1 : SameTimer s s1)
    (h2 : SameTimer s1 s2) : SameTimer s s2 := by
  unfold SameTimer at h1 h2 ⊢
  refine ⟨?_, ?_, ?_⟩
  · rw [h2.1, h1.1]
  · rw [h2.2.1, h1.2.1]
  · rw [h2.2.2, h1.2.2]

theorem sameTimer_drawn (j : EvJob) (s : EvViewPresentation) : SameTimer s (drawn j s) := by
  unfold drawn
  split_ifs <;> exact ⟨rfl, rfl, rfl⟩

theorem sameTimer_set_normal (s : EvViewPresentation) :
    SameTimer s (ev_view_presentation_set_normal s) := by
  unfold ev_view_presentation_set_normal
  split_ifs <;> exact ⟨rfl, rfl, rfl⟩

theorem sameTimer_set_end (s : EvViewPresentation) :
    SameTimer s (ev_view_presentation_set_end s) := by
  unfold ev_view_presentation_set_end
  split_ifs <;> exact ⟨rfl, rfl, rfl⟩

/-- `ev_view_presentation_update_current_page` for a page of the document
leaves the timer as it is. -/
theorem update_sameTimer (doc : EvDocument) (hdoc : doc.valid) (s : EvViewPresentation)
    (inv : WindowInv doc s) (t : Nat) (ht : (t : Int) < doc.n_pages) :
    ∃ s', ev_view_presentation_update_current_page doc s t = some s' ∧ SameTimer s s' := by
  by_cases h0 : t = s.current_page
  · subst h0
    obtain ⟨jc, -, heq⟩ := update_same doc hdoc s inv
    exact ⟨_, heq, sameTimer_trans _ _ _ ⟨rfl, rfl, rfl⟩ (sameTimer_drawn _ _)⟩
  by_cases h1 : t = s.current_page + 1
  · obtain ⟨jc, jn, a, -, -, heq⟩ := update_plus_one doc hdoc s inv t h1 ht
    exact ⟨_, heq, sameTimer_trans _ _ _ ⟨rfl, rfl, rfl⟩ (sameTimer_drawn _ _)⟩
  by_cases h2 : t + 1 = s.current_page
  · obtain ⟨jp, jc, a, -, -, heq⟩ := update_minus_one doc hdoc s inv t h2
    exact ⟨_, heq, sameTimer_trans _ _ _ ⟨rfl, rfl, rfl⟩ (sameTimer_drawn _ _)⟩
  by_cases h3 : t = s.current_page + 2
  · obtain ⟨jn, a, -, heq⟩ := update_plus_two doc hdoc s inv t h3 ht
    exact ⟨_, heq, ⟨rfl, rfl, rfl⟩⟩
  by_cases h4 : t + 2 = s.current_page
  · obtain ⟨jp, a, -, heq⟩ := update_minus_two doc hdoc s inv t h4
    exact ⟨_, heq, ⟨rfl, rfl, rfl⟩⟩
  by_cases h5 : s.current_page + 3 ≤ t
  · obtain ⟨a, heq⟩ := update_forward doc hdoc s inv t h5 ht
    exact ⟨_, heq, ⟨rfl, rfl, rfl⟩⟩
  · obtain ⟨a, heq⟩ := update_backward doc hdoc s inv t (by omega)
    exact ⟨_, heq, ⟨rfl, rfl, rfl⟩⟩

theorem update_any_sameTimer (doc : EvDocument) (hdoc : doc.valid) (s : EvViewPresentation)
    (inv : WindowInv doc s) (page : Nat) :
    ∃ s', ev_view_presentation_update_current_page doc s page = some s' ∧ SameTimer s s' := by
  have h1 := hdoc.1
  have h2 := hdoc.2
  by_cases hp : (page : Int) < doc.n_pages
  · exact update_sameTimer doc hdoc s inv page hp
  · refine ⟨s, ?_, sameTimer_refl s⟩
    unfold ev_view_presentation_update_current_page
    rw [if_pos (by unfold to_guint; omega)]

theorem next_page_sameTimer (doc : EvDocument) (hdoc : doc.valid) (s : EvViewPresentation)
    (inv : WindowInv doc s) :
    ∃ s', ev_view_presentation_next_page doc s = some s' ∧ SameTimer s s' := by
  have hc := inv.page_lt
  have h1 := hdoc.1
  have h2 := hdoc.2
  unfold ev_view_presentation_next_page
  cases hst : s.state with
  | EV_PRESENTATION_BLACK => exact ⟨_, rfl, sameTimer_set_normal s⟩
  | EV_PRESENTATION_WHITE => exact ⟨_, rfl, sameTimer_set_normal s⟩
  | EV_PRESENTATION_END => exact ⟨_, rfl, sameTimer_refl s⟩
  | EV_PRESENTATION_NORMAL =>
    simp only
    split_ifs with hlast
    · exact ⟨_, rfl, sameTimer_set_end s⟩
    · exact update_any_sameTimer doc hdoc s inv _

theorem previous_page_sameTimer (doc : EvDocument) (hdoc : doc.valid) (s : EvViewPresentation)
    (inv : WindowInv doc s) :
    ∃ s', ev_view_presentation_previous_page doc s = some s' ∧ SameTimer s s' := by
  unfold ev_view_presentation_previous_page
  cases hst : s.state with
  | EV_PRESENTATION_BLACK => exact ⟨_, rfl, sameTimer_set_normal s⟩
  | EV_PRESENTATION_WHITE => exact ⟨_, rfl, sameTimer_set_normal s⟩
  | EV_PRESENTATION_END =>
    simp only
    have inv' : WindowInv doc { s with state := EvPresentationState.EV_PRESENTATION_NORMAL } :=
      windowInv_of_key doc s _ rfl inv
    obtain ⟨s', hs', h⟩ := update_any_sameTimer doc hdoc _ inv' (to_guint (to_gint s.current_page))
    exact ⟨s', hs', sameTimer_trans s _ _ ⟨rfl, rfl, rfl⟩ h⟩
  | EV_PRESENTATION_NORMAL =>
    simp only
    exact update_any_sameTimer doc hdoc s inv _

theorem change_page_sameTimer (doc : EvDocument) (hdoc : doc.valid) (s : EvViewPresentation)
    (inv : WindowInv doc s) (scroll : GtkScrollType)
    (hs : scroll ≠ GtkScrollType.GTK_SCROLL_NONE) :
    ∃ s', ev_view_presentation_change_page doc s scroll = some s' ∧ SameTimer s s' := by
  cases scroll with
  | GTK_SCROLL_PAGE_FORWARD => exact next_page_sameTimer doc hdoc s inv
  | GTK_SCROLL_PAGE_BACKWARD => exact previous_page_sameTimer doc hdoc s inv
  | GTK_SCROLL_NONE => exact absurd rfl hs

/-- The animation that `ev_view_presentation_animation_start` creates. -/
theorem animation_start_created (doc : EvDocument) (s : EvViewPresentation) (page : Nat)
    (hp : page < 2147483648) (hc : s.current_page < 2147483648)
    (he : s.enable_animations = true) (hne : s.current_page ≠ page) (e : Nat)
    (heff : doc.effect (page : Int) = some e) (jc : EvJob) (hjc : s.curr_job = some jc)
    (hprev : page + 1 = s.current_page → s.prev_job ≠ none)
    (hnext : page = s.current_page + 1 → s.next_job ≠ none) :
    ev_view_presentation_animation_start doc s (to_gint page) =
      some { s with
        animation := some
          { effect := e
            origin_surface := if jc.surface ≠ none then jc.surface else s.current_surface
            dest_surface :=
              if page + 1 = s.current_page then s.prev_job.bind EvJob.surface
              else if page = s.current_page + 1 then s.next_job.bind EvJob.surface
              else none } } := by
  unfold ev_view_presentation_animation_start
  rw [to_gint_small page hp, to_guint_natCast page (by omega), to_gint_guint_sub page _ hp hc]
  obtain ⟨cp, csurf, rot, st, tid, ea, anim, pj, cj, nj, sched, nid, srcs, nsid, rd⟩ := s
  simp only at hc he hne hjc hprev hnext ⊢
  subst he hjc
  simp only [Bool.not_true, Bool.false_eq_true, ↓reduceIte, hne, heff, Option.bind_eq_bind,
    Option.some_bind, Option.pure_def]
  by_cases hm : page + 1 = cp
  · obtain ⟨jp, hjp⟩ := Option.ne_none_iff_exists'.mp (hprev hm)
    subst hjp
    have e1 : (page : Int) - cp = -1 := by omega
    rw [if_pos hm, e1]
    cases hs : jp.surface <;> simp [hs]
  · rw [if_neg hm]
    have e1 : ¬ ((page : Int) - cp = -1) := by omega
    by_cases h1 : page = cp + 1
    · obtain ⟨jn, hjn⟩ := Option.ne_none_iff_exists'.mp (hnext h1)
      subst hjn
      have e2 : (page : Int) - cp = 1 := by omega
      rw [if_pos h1, e2]
      cases hs : jn.surface <;> simp [hs]
    · have e2 : ¬ ((page : Int) - cp = 1) := by omega
      rw [if_neg h1]
      simp [e1, e2]

theorem drawn_animation (j : EvJob) (s : EvViewPresentation) :
    (drawn j s).animation = s.animation := by
  unfold drawn; split_ifs <;> rfl

/-- The animation of the session after a call for a page of the document is
the one that `ev_view_presentation_animation_start` leaves, called after
`ev_view_presentation_animation_cancel`. -/
theorem update_animation (doc : EvDocument) (hdoc : doc.valid) (s : EvViewPresentation)
    (inv : WindowInv doc s) (t : Nat) (ht : (t : Int) < doc.n_pages) :
    ∃ a s', ev_view_presentation_animation_start doc (ev_view_presentation_animation_cancel s)
        (to_gint t) = some { s with animation := a } ∧
      ev_view_presentation_update_current_page doc s t = some s' ∧ s'.animation = a := by
  have hc := inv.page_lt
  have h2 := hdoc.2
  by_cases h0 : t = s.current_page
  · subst h0
    obtain ⟨jc, -, heq⟩ := update_same doc hdoc s inv
    exact ⟨none, _, animation_start_same doc s (by omega), heq, by rw [drawn_animation]⟩
  by_cases h1 : t = s.current_page + 1
  · obtain ⟨jc, jn, a, ha, -, -, heq⟩ := update_plus_one_anim doc hdoc s inv t h1 ht
    exact ⟨a, _, ha, heq, by rw [drawn_animation]⟩
  by_cases h2 : t + 1 = s.current_page
  · obtain ⟨jp, jc, a, ha, -, -, heq⟩ := update_minus_one_anim doc hdoc s inv t h2
    exact ⟨a, _, ha, heq, by rw [drawn_animation]⟩
  by_cases h3 : t = s.current_page + 2
  · obtain ⟨jn, a, ha, -, heq⟩ := update_plus_two_anim doc hdoc s inv t h3 ht
    exact ⟨a, _, ha, heq, rfl⟩
  by_cases h4 : t + 2 = s.current_page
  · obtain ⟨jp, a, ha, -, heq⟩ := update_minus_two_anim doc hdoc s inv t h4
    exact ⟨a, _, ha, heq, rfl⟩
  by_cases h5 : s.current_page + 3 ≤ t
  · obtain ⟨a, ha, heq⟩ := update_forward_anim doc hdoc s inv t h5 ht
    exact ⟨a, _, ha, heq, rfl⟩
  · obtain ⟨a, ha, heq⟩ := update_backward_anim doc hdoc s inv t (by omega)
    exact ⟨a, _, ha, heq, rfl⟩

/-- C22: for a session after the initial population with the animations
enabled, and a page `t` of the document other than the current page `c` for
which the document has an effect, `ev_view_presentation_update_current_page`
returns, and the animation of the session is the one that
`ev_view_presentation_animation_start` creates after
`ev_view_presentation_animation_cancel` has dropped the one there was: its
origin is the surface of `curr_job` (or the displayed surface), and its
destination is the surface of the `prev_job` of before the call when
`t = c - 1`, the surface of the `next_job` of before the call when
`t = c + 1` (none when that job has no surface yet), and none for any other
`t`. -/
theorem animation_created_on_page_change (doc : EvDocument) (hdoc : doc.valid) (p : Nat)
    (s : EvViewPresentation) (hr : Reachable doc p s) (t : Nat)
    (ht : (t : Int) < doc.n_pages) (hne : t ≠ s.current_page)
    (hen : s.enable_animations = true) (e : Nat) (heff : doc.effect (t : Int) = some e) :
    ∃ jc s' a, s.curr_job = some jc ∧
      (ev_view_presentation_animation_cancel s).animation = none ∧
      ev_view_presentation_animation_start doc (ev_view_presentation_animation_cancel s)
        (to_gint t) = some { s with animation := some a } ∧
      ev_view_presentation_update_current_page doc s t = some s' ∧
      s'.animation = some a ∧
      a.effect = e ∧
      a.origin_surface = (if jc.surface ≠ none then jc.surface else s.current_surface) ∧
      (t + 1 = s.current_page → ∃ jp, s.prev_job = some jp ∧ a.dest_surface = jp.surface) ∧
      (t = s.current_page + 1 → ∃ jn, s.next_job = some jn ∧ a.dest_surface = jn.surface) ∧
      (t + 1 ≠ s.current_page → t ≠ s.current_page + 1 → a.dest_surface = none) := by
  have inv := reachable_inv doc hdoc p s hr
  have hc := inv.page_lt
  have h2 := hdoc.2
  obtain ⟨jc, hjc, -⟩ := inv.curr_some
  obtain ⟨a0, s', ha0, hs', hanim⟩ := update_animation doc hdoc s inv t ht
  have hcancel := animation_cancel_eq s
  have hcr := animation_start_created doc (ev_view_presentation_animation_cancel s) t
    (by omega) (by rw [hcancel]; simp only; omega) (by rw [hcancel]; exact hen)
    (by rw [hcancel]; exact fun h => hne h.symm) e heff jc (by rw [hcancel]; exact hjc)
    (by
      rw [hcancel]
      intro h
      obtain ⟨jp, hjp, -⟩ := inv.prev_some (by simp only at h; omega)
      simp [hjp])
    (by
      rw [hcancel]
      intro h
      obtain ⟨jn, hjn, -⟩ := inv.next_some (by simp only at h; omega)
      simp [hjn])
  rw [hcancel] at hcr ha0
  simp only at hcr
  rw [hcr] at ha0
  simp only [Option.some.injEq, EvViewPresentation.mk.injEq, true_and, and_true] at ha0
  refine ⟨jc, s', _, hjc, by rw [hcancel], by rw [hcancel]; exact hcr, hs',
    hanim.trans ha0.symm, rfl, rfl, ?_, ?_, ?_⟩
  · intro h
    obtain ⟨jp, hjp, -⟩ := inv.prev_some (by omega)
    exact ⟨jp, hjp, by simp only [if_pos h, hjp, Option.some_bind]⟩
  · intro h
    obtain ⟨jn, hjn, -⟩ := inv.next_some (by omega)
    have h' : ¬ (t + 1 = s.current_page) := by omega
    exact ⟨jn, hjn, by simp only [if_neg h', if_pos h, hjn, Option.some_bind]⟩
  · intro h h'
    simp only [if_neg h, if_neg h']

/-- C22, on ten pages from page 5 to page 6, with the pages 5 and 6 rendered:
the animation goes from the surface of page 5 to the surface of page 6. -/
theorem animation_created_on_page_change_witness :
    ∃ s', ev_view_presentation_update_current_page doc10 session10_5_ready 6 = some s' ∧
      s'.animation = some { effect := 7, origin_surface := some 7, dest_surface := some 8 } := by
  obtain ⟨jc, s', a, hjc, -, -, hs', ha, h1, h2, -, h3, -⟩ :=
    animation_created_on_page_change doc10 doc10_valid 5 session10_5_ready
      reachable_session10_5_ready 6 (by decide) (by decide) rfl 7 rfl
  obtain ⟨jn, hjn, h4⟩ := h3 rfl
  cases hjc
  cases hjn
  refine ⟨s', hs', ?_⟩
  rw [ha]
  obtain ⟨e, o, d⟩ := a
  simp only at h1 h2 h4
  subst h1 h2 h4
  rfl

/-- What a call that returns has gone through: the `switch`, and the read of
the surface of `curr_job`. -/
theorem update_some_switch (doc : EvDocument) (s sa s' : EvViewPresentation) (t : Nat)
    (hg : t < to_guint doc.n_pages)
    (ha : ev_view_presentation_animation_start doc (ev_view_presentation_animation_cancel s)
      (to_gint t) = some sa)
    (h : ev_view_presentation_update_current_page doc s t = some s') :
    ∃ s2 jc, update_current_page_switch doc sa t (to_gint (guint_sub t sa.current_page)) =
        some s2 ∧
      s2.curr_job = some jc ∧ s' = drawn jc { s2 with current_page := t } := by
  unfold ev_view_presentation_update_current_page at h
  rw [if_neg (by omega)] at h
  simp only [ha, Option.bind_eq_bind, Option.some_bind] at h
  cases hsw : update_current_page_switch doc sa t (to_gint (guint_sub t sa.current_page)) with
  | none => rw [hsw] at h; cases h
  | some s2 =>
    rw [hsw] at h
    simp only [Option.some_bind] at h
    obtain ⟨cp, csurf, rot, st, tid, ea, anim, pj, cj, nj, sched, nid, srcs, nsid, rd⟩ := s2
    cases cj with
    | none => cases h
    | some jc =>
      simp only [Option.some_bind] at h
      refine ⟨_, jc, rfl, rfl, ?_⟩
      unfold drawn
      split_ifs at h ⊢ <;> exact (Option.some.inj h).symm

/-- C23: in a session after the initial population, for a page `t` of the
document, no pointer that `ev_view_presentation_update_current_page` and
`ev_view_presentation_animation_start` use without a test is `NULL`:
`curr_job`, whose surface is read for the origin of the animation, is not
empty, nor is `prev_job` when `t = c - 1` and `next_job` when `t = c + 1`,
whose surface is read for the destination, so
`ev_view_presentation_animation_start` returns; the `switch` returns, and the
job given to `ev_job_scheduler_update_job` at its end in the `case -1`
(`next_job`) and in the `case 1` (`prev_job`) is the job that was in
`curr_job`; `curr_job` is not empty when its surface is read for the redraw;
and the call returns. -/
theorem no_null_slot_is_used (doc : EvDocument) (hdoc : doc.valid) (p : Nat)
    (s : EvViewPresentation) (hr : Reachable doc p s) (t : Nat)
    (ht : (t : Int) < doc.n_pages) :
    ∃ sa s2 s' jc jc',
      s.curr_job = some jc ∧
      (t + 1 = s.current_page → s.prev_job ≠ none) ∧
      (t = s.current_page + 1 → s.next_job ≠ none) ∧
      ev_view_presentation_animation_start doc (ev_view_presentation_animation_cancel s)
        (to_gint t) = some sa ∧
      update_current_page_switch doc sa t (to_gint (guint_sub t sa.current_page)) = some s2 ∧
      (t + 1 = s.current_page → s2.next_job = some jc) ∧
      (t = s.current_page + 1 → s2.prev_job = some jc) ∧
      s2.curr_job = some jc' ∧
      ev_view_presentation_update_current_page doc s t = some s' := by
  have inv := reachable_inv doc hdoc p s hr
  obtain ⟨jc, hjc, -⟩ := inv.curr_some
  obtain ⟨a, s', ha, hs', -⟩ := update_animation doc hdoc s inv t ht
  obtain ⟨s2, jc', hsw, hj2, hd⟩ := update_some_switch doc s _ s' t
    (page_lt_guint doc hdoc t ht) ha hs'
  refine ⟨_, s2, s', jc, jc', hjc, ?_, ?_, ha, hsw, ?_, ?_, hj2, hs'⟩
  · intro h
    obtain ⟨jp, hjp, -⟩ := inv.prev_some (by omega)
    rw [hjp]
    exact Option.some_ne_none _
  · intro h
    have hlt : (s.current_page : Int) + 1 < doc.n_pages := by omega
    obtain ⟨jn, hjn, -⟩ := inv.next_some hlt
    rw [hjn]
    exact Option.some_ne_none _
  · intro h
    obtain ⟨jp, jc0, a0, hjp, hjc0, heq⟩ := update_minus_one doc hdoc s inv t h
    rw [hjc] at hjc0
    cases hjc0
    rw [hs'] at heq
    have e1 := congrArg EvViewPresentation.next_job (Option.some.inj heq)
    rw [hd, drawn_next_job, drawn_next_job] at e1
    exact e1
  · intro h
    obtain ⟨jc0, jn, a0, hjc0, hjn, heq⟩ := update_plus_one doc hdoc s inv t h ht
    rw [hjc] at hjc0
    cases hjc0
    rw [hs'] at heq
    have e1 := congrArg EvViewPresentation.prev_job (Option.some.inj heq)
    rw [hd, drawn_prev_job, drawn_prev_job] at e1
    exact e1

/-- C23, on ten pages: from page 5 to page 4 every step returns; and in the
new session, whose slots are empty, the same call does not:
`ev_view_presentation_animation_start` reads the surface of a `curr_job` that
is `NULL`, and the `case -1` gives a `next_job` that is `NULL` to
`ev_job_scheduler_update_job`. -/
theorem no_null_slot_is_used_witness :
    ev_view_presentation_update_current_page doc10 (g_object_new doc10 5 0) 4 = none ∧
    ev_view_presentation_animation_start doc10
      (ev_view_presentation_animation_cancel (g_object_new doc10 5 0)) (to_gint 4) = none ∧
    update_current_page_switch doc10 (g_object_new doc10 5 0) 4 (-1) = none ∧
    ∃ sa s2 s' jc jc',
      session10_5.curr_job = some jc ∧
      (4 + 1 = session10_5.current_page → session10_5.prev_job ≠ none) ∧
      (4 = session10_5.current_page + 1 → session10_5.next_job ≠ none) ∧
      ev_view_presentation_animation_start doc10
        (ev_view_presentation_animation_cancel session10_5) (to_gint 4) = some sa ∧
      update_current_page_switch doc10 sa 4 (to_gint (guint_sub 4 sa.current_page)) =
        some s2 ∧
      (4 + 1 = session10_5.current_page → s2.next_job = some jc) ∧
      (4 = session10_5.current_page + 1 → s2.prev_job = some jc) ∧
      s2.curr_job = some jc' ∧
      ev_view_presentation_update_current_page doc10 session10_5 4 = some s' :=
  ⟨by decide, by decide, by decide,
    no_null_slot_is_used doc10 doc10_valid 5 session10_5 reachable_session10_5 4 (by decide)⟩

end Evince
